import Mathlib

/-!
# altsim.h: grid fluid step (advection, projection, slip, density transport)

A shallow embedding of `src/csim/altsim.h`.

* `double` values are exact rationals (`ℚ`): the rounding of `double` arithmetic is not
  modelled, the literals `1.01`, `0.9`, `1.5`, `0.5` are `101/100`, `9/10`, `3/2`, `1/2`.
* The variables `xa`, `ya`, `s`, `t` of `C_advect_velocity` are `float` (line 30). The
  function is embedded twice. `C_advect_velocity` keeps these variables exact, as if they
  were `double`; `C_advect_velocity_float` rounds every value stored in them to single
  precision (`toFloat`: 24-bit significand, round to nearest, ties to even, exponent
  range unbounded). The two differ in what the clamp of lines 43-44 yields: `N - 101/100`,
  or the `float` nearest to it, which is `N - 1` from `N = 262146` on.
* A pointer to an array is a total map from indices to values; `ptrAdd` is pointer
  arithmetic, `store` is an assignment through the pointer.
* `int` grid sizes and loop counters are naturals (they are non-negative in every loop),
  the cached cell indices keep the type `Int` of `advect_indexes`.
* Every `#pragma omp for` loop is run in increasing index order.
-/

namespace AltSim

/-! ## Memory and loops -/

/-- Contents of a `double *` array. -/
abbrev Buf := Nat → ℚ

/-- Contents of an `int *` array. -/
abbrev IBuf := Nat → Int

/-- Contents of the `unsigned char *` boundary mask: `0` is fluid, non-zero is solid. -/
abbrev Mask := Nat → Nat

/-- The assignment `b[i] = x`. -/
def store {α : Type} (b : Nat → α) (i : Nat) (x : α) : Nat → α :=
  fun j => if j = i then x else b j

/-- The pointer `b + off`, read at non-negative offsets. -/
def ptrAdd {α : Type} (b : Nat → α) (off : Int) : Nat → α :=
  fun j => b (off + (j : Int)).toNat

/-- The array `b` after the part starting at `off` was replaced by `view`
(writes made through the pointer `b + off`). -/
def ptrWriteBack {α : Type} (b : Nat → α) (off : Nat) (view : Nat → α) : Nat → α :=
  fun k => if off ≤ k then view (k - off) else b k

/-- Runs `body lo`, `body (lo+1)`, ..., `body (lo+n-1)` in this order. -/
def loopN {σ : Type} : Nat → Nat → (Nat → σ → σ) → σ → σ
  | 0, _, _, s => s
  | n + 1, lo, body, s => body (lo + n) (loopN n lo body s)

/-- The loop `for (i = lo; i < hi; ++i) body`. -/
def forLoop {σ : Type} (lo hi : Nat) (body : Nat → σ → σ) (s : σ) : σ :=
  loopN (hi - lo) lo body s

/-- The conversion `(int) q` of C: truncation toward zero. -/
def cTrunc (q : ℚ) : Int := if q < 0 then ⌈q⌉ else ⌊q⌋

/-! ## Constants (lines 7-9) -/

def num_loops : Nat := 3

def accuracy_mode : Nat := 1

def pressure_solve_steps : Nat := 20

/-! ## `advect_sample` (lines 11-14) -/

/-- Bilinear sample of the 2x2 block `v[0], v[1], v[Ny], v[Ny+1]`. -/
def advect_sample (v : Nat → ℚ) (Ny : Nat) (s t : ℚ) : ℚ :=
  (1 - s) * ((1 - t) * v 0 + t * v 1) + s * ((1 - t) * v Ny + t * v (Ny + 1))

/-! ## `C_advect_velocity` (lines 16-69) -/

/-- The three arrays `C_advect_velocity` writes. -/
structure AdvectOut where
  v : Buf
  advect_indexes : IBuf
  advect_lerps : Buf

/-- Line 43 / 44 in exact arithmetic: `a < 0.0 ? 0.0 : (a >= N - 1.01) ? (N - 1.01) : a`,
not rounded to `float` (see `clampTraceFloat`). -/
def clampTrace (a : ℚ) (N : Nat) : ℚ :=
  if a < 0 then 0 else if a ≥ (N : ℚ) - 101 / 100 then (N : ℚ) - 101 / 100 else a

/-- The value of `xa` after line 43, for the cell `(x, y)`, in exact arithmetic. -/
def tracedXa (v0 : Buf) (Nx Ny : Nat) (dx dt : ℚ) (x y : Nat) : ℚ :=
  clampTrace ((x : ℚ) - dt * v0 (0 + (y + x * Ny)) / dx) Nx

/-- The value of `ya` after line 44, for the cell `(x, y)`, in exact arithmetic. -/
def tracedYa (v0 : Buf) (Nx Ny : Nat) (dy dt : ℚ) (x y : Nat) : ℚ :=
  clampTrace ((y : ℚ) - dt * v0 (Nx * Ny + (y + x * Ny)) / dy) Ny

/-- Body of the loops of `C_advect_velocity` (lines 38-64), in exact arithmetic. -/
def advectCell (v0 : Buf) (bound : Mask) (Nx Ny : Nat) (dx dy dt : ℚ) (x y : Nat)
    (st : AdvectOut) : AdvectOut :=
  let vyidx := Nx * Ny
  let idx := y + x * Ny
  let xa := tracedXa v0 Nx Ny dx dt x y
  let ya := tracedYa v0 Nx Ny dy dt x y
  let xi := cTrunc xa
  let yi := cTrunc ya
  let s := xa - (xi : ℚ)
  let t := ya - (yi : ℚ)
  let ai := store (store st.advect_indexes (0 + idx) xi) (vyidx + idx) yi
  let al := store (store st.advect_lerps (0 + idx) s) (vyidx + idx) t
  if bound idx = 0 then
    let iidx : Int := yi + xi * (Ny : Int)
    { v := store (store st.v (0 + idx) (advect_sample (ptrAdd v0 iidx) Ny s t))
        (vyidx + idx) (advect_sample (ptrAdd v0 ((vyidx : Int) + iidx)) Ny s t)
      advect_indexes := ai
      advect_lerps := al }
  else
    { v := store (store st.v (0 + idx) (v0 (0 + idx))) (vyidx + idx) (v0 (vyidx + idx))
      advect_indexes := ai
      advect_lerps := al }

/-- The function `C_advect_velocity` in exact arithmetic. -/
def C_advect_velocity (v v0 : Buf) (bound : Mask) (advect_indexes : IBuf)
    (advect_lerps : Buf) (Nx Ny : Nat) (dx dy dt : ℚ) : AdvectOut :=
  forLoop 0 Nx (fun x st =>
    forLoop 0 Ny (fun y st => advectCell v0 bound Nx Ny dx dy dt x y st) st)
    { v := v, advect_indexes := advect_indexes, advect_lerps := advect_lerps }

/-! ## `C_advect_velocity` with its `float` variables (line 30) -/

/-- Rounding to the nearest integer, a tie going to the even one. -/
def roundEven (x : ℚ) : Int :=
  if x - (⌊x⌋ : ℚ) < 1 / 2 then ⌊x⌋
  else if 1 / 2 < x - (⌊x⌋ : ℚ) then ⌊x⌋ + 1
  else if ⌊x⌋ % 2 = 0 then ⌊x⌋ else ⌊x⌋ + 1

/-- The conversion `(float) q` of a `double` to single precision: the nearest multiple of
the unit in the last place `2 ^ (e - 23)` of the binade `2 ^ e ≤ |q| < 2 ^ (e + 1)`, a tie
going to the even multiple. The exponent range is not bounded (no overflow, no
subnormal numbers). -/
def toFloat (q : ℚ) : ℚ :=
  if q = 0 then 0
  else (roundEven (q / (2 : ℚ) ^ (Int.log 2 |q| - 23)) : ℚ) * (2 : ℚ) ^ (Int.log 2 |q| - 23)

/-- Lines 40 and 43 (41 and 44) with the type `float` of `xa`: the traced position `a` is
stored in the `float` variable, the conditional expression is evaluated in `double`, and
its value is stored in the `float` variable again. -/
def clampTraceFloat (a : ℚ) (N : Nat) : ℚ :=
  toFloat (if toFloat a < 0 then 0
    else if toFloat a ≥ (N : ℚ) - 101 / 100 then (N : ℚ) - 101 / 100 else toFloat a)

/-- The `float` value of `xa` after line 43, for the cell `(x, y)`. -/
def tracedXaFloat (v0 : Buf) (Nx Ny : Nat) (dx dt : ℚ) (x y : Nat) : ℚ :=
  clampTraceFloat ((x : ℚ) - dt * v0 (0 + (y + x * Ny)) / dx) Nx

/-- The `float` value of `ya` after line 44, for the cell `(x, y)`. -/
def tracedYaFloat (v0 : Buf) (Nx Ny : Nat) (dy dt : ℚ) (x y : Nat) : ℚ :=
  clampTraceFloat ((y : ℚ) - dt * v0 (Nx * Ny + (y + x * Ny)) / dy) Ny

/-- Body of the loops of `C_advect_velocity` (lines 38-64), the variables `xa`, `ya`, `s`,
`t` being `float`. -/
def advectCellFloat (v0 : Buf) (bound : Mask) (Nx Ny : Nat) (dx dy dt : ℚ) (x y : Nat)
    (st : AdvectOut) : AdvectOut :=
  let vyidx := Nx * Ny
  let idx := y + x * Ny
  let xa := tracedXaFloat v0 Nx Ny dx dt x y
  let ya := tracedYaFloat v0 Nx Ny dy dt x y
  let xi := cTrunc xa
  let yi := cTrunc ya
  let s := toFloat (xa - (xi : ℚ))
  let t := toFloat (ya - (yi : ℚ))
  let ai := store (store st.advect_indexes (0 + idx) xi) (vyidx + idx) yi
  let al := store (store st.advect_lerps (0 + idx) s) (vyidx + idx) t
  if bound idx = 0 then
    let iidx : Int := yi + xi * (Ny : Int)
    { v := store (store st.v (0 + idx) (advect_sample (ptrAdd v0 iidx) Ny s t))
        (vyidx + idx) (advect_sample (ptrAdd v0 ((vyidx : Int) + iidx)) Ny s t)
      advect_indexes := ai
      advect_lerps := al }
  else
    { v := store (store st.v (0 + idx) (v0 (0 + idx))) (vyidx + idx) (v0 (vyidx + idx))
      advect_indexes := ai
      advect_lerps := al }

/-- The function `C_advect_velocity` with the single-precision rounding of its `float`
variables. -/
def C_advect_velocity_float (v v0 : Buf) (bound : Mask) (advect_indexes : IBuf)
    (advect_lerps : Buf) (Nx Ny : Nat) (dx dy dt : ℚ) : AdvectOut :=
  forLoop 0 Nx (fun x st =>
    forLoop 0 Ny (fun y st => advectCellFloat v0 bound Nx Ny dx dy dt x y st) st)
    { v := v, advect_indexes := advect_indexes, advect_lerps := advect_lerps }

/-! ## `C_apply_advection` (lines 71-93) -/

/-- Body of the loops of `C_apply_advection` (lines 82-89). -/
def applyCell (d0 : Buf) (bound : Mask) (advect_indexes : IBuf) (advect_lerps : Buf)
    (Nx Ny : Nat) (x y : Nat) (d : Buf) : Buf :=
  let vyidx := Nx * Ny
  let idx := y + x * Ny
  if bound idx = 0 then
    let iidx : Int := advect_indexes (vyidx + idx) + advect_indexes idx * (Ny : Int)
    store d (0 + idx)
      (advect_sample (ptrAdd d0 iidx) Ny (advect_lerps idx) (advect_lerps (vyidx + idx)))
  else
    store d (0 + idx) (d (0 + idx) * (9 / 10))

def C_apply_advection (d d0 : Buf) (bound : Mask) (advect_indexes : IBuf)
    (advect_lerps : Buf) (Nx Ny : Nat) : Buf :=
  forLoop 0 Nx (fun x d =>
    forLoop 0 Ny (fun y d => applyCell d0 bound advect_indexes advect_lerps Nx Ny x y d) d) d

/-! ## `C_pressure_solve` (lines 95-158) -/

/-- The two local pointers of `C_pressure_solve`, as the contents of the arrays they
point to; `swapped` records whether they currently point to each other's original
array. -/
structure PressureState where
  pressure : Buf
  pressure_buffer : Buf
  swapped : Bool

/-- Lines 113-115: `pressure[x] *= bound[x] ? 0.9 : 1.0`. -/
def pressureDecay (pressure : Buf) (bound : Mask) (Nx Ny : Nat) : Buf :=
  forLoop 0 (Nx * Ny) (fun x p => store p x (p x * (if bound x ≠ 0 then 9 / 10 else 1)))
    pressure

/-- Lines 126-129: zero the first and last cell of every column. -/
def resetRows (pressure_buffer : Buf) (Nx Ny : Nat) : Buf :=
  forLoop 0 Nx (fun x b => store (store b (x * Ny) 0) ((x + 1) * Ny - 1) 0) pressure_buffer

/-- Lines 132-135: zero the first and last column. -/
def resetCols (pressure_buffer : Buf) (Nx Ny : Nat) : Buf :=
  forLoop 0 Ny (fun y b => store (store b y 0) (y + Ny * (Nx - 1)) 0) pressure_buffer

/-- Right-hand side of lines 141-146. -/
def jacobiValue (pressure div : Buf) (bound : Mask) (Ny : Nat) (dx dy : ℚ) (idx : Nat) : ℚ :=
  (1 / 4) * (
    (if bound (idx - 1) ≠ 0 then pressure idx else pressure (idx - 1))
    + (if bound (idx + 1) ≠ 0 then pressure idx else pressure (idx + 1))
    + (if bound (idx - Ny) ≠ 0 then pressure idx else pressure (idx - Ny))
    + (if bound (idx + Ny) ≠ 0 then pressure idx else pressure (idx + Ny))
      - dx * dy * div idx)

/-- Lines 138-148: the interior update of one Jacobi iteration. -/
def jacobiInterior (pressure_buffer pressure div : Buf) (bound : Mask) (Nx Ny : Nat)
    (dx dy : ℚ) : Buf :=
  forLoop 1 (Nx - 1) (fun x b =>
    forLoop 1 (Ny - 1) (fun y b =>
      store b (y + x * Ny) (jacobiValue pressure div bound Ny dx dy (y + x * Ny))) b)
    pressure_buffer

/-- One pass of the loop over `k` (lines 125-154), pointer swap included. -/
def jacobiIter (div : Buf) (bound : Mask) (Nx Ny : Nat) (dx dy : ℚ)
    (st : PressureState) : PressureState :=
  let buf := jacobiInterior (resetCols (resetRows st.pressure_buffer Nx Ny) Nx Ny)
    st.pressure div bound Nx Ny dx dy
  { pressure := buf, pressure_buffer := st.pressure, swapped := !st.swapped }

/-- The local state of `C_pressure_solve` after `steps` iterations of the loop over `k`. -/
def pressureLoop (steps : Nat) (pressure pressure_buffer div : Buf) (bound : Mask)
    (Nx Ny : Nat) (dx dy : ℚ) : PressureState :=
  forLoop 0 steps (fun _ st => jacobiIter div bound Nx Ny dx dy st)
    { pressure := pressureDecay pressure bound Nx Ny, pressure_buffer := pressure_buffer,
      swapped := false }

/-- The caller's array `pressure` in a local state. -/
def PressureState.callerPressure (st : PressureState) : Buf :=
  if st.swapped then st.pressure_buffer else st.pressure

/-- The caller's array `pressure_buffer` in a local state. -/
def PressureState.callerBuffer (st : PressureState) : Buf :=
  if st.swapped then st.pressure else st.pressure_buffer

/-- The caller's arrays `(pressure, pressure_buffer)` after the call. -/
def C_pressure_solve (pressure pressure_buffer div : Buf) (bound : Mask) (Nx Ny : Nat)
    (dx dy : ℚ) : Buf × Buf :=
  let st := pressureLoop pressure_solve_steps pressure pressure_buffer div bound Nx Ny dx dy
  (st.callerPressure, st.callerBuffer)

/-! ## `C_divergence` (lines 160-182) -/

/-- Right-hand side of lines 176-179. -/
def divergenceValue (v : Buf) (bound : Mask) (Nx Ny : Nat) (dx dy : ℚ) (idx : Nat) : ℚ :=
  (if bound (idx + Ny) ≠ 0 then 0 else v (idx + Ny) / (2 * dx))
    - (if bound (idx - Ny) ≠ 0 then 0 else v (idx - Ny) / (2 * dx))
    + (if bound (idx + 1) ≠ 0 then 0 else v (Nx * Ny + idx + 1) / (2 * dy))
    - (if bound (idx - 1) ≠ 0 then 0 else v (Nx * Ny + idx - 1) / (2 * dy))

def C_divergence (div v : Buf) (bound : Mask) (Nx Ny : Nat) (dx dy : ℚ) : Buf :=
  forLoop 1 (Nx - 1) (fun x d =>
    forLoop 1 (Ny - 1) (fun y d =>
      store d (y + x * Ny) (divergenceValue v bound Nx Ny dx dy (y + x * Ny))) d) div

/-! ## `C_sub_gradient` (lines 184-205) -/

/-- Body of the loops of `C_sub_gradient` (lines 200-202). -/
def subGradientCell (v0 p : Buf) (bound : Mask) (Nx Ny : Nat) (dx dy : ℚ) (x y : Nat)
    (v : Buf) : Buf :=
  let vyidx := Nx * Ny
  let idx := y + x * Ny
  let v := store v idx
    (if bound idx ≠ 0 then v0 idx else v0 idx - 1 / (2 * dx) * (p (idx + Ny) - p (idx - Ny)))
  store v (vyidx + idx)
    (if bound idx ≠ 0 then v0 (vyidx + idx)
      else v0 (vyidx + idx) - 1 / (2 * dy) * (p (idx + 1) - p (idx - 1)))

def C_sub_gradient (v v0 p : Buf) (bound : Mask) (Nx Ny : Nat) (dx dy : ℚ) : Buf :=
  forLoop 1 (Nx - 1) (fun x v =>
    forLoop 1 (Ny - 1) (fun y v => subGradientCell v0 p bound Nx Ny dx dy x y v) v) v

/-! ## `C_enforce_slip` (lines 207-246) -/

/-- Body of the loops of `C_enforce_slip` (lines 233-242): reads and writes `v`. -/
def slipCell (bound : Mask) (Nx Ny : Nat) (x y : Nat) (v : Buf) : Buf :=
  let vyidx := Nx * Ny
  let idx := y + x * Ny
  let v := store v idx
    (if bound idx ≠ 0 then v idx
      else if bound (idx + Ny) ≠ 0 then v (idx + Ny)
      else if bound (idx - Ny) ≠ 0 then v (idx - Ny) else v idx)
  store v (vyidx + idx)
    (if bound idx ≠ 0 then v (vyidx + idx)
      else if bound (idx + 1) ≠ 0 then v (vyidx + idx + 1)
      else if bound (idx - 1) ≠ 0 then v (vyidx + idx - 1) else v (vyidx + idx))

def C_enforce_slip (v : Buf) (bound : Mask) (Nx Ny : Nat) : Buf :=
  forLoop 1 (Nx - 1) (fun x v =>
    forLoop 1 (Ny - 1) (fun y v => slipCell bound Nx Ny x y v) v) v

/-! ## `C_step` (lines 248-314) -/

/-- Every array `C_step` receives a pointer to. -/
structure SimState where
  v : Buf
  vtmp : Buf
  vtmp2 : Buf
  p : Buf
  div : Buf
  density_arrays : Buf
  advect_indexes : IBuf
  advect_lerps : Buf

/-- Lines 277-287: the BFECC advection; the result is left in `vtmp`. -/
def bfeccAdvect (bound : Mask) (Nx Ny : Nat) (dx dy dt : ℚ) (s : SimState) : SimState :=
  let a1 := C_advect_velocity s.vtmp2 s.v bound s.advect_indexes s.advect_lerps Nx Ny dx dy dt
  let a2 := C_advect_velocity s.vtmp a1.v bound a1.advect_indexes a1.advect_lerps
    Nx Ny dx dy (-dt)
  let vtmp2 := forLoop 0 (Nx * Ny * 2)
    (fun x w => store w x (3 / 2 * s.v x - 1 / 2 * a2.v x)) a1.v
  let a3 := C_advect_velocity a2.v vtmp2 bound a2.advect_indexes a2.advect_lerps
    Nx Ny dx dy dt
  { s with vtmp := a3.v, vtmp2 := vtmp2, advect_indexes := a3.advect_indexes,
           advect_lerps := a3.advect_lerps }

/-- Line 290: the standard advection; the result is left in `vtmp`. -/
def standardAdvect (bound : Mask) (Nx Ny : Nat) (dx dy dt : ℚ) (s : SimState) : SimState :=
  let a := C_advect_velocity s.vtmp s.v bound s.advect_indexes s.advect_lerps Nx Ny dx dy dt
  { s with vtmp := a.v, advect_indexes := a.advect_indexes, advect_lerps := a.advect_lerps }

/-- Lines 302-308: density array `j` is copied to `vtmp` and advected in place. -/
def densityPass (bound : Mask) (Nx Ny : Nat) (j : Nat) (s : SimState) : SimState :=
  let idx := Nx * Ny * j
  let vtmp := forLoop 0 (Nx * Ny) (fun x w => store w x (s.density_arrays (idx + x))) s.vtmp
  let d := C_apply_advection (ptrAdd s.density_arrays (idx : Int)) vtmp bound
    s.advect_indexes s.advect_lerps Nx Ny
  { s with vtmp := vtmp, density_arrays := ptrWriteBack s.density_arrays idx d }

/-- One pass of the loop over `i` (lines 273-309). -/
def subStep (num_density_arrays : Nat) (bound : Mask) (Nx Ny : Nat) (dx dy dt : ℚ)
    (s : SimState) : SimState :=
  let s := if accuracy_mode = 1 then bfeccAdvect bound Nx Ny dx dy dt s
    else standardAdvect bound Nx Ny dx dy dt s
  let div := C_divergence s.div s.vtmp bound Nx Ny dx dy
  let pr := C_pressure_solve s.p s.vtmp2 div bound Nx Ny dx dy
  let v := C_sub_gradient s.v s.vtmp pr.1 bound Nx Ny dx dy
  let v := C_enforce_slip v bound Nx Ny
  let s := { s with v := v, vtmp2 := pr.2, p := pr.1, div := div }
  forLoop 0 num_density_arrays (fun j s => densityPass bound Nx Ny j s) s

def C_step (s : SimState) (num_density_arrays : Nat) (bound : Mask) (Nx Ny : Nat)
    (dx dy dt0 : ℚ) : SimState :=
  let dt := dt0 / (num_loops : ℚ)
  forLoop 0 num_loops (fun _ s => subStep num_density_arrays bound Nx Ny dx dy dt s) s

/-! ## Cell-wise description of the advection -/

/-- The cell index `xi` of line 46 for the cell `(x, y)`. -/
def cellXi (v0 : Buf) (Nx Ny : Nat) (dx dt : ℚ) (x y : Nat) : Int :=
  cTrunc (tracedXa v0 Nx Ny dx dt x y)

/-- The cell index `yi` of line 47 for the cell `(x, y)`. -/
def cellYi (v0 : Buf) (Nx Ny : Nat) (dy dt : ℚ) (x y : Nat) : Int :=
  cTrunc (tracedYa v0 Nx Ny dy dt x y)

/-- The fraction `s` of line 49 for the cell `(x, y)`. -/
def cellS (v0 : Buf) (Nx Ny : Nat) (dx dt : ℚ) (x y : Nat) : ℚ :=
  tracedXa v0 Nx Ny dx dt x y - (cellXi v0 Nx Ny dx dt x y : ℚ)

/-- The fraction `t` of line 50 for the cell `(x, y)`. -/
def cellT (v0 : Buf) (Nx Ny : Nat) (dy dt : ℚ) (x y : Nat) : ℚ :=
  tracedYa v0 Nx Ny dy dt x y - (cellYi v0 Nx Ny dy dt x y : ℚ)

/-- The offset `iidx` of line 58 for the cell `(x, y)`. -/
def cellIidx (v0 : Buf) (Nx Ny : Nat) (dx dy dt : ℚ) (x y : Nat) : Int :=
  cellYi v0 Nx Ny dy dt x y + cellXi v0 Nx Ny dx dt x y * (Ny : Int)

/-- The value lines 57-64 assign to the output at cell `(x, y)` in the component that
starts at `plane` (`0` for x, `Nx * Ny` for y). -/
def advectValue (v0 : Buf) (bound : Mask) (Nx Ny : Nat) (dx dy dt : ℚ) (plane x y : Nat) : ℚ :=
  if bound (y + x * Ny) = 0 then
    advect_sample
      (ptrAdd v0 ((plane : Int) + (cellYi v0 Nx Ny dy dt x y + cellXi v0 Nx Ny dx dt x y * (Ny : Int))))
      Ny (cellS v0 Nx Ny dx dt x y) (cellT v0 Nx Ny dy dt x y)
  else v0 (plane + (y + x * Ny))

/-- The value lines 57-64 assign to the output at cell `(x, y)` in the component that
starts at `plane`, the variables `xa`, `ya`, `s`, `t` being `float`. -/
def advectValueFloat (v0 : Buf) (bound : Mask) (Nx Ny : Nat) (dx dy dt : ℚ) (plane x y : Nat) :
    ℚ :=
  if bound (y + x * Ny) = 0 then
    advect_sample
      (ptrAdd v0 ((plane : Int) + (cTrunc (tracedYaFloat v0 Nx Ny dy dt x y)
        + cTrunc (tracedXaFloat v0 Nx Ny dx dt x y) * (Ny : Int))))
      Ny
      (toFloat (tracedXaFloat v0 Nx Ny dx dt x y - (cTrunc (tracedXaFloat v0 Nx Ny dx dt x y) : ℚ)))
      (toFloat (tracedYaFloat v0 Nx Ny dy dt x y - (cTrunc (tracedYaFloat v0 Nx Ny dy dt x y) : ℚ)))
  else v0 (plane + (y + x * Ny))

/-- The fraction `s` (or `t`) that lines 43-49 compute at the clamp value of a grid of
size `N`: the `float` nearest to `N - 1.01`, minus its integer part `N - 2`. -/
def clampFraction (N : Nat) : ℚ :=
  toFloat (toFloat ((N : ℚ) - 101 / 100) - ((N : ℚ) - 2))

/-! ## The pressure solver in the words of the specification -/

/-- The decay `D` before the iterations: solid cells are multiplied by 0.9. -/
def decaySpec (bound : Mask) (p : Buf) : Buf :=
  fun i => if bound i ≠ 0 then 9 / 10 * p i else p i

/-- One Jacobi step `J`: a cell `i = y + x * Ny` of the outer ring becomes 0, an interior
cell becomes `(n1 + n2 + n3 + n4 - dx*dy*div[i]) / 4`, where each of the four
axis-neighbour values is replaced by the cell's own value when that neighbour is solid. -/
def jacobiStepSpec (div : Buf) (bound : Mask) (Nx Ny : Nat) (dx dy : ℚ) (p : Buf) : Buf :=
  fun i =>
    if i / Ny = 0 ∨ i / Ny = Nx - 1 ∨ i % Ny = 0 ∨ i % Ny = Ny - 1 then 0
    else ((if bound (i - 1) ≠ 0 then p i else p (i - 1))
      + (if bound (i + 1) ≠ 0 then p i else p (i + 1))
      + (if bound (i - Ny) ≠ 0 then p i else p (i - Ny))
      + (if bound (i + Ny) ≠ 0 then p i else p (i + Ny))
      - dx * dy * div i) / 4

/-! ## The parts of one sub-step -/

/-- The divergence computed in a sub-step (line 294). -/
def stepDiv (bound : Mask) (Nx Ny : Nat) (dx dy dt : ℚ) (s : SimState) : Buf :=
  C_divergence s.div (bfeccAdvect bound Nx Ny dx dy dt s).vtmp bound Nx Ny dx dy

/-- The arrays `(p, vtmp2)` after the pressure solve of a sub-step (line 295). -/
def stepPressure (bound : Mask) (Nx Ny : Nat) (dx dy dt : ℚ) (s : SimState) : Buf × Buf :=
  C_pressure_solve s.p (bfeccAdvect bound Nx Ny dx dy dt s).vtmp2
    (stepDiv bound Nx Ny dx dy dt s) bound Nx Ny dx dy

/-- The velocity after projection and slip in a sub-step (lines 296-299). -/
def stepVelocity (bound : Mask) (Nx Ny : Nat) (dx dy dt : ℚ) (s : SimState) : Buf :=
  C_enforce_slip
    (C_sub_gradient s.v (bfeccAdvect bound Nx Ny dx dy dt s).vtmp
      (stepPressure bound Nx Ny dx dy dt s).1 bound Nx Ny dx dy) bound Nx Ny

/-- Two arrays hold the same values at the indices below `n`. -/
def AgreeOn {α : Type} (n : Nat) (f g : Nat → α) : Prop := ∀ i, i < n → f i = g i

/-- Two arrays of density planes hold the same density plane `j`. -/
def SliceAgree (Nx Ny j : Nat) (f g : Buf) : Prop :=
  ∀ i, i < Nx * Ny → f (Nx * Ny * j + i) = g (Nx * Ny * j + i)

/-- Every cached cell index points to a cell whose 2x2 block lies in the grid. -/
def CacheInGrid (Nx Ny : Nat) (ai : IBuf) : Prop :=
  ∀ x y, x < Nx → y < Ny →
    (0 ≤ ai (y + x * Ny) ∧ ai (y + x * Ny) ≤ (Nx : Int) - 2)
    ∧ (0 ≤ ai (Nx * Ny + (y + x * Ny)) ∧ ai (Nx * Ny + (y + x * Ny)) ≤ (Ny : Int) - 2)

/-- Sum over the interior cells of the squares of a scalar field. -/
def interiorSumSq (Nx Ny : Nat) (d : Buf) : ℚ :=
  ∑ x in Finset.Ico 1 (Nx - 1), ∑ y in Finset.Ico 1 (Ny - 1), d (y + x * Ny) ^ 2

/-- The divergence after the projection `divergence → pressure_solve → sub_gradient` of
the field `v`, starting from the pressure `p0`; `div0`, `div1` and `buf` are the previous
contents of the arrays that receive the two divergences and of `pressure_buffer`. The
projected velocity is written over a copy of `v`, so its ring cells are those of `v`. -/
def projectedDivergence (v p0 buf div0 div1 : Buf) (bound : Mask) (Nx Ny : Nat) (dx dy : ℚ) :
    Buf :=
  C_divergence div1
    (C_sub_gradient v v
      (C_pressure_solve p0 buf (C_divergence div0 v bound Nx Ny dx dy) bound Nx Ny dx dy).1
      bound Nx Ny dx dy)
    bound Nx Ny dx dy

/-! ## Sample inputs and auxiliary notions -/

/-- The values of the solid cells, which is all the slip pass reads from other cells. -/
def SolidKept (v : Buf) (bound : Mask) (Nx Ny : Nat) (t : Buf) : Prop :=
  ∀ j, j < Nx * Ny → bound j ≠ 0 → t j = v j ∧ t (Nx * Ny + j) = v (Nx * Ny + j)

/-- Mask of a 3x3 grid whose only solid cell is `(2, 1)`. -/
def slipMask : Mask := fun i => if i = 7 then 1 else 0

/-- Velocity on a 3x3 grid: x-velocity 5 at the solid cell `(2, 1)`, 7 at the fluid cell
`(0, 1)`, 1 elsewhere. -/
def slipField : Buf := fun i => if i = 7 then 5 else if i = 1 then 7 else 1

/-- The cell `(x, y)` is on the outermost ring of the grid. -/
def onRing (Nx Ny x y : Nat) : Prop := x = 0 ∨ x = Nx - 1 ∨ y = 0 ∨ y = Ny - 1

instance (Nx Ny x y : Nat) : Decidable (onRing Nx Ny x y) := by
  unfold onRing
  infer_instance

/-- Mask of a 3x3 grid whose only solid cell is the centre `(1, 1)`. -/
def centreMask : Mask := fun i => if i = 4 then 1 else 0

/-- A state on the 3x3 grid with two density arrays: the first is 1 everywhere, the
second is `c` everywhere. -/
def densitySample (c : ℚ) : SimState :=
  { v := fun i => if i = 4 then 1 else 0
    vtmp := fun _ => 0
    vtmp2 := fun _ => 0
    p := fun _ => 0
    div := fun _ => 0
    density_arrays := fun i => if i < 9 then 1 else c
    advect_indexes := fun _ => 0
    advect_lerps := fun _ => 0 }

/-- Velocity on a 3x3 grid: x-velocity 1 at the ring cell `(2, 1)`, 0 elsewhere. -/
def ringImpulse : Buf := fun i => if i = 7 then 1 else 0

/-- Coefficient of the mean mode of the pressure after `k` Jacobi iterations on the
all-fluid 4x4 grid. -/
def jacA : Nat → ℚ
  | 0 => 0
  | k + 1 => jacA k / 2 - 1 / 4

/-- Coefficient of the checkerboard mode of the pressure after `k` Jacobi iterations on
the all-fluid 4x4 grid. -/
def jacB : Nat → ℚ
  | 0 => 0
  | k + 1 => -(jacB k) / 2 - 1 / 4

/-- Coefficient of the two diagonal modes of the pressure after `k` Jacobi iterations on
the all-fluid 4x4 grid. -/
def jacC : Nat → ℚ
  | 0 => 0
  | _ + 1 => -(1 / 4)

/-- Velocity on a 4x4 grid: x-velocity 1 at the interior cell `(2, 1)`, 0 elsewhere. -/
def interiorImpulse : Buf := fun i => if i = 9 then 1 else 0

/-! ## The slip pass in any order, and the extremes of a plane -/

/-- The slip pass run over the cells of `cells`, in the order of the list. -/
def slipVisit (bound : Mask) (Nx Ny : Nat) (cells : List (Nat × Nat)) (v : Buf) : Buf :=
  cells.foldl (fun t c => slipCell bound Nx Ny c.1 c.2 t) v

/-- The slip rule for the x-velocity of the cell with index `i`, evaluated on a snapshot
`v` of the field. -/
def slipRuleX (v : Buf) (bound : Mask) (Ny i : Nat) : ℚ :=
  if bound i ≠ 0 then v i
  else if bound (i + Ny) ≠ 0 then v (i + Ny)
  else if bound (i - Ny) ≠ 0 then v (i - Ny) else v i

/-- The slip rule for the y-velocity of the cell with index `i`, evaluated on a snapshot
`v` of the field. -/
def slipRuleY (v : Buf) (bound : Mask) (Nx Ny i : Nat) : ℚ :=
  if bound i ≠ 0 then v (Nx * Ny + i)
  else if bound (i + 1) ≠ 0 then v (Nx * Ny + i + 1)
  else if bound (i - 1) ≠ 0 then v (Nx * Ny + i - 1) else v (Nx * Ny + i)

/-- The cell `(x, y)` is an interior cell. -/
def isInterior (Nx Ny : Nat) (c : Nat × Nat) : Prop :=
  1 ≤ c.1 ∧ c.1 < Nx - 1 ∧ 1 ≤ c.2 ∧ c.2 < Ny - 1

instance (Nx Ny : Nat) (c : Nat × Nat) : Decidable (isInterior Nx Ny c) := by
  unfold isInterior
  infer_instance

/-- Mask of a 4x4 grid whose only solid cell is the interior cell `(1, 1)`. -/
def innerMask : Mask := fun i => if i = 5 then 1 else 0

/-- The least of the values `v[plane], ..., v[plane + n - 1]` (and `v[plane]`). -/
def planeMin (v : Buf) (plane n : Nat) : ℚ :=
  ((List.range n).map (fun i => v (plane + i))).foldr min (v plane)

/-- The greatest of the values `v[plane], ..., v[plane + n - 1]` (and `v[plane]`). -/
def planeMax (v : Buf) (plane n : Nat) : ℚ :=
  ((List.range n).map (fun i => v (plane + i))).foldr max (v plane)

/-- The field that is 1 at the index `i` and 0 elsewhere. -/
def unitField (i : Nat) : Buf := fun j => if j = i then 1 else 0

/-- The field that is 0 below the index `n` and 1 from `n` on: x-velocity 0 and y-velocity
1 on a grid of `n` cells. -/
def planeStep (n : Nat) : Buf := fun j => if j < n then 0 else 1

/-! ## Loop and memory lemmas -/

@[simp] theorem store_same {α : Type} (b : Nat → α) (i : Nat) (x : α) : store b i x i = x := by
  simp [store]

theorem store_ne {α : Type} (b : Nat → α) {i j : Nat} (x : α) (h : j ≠ i) :
    store b i x j = b j := by
  simp [store, h]

@[simp] theorem ptrAdd_natCast {α : Type} (b : Nat → α) (n j : Nat) :
    ptrAdd b (n : Int) j = b (n + j) := by
  unfold ptrAdd
  congr 1

theorem ptrAdd_toNat {α : Type} (b : Nat → α) (k : Int) (hk : 0 ≤ k) (j : Nat) :
    ptrAdd b k j = b (k.toNat + j) := by
  unfold ptrAdd
  congr 1
  omega

theorem loopN_ind {σ : Type} (P : Nat → σ → Prop) (n lo : Nat) (body : Nat → σ → σ) (s : σ)
    (h0 : P lo s)
    (hs : ∀ i, lo ≤ i → i < lo + n → ∀ s, P i s → P (i + 1) (body i s)) :
    P (lo + n) (loopN n lo body s) := by
  induction n with
  | zero => simpa [loopN] using h0
  | succ n ih =>
    have h := ih (fun i h1 h2 => hs i h1 (by omega))
    exact hs (lo + n) (by omega) (by omega) _ h

theorem forLoop_inv {σ : Type} (I : σ → Prop) (lo hi : Nat) (body : Nat → σ → σ) (s : σ)
    (h0 : I s) (hs : ∀ i, lo ≤ i → i < hi → ∀ s, I s → I (body i s)) :
    I (forLoop lo hi body s) := by
  unfold forLoop
  exact loopN_ind (fun _ s => I s) (hi - lo) lo body s h0
    (fun i h1 h2 s hI => hs i h1 (by omega) s hI)

theorem forLoop_preserve {σ α : Type} (g : σ → α) (lo hi : Nat) (body : Nat → σ → σ) (s : σ)
    (hs : ∀ i, lo ≤ i → i < hi → ∀ s, g (body i s) = g s) :
    g (forLoop lo hi body s) = g s :=
  forLoop_inv (fun t => g t = g s) lo hi body s rfl (fun i h1 h2 t ht => (hs i h1 h2 t).trans ht)

theorem forLoop_set_at {σ α : Type} (I : σ → Prop) (g : σ → α) (c : α) (lo hi i0 : Nat)
    (hlo : lo ≤ i0) (hhi : i0 < hi) (body : Nat → σ → σ) (s : σ) (h0 : I s)
    (hI : ∀ i, lo ≤ i → i < hi → ∀ t, I t → I (body i t))
    (hset : ∀ t, I t → g t = g s → g (body i0 t) = c)
    (hother : ∀ i, lo ≤ i → i < hi → i ≠ i0 → ∀ t, g (body i t) = g t) :
    g (forLoop lo hi body s) = c := by
  unfold forLoop
  have h := loopN_ind (fun i t => I t ∧ (i ≤ i0 → g t = g s) ∧ (i0 < i → g t = c))
    (hi - lo) lo body s ⟨h0, fun _ => rfl, fun h => absurd h (by omega)⟩
    (fun i h1 h2 t ht => by
      refine ⟨hI i h1 (by omega) t ht.1, fun h3 => ?_, fun h3 => ?_⟩
      · rw [hother i h1 (by omega) (by omega) t]
        exact ht.2.1 (by omega)
      · by_cases h4 : i = i0
        · subst h4
          exact hset t ht.1 (ht.2.1 (le_refl _))
        · rw [hother i h1 (by omega) h4 t]
          exact ht.2.2 (by omega))
  exact h.2.2 (by omega)

/-- Invariants of a doubly nested loop. -/
theorem forLoop2_inv {σ : Type} (I : σ → Prop) (xlo xhi ylo yhi : Nat)
    (cell : Nat → Nat → σ → σ) (s : σ) (h0 : I s)
    (hs : ∀ x y, xlo ≤ x → x < xhi → ylo ≤ y → y < yhi → ∀ s, I s → I (cell x y s)) :
    I (forLoop xlo xhi (fun x s => forLoop ylo yhi (fun y s => cell x y s) s) s) :=
  forLoop_inv I xlo xhi _ s h0 (fun x hx1 hx2 t ht =>
    forLoop_inv I ylo yhi _ t ht (fun y hy1 hy2 u hu => hs x y hx1 hx2 hy1 hy2 u hu))

theorem forLoop2_preserve {σ α : Type} (g : σ → α) (xlo xhi ylo yhi : Nat)
    (cell : Nat → Nat → σ → σ) (s : σ)
    (hs : ∀ x y, xlo ≤ x → x < xhi → ylo ≤ y → y < yhi → ∀ s, g (cell x y s) = g s) :
    g (forLoop xlo xhi (fun x s => forLoop ylo yhi (fun y s => cell x y s) s) s) = g s :=
  forLoop2_inv (fun t => g t = g s) xlo xhi ylo yhi cell s rfl
    (fun x y hx1 hx2 hy1 hy2 t ht => (hs x y hx1 hx2 hy1 hy2 t).trans ht)

/-- The value a doubly nested loop leaves in a place that only the pass `(x0, y0)`
writes. -/
theorem forLoop2_set_at {σ α : Type} (I : σ → Prop) (g : σ → α) (c : α)
    (xlo xhi ylo yhi x0 y0 : Nat) (hx1 : xlo ≤ x0) (hx2 : x0 < xhi) (hy1 : ylo ≤ y0)
    (hy2 : y0 < yhi) (cell : Nat → Nat → σ → σ) (s : σ) (h0 : I s)
    (hI : ∀ x y, xlo ≤ x → x < xhi → ylo ≤ y → y < yhi → ∀ t, I t → I (cell x y t))
    (hset : ∀ t, I t → g t = g s → g (cell x0 y0 t) = c)
    (hother : ∀ x y, xlo ≤ x → x < xhi → ylo ≤ y → y < yhi → ¬ (x = x0 ∧ y = y0) →
      ∀ t, g (cell x y t) = g t) :
    g (forLoop xlo xhi (fun x s => forLoop ylo yhi (fun y s => cell x y s) s) s) = c := by
  refine forLoop_set_at I g c xlo xhi x0 hx1 hx2 _ s h0 ?_ ?_ ?_
  · intro x h1 h2 t ht
    exact forLoop_inv I ylo yhi _ t ht (fun y h3 h4 u hu => hI x y h1 h2 h3 h4 u hu)
  · intro t ht hg
    exact forLoop_set_at I g c ylo yhi y0 hy1 hy2 _ t ht
      (fun y h3 h4 u hu => hI x0 y hx1 hx2 h3 h4 u hu)
      (fun u hu hgu => hset u hu (hgu.trans hg))
      (fun y h3 h4 hne u => hother x0 y hx1 hx2 h3 h4 (fun h => hne h.2) u)
  · intro x h1 h2 hne t
    exact forLoop_preserve g ylo yhi _ t
      (fun y h3 h4 u => hother x y h1 h2 h3 h4 (fun h => hne h.1) u)

/-! ## Cell indices -/

theorem idx_lt {Nx Ny x y : Nat} (hx : x < Nx) (hy : y < Ny) : y + x * Ny < Nx * Ny := by
  have h1 : (x + 1) * Ny ≤ Nx * Ny := Nat.mul_le_mul_right Ny hx
  have h2 : (x + 1) * Ny = x * Ny + Ny := by ring
  omega

theorem idx_inj {Ny x y x0 y0 : Nat} (hy : y < Ny) (hy0 : y0 < Ny)
    (h : y + x * Ny = y0 + x0 * Ny) : x = x0 ∧ y = y0 := by
  have hN : 0 < Ny := by omega
  have e1 : (y + x * Ny) / Ny = x := by
    rw [Nat.add_mul_div_right _ _ hN, Nat.div_eq_of_lt hy, zero_add]
  have e2 : (y0 + x0 * Ny) / Ny = x0 := by
    rw [Nat.add_mul_div_right _ _ hN, Nat.div_eq_of_lt hy0, zero_add]
  have hx : x = x0 := by rw [← e1, ← e2, h]
  subst hx
  exact ⟨rfl, by omega⟩

theorem idx_ne {Ny x y x0 y0 : Nat} (hy : y < Ny) (hy0 : y0 < Ny) (h : ¬ (x = x0 ∧ y = y0)) :
    y + x * Ny ≠ y0 + x0 * Ny :=
  fun e => h (idx_inj hy hy0 e)

/-- Every index below `Nx * Ny` is the index of a cell. -/
theorem idx_decomp {Nx Ny i : Nat} (h : i < Nx * Ny) :
    i % Ny < Ny ∧ i / Ny < Nx ∧ i = i % Ny + i / Ny * Ny := by
  have hN : 0 < Ny := by
    rcases Nat.eq_zero_or_pos Ny with h0 | h0
    · subst h0
      simp at h
    · exact h0
  refine ⟨Nat.mod_lt _ hN, ?_, ?_⟩
  · rw [Nat.div_lt_iff_lt_mul hN]
    exact h
  · rw [Nat.mul_comm]
    exact (Nat.mod_add_div i Ny).symm

/-! ## `C_advect_velocity`, cell by cell -/

theorem advectCell_v_other (v0 : Buf) (bound : Mask) (Nx Ny : Nat) (dx dy dt : ℚ)
    (x y j : Nat) (h1 : j ≠ y + x * Ny) (h2 : j ≠ Nx * Ny + (y + x * Ny)) (st : AdvectOut) :
    (advectCell v0 bound Nx Ny dx dy dt x y st).v j = st.v j := by
  simp only [advectCell]
  split <;> simp [store, h1, h2]

theorem advectCell_ai_other (v0 : Buf) (bound : Mask) (Nx Ny : Nat) (dx dy dt : ℚ)
    (x y j : Nat) (h1 : j ≠ y + x * Ny) (h2 : j ≠ Nx * Ny + (y + x * Ny)) (st : AdvectOut) :
    (advectCell v0 bound Nx Ny dx dy dt x y st).advect_indexes j = st.advect_indexes j := by
  simp only [advectCell]
  split <;> simp [store, h1, h2]

theorem advectCell_al_other (v0 : Buf) (bound : Mask) (Nx Ny : Nat) (dx dy dt : ℚ)
    (x y j : Nat) (h1 : j ≠ y + x * Ny) (h2 : j ≠ Nx * Ny + (y + x * Ny)) (st : AdvectOut) :
    (advectCell v0 bound Nx Ny dx dy dt x y st).advect_lerps j = st.advect_lerps j := by
  simp only [advectCell]
  split <;> simp [store, h1, h2]

theorem advectCell_v_x (v0 : Buf) (bound : Mask) (Nx Ny : Nat) (dx dy dt : ℚ)
    (x y : Nat) (hN : 0 < Nx * Ny) (st : AdvectOut) :
    (advectCell v0 bound Nx Ny dx dy dt x y st).v (y + x * Ny)
      = advectValue v0 bound Nx Ny dx dy dt 0 x y := by
  have h : y + x * Ny ≠ Nx * Ny + (y + x * Ny) := by omega
  simp only [advectCell, advectValue]
  split <;> simp [store, h, cellXi, cellYi, cellS, cellT]

theorem advectCell_v_y (v0 : Buf) (bound : Mask) (Nx Ny : Nat) (dx dy dt : ℚ)
    (x y : Nat) (st : AdvectOut) :
    (advectCell v0 bound Nx Ny dx dy dt x y st).v (Nx * Ny + (y + x * Ny))
      = advectValue v0 bound Nx Ny dx dy dt (Nx * Ny) x y := by
  simp only [advectCell, advectValue]
  split <;> simp [store, cellXi, cellYi, cellS, cellT]

theorem advectCell_ai_x (v0 : Buf) (bound : Mask) (Nx Ny : Nat) (dx dy dt : ℚ)
    (x y : Nat) (hN : 0 < Nx * Ny) (st : AdvectOut) :
    (advectCell v0 bound Nx Ny dx dy dt x y st).advect_indexes (y + x * Ny)
      = cellXi v0 Nx Ny dx dt x y := by
  have h : y + x * Ny ≠ Nx * Ny + (y + x * Ny) := by omega
  simp only [advectCell]
  split <;> simp [store, h, cellXi]

theorem advectCell_ai_y (v0 : Buf) (bound : Mask) (Nx Ny : Nat) (dx dy dt : ℚ)
    (x y : Nat) (st : AdvectOut) :
    (advectCell v0 bound Nx Ny dx dy dt x y st).advect_indexes (Nx * Ny + (y + x * Ny))
      = cellYi v0 Nx Ny dy dt x y := by
  simp only [advectCell]
  split <;> simp [store, cellYi]

theorem advectCell_al_x (v0 : Buf) (bound : Mask) (Nx Ny : Nat) (dx dy dt : ℚ)
    (x y : Nat) (hN : 0 < Nx * Ny) (st : AdvectOut) :
    (advectCell v0 bound Nx Ny dx dy dt x y st).advect_lerps (y + x * Ny)
      = cellS v0 Nx Ny dx dt x y := by
  have h : y + x * Ny ≠ Nx * Ny + (y + x * Ny) := by omega
  simp only [advectCell]
  split <;> simp [store, h, cellS, cellXi]

theorem advectCell_al_y (v0 : Buf) (bound : Mask) (Nx Ny : Nat) (dx dy dt : ℚ)
    (x y : Nat) (st : AdvectOut) :
    (advectCell v0 bound Nx Ny dx dy dt x y st).advect_lerps (Nx * Ny + (y + x * Ny))
      = cellT v0 Nx Ny dy dt x y := by
  simp only [advectCell]
  split <;> simp [store, cellT, cellYi]

/-- Two different cells never share an index, in either component. -/
theorem cell_index_sep {Nx Ny x y x0 y0 : Nat} (hx : x < Nx) (hy : y < Ny) (hx0 : x0 < Nx)
    (hy0 : y0 < Ny) (h : ¬ (x = x0 ∧ y = y0)) :
    y0 + x0 * Ny ≠ y + x * Ny ∧ y0 + x0 * Ny ≠ Nx * Ny + (y + x * Ny)
      ∧ Nx * Ny + (y0 + x0 * Ny) ≠ y + x * Ny
      ∧ Nx * Ny + (y0 + x0 * Ny) ≠ Nx * Ny + (y + x * Ny) := by
  have h1 := idx_lt hx hy
  have h2 := idx_lt hx0 hy0
  have h3 : y0 + x0 * Ny ≠ y + x * Ny := fun e => h (idx_inj hy hy0 e.symm)
  omega

theorem C_advect_velocity_v_x (v v0 : Buf) (bound : Mask) (ai : IBuf) (al : Buf)
    (Nx Ny : Nat) (dx dy dt : ℚ) (x y : Nat) (hx : x < Nx) (hy : y < Ny) :
    (C_advect_velocity v v0 bound ai al Nx Ny dx dy dt).v (y + x * Ny)
      = advectValue v0 bound Nx Ny dx dy dt 0 x y := by
  have hN : 0 < Nx * Ny := by have := idx_lt hx hy; omega
  unfold C_advect_velocity
  refine forLoop2_set_at (fun _ => True) (fun st : AdvectOut => st.v (y + x * Ny)) _
    0 Nx 0 Ny x y (Nat.zero_le _) hx (Nat.zero_le _) hy
    (fun x y st => advectCell v0 bound Nx Ny dx dy dt x y st) _ trivial
    (fun _ _ _ _ _ _ _ _ => trivial) ?_ ?_
  · intro st _ _
    exact advectCell_v_x v0 bound Nx Ny dx dy dt x y hN st
  · intro x1 y1 _ hx1 _ hy1 hne st
    have hs := cell_index_sep hx1 hy1 hx hy hne
    exact advectCell_v_other v0 bound Nx Ny dx dy dt x1 y1 _ hs.1 hs.2.1 st

theorem C_advect_velocity_v_y (v v0 : Buf) (bound : Mask) (ai : IBuf) (al : Buf)
    (Nx Ny : Nat) (dx dy dt : ℚ) (x y : Nat) (hx : x < Nx) (hy : y < Ny) :
    (C_advect_velocity v v0 bound ai al Nx Ny dx dy dt).v (Nx * Ny + (y + x * Ny))
      = advectValue v0 bound Nx Ny dx dy dt (Nx * Ny) x y := by
  unfold C_advect_velocity
  refine forLoop2_set_at (fun _ => True) (fun st : AdvectOut => st.v (Nx * Ny + (y + x * Ny))) _
    0 Nx 0 Ny x y (Nat.zero_le _) hx (Nat.zero_le _) hy
    (fun x y st => advectCell v0 bound Nx Ny dx dy dt x y st) _ trivial
    (fun _ _ _ _ _ _ _ _ => trivial) ?_ ?_
  · intro st _ _
    exact advectCell_v_y v0 bound Nx Ny dx dy dt x y st
  · intro x1 y1 _ hx1 _ hy1 hne st
    have hs := cell_index_sep hx1 hy1 hx hy hne
    exact advectCell_v_other v0 bound Nx Ny dx dy dt x1 y1 _ hs.2.2.1 hs.2.2.2 st

theorem C_advect_velocity_v_frame (v v0 : Buf) (bound : Mask) (ai : IBuf) (al : Buf)
    (Nx Ny : Nat) (dx dy dt : ℚ) (j : Nat) (hj : Nx * Ny * 2 ≤ j) :
    (C_advect_velocity v v0 bound ai al Nx Ny dx dy dt).v j = v j := by
  unfold C_advect_velocity
  refine forLoop2_preserve (fun st : AdvectOut => st.v j) 0 Nx 0 Ny
    (fun x y st => advectCell v0 bound Nx Ny dx dy dt x y st) _ ?_
  intro x1 y1 _ hx1 _ hy1 st
  have h := idx_lt hx1 hy1
  exact advectCell_v_other v0 bound Nx Ny dx dy dt x1 y1 j (by omega) (by omega) st

theorem C_advect_velocity_ai_x (v v0 : Buf) (bound : Mask) (ai : IBuf) (al : Buf)
    (Nx Ny : Nat) (dx dy dt : ℚ) (x y : Nat) (hx : x < Nx) (hy : y < Ny) :
    (C_advect_velocity v v0 bound ai al Nx Ny dx dy dt).advect_indexes (y + x * Ny)
      = cellXi v0 Nx Ny dx dt x y := by
  have hN : 0 < Nx * Ny := by have := idx_lt hx hy; omega
  unfold C_advect_velocity
  refine forLoop2_set_at (fun _ => True)
    (fun st : AdvectOut => st.advect_indexes (y + x * Ny)) _
    0 Nx 0 Ny x y (Nat.zero_le _) hx (Nat.zero_le _) hy
    (fun x y st => advectCell v0 bound Nx Ny dx dy dt x y st) _ trivial
    (fun _ _ _ _ _ _ _ _ => trivial) ?_ ?_
  · intro st _ _
    exact advectCell_ai_x v0 bound Nx Ny dx dy dt x y hN st
  · intro x1 y1 _ hx1 _ hy1 hne st
    have hs := cell_index_sep hx1 hy1 hx hy hne
    exact advectCell_ai_other v0 bound Nx Ny dx dy dt x1 y1 _ hs.1 hs.2.1 st

theorem C_advect_velocity_ai_y (v v0 : Buf) (bound : Mask) (ai : IBuf) (al : Buf)
    (Nx Ny : Nat) (dx dy dt : ℚ) (x y : Nat) (hx : x < Nx) (hy : y < Ny) :
    (C_advect_velocity v v0 bound ai al Nx Ny dx dy dt).advect_indexes (Nx * Ny + (y + x * Ny))
      = cellYi v0 Nx Ny dy dt x y := by
  unfold C_advect_velocity
  refine forLoop2_set_at (fun _ => True)
    (fun st : AdvectOut => st.advect_indexes (Nx * Ny + (y + x * Ny))) _
    0 Nx 0 Ny x y (Nat.zero_le _) hx (Nat.zero_le _) hy
    (fun x y st => advectCell v0 bound Nx Ny dx dy dt x y st) _ trivial
    (fun _ _ _ _ _ _ _ _ => trivial) ?_ ?_
  · intro st _ _
    exact advectCell_ai_y v0 bound Nx Ny dx dy dt x y st
  · intro x1 y1 _ hx1 _ hy1 hne st
    have hs := cell_index_sep hx1 hy1 hx hy hne
    exact advectCell_ai_other v0 bound Nx Ny dx dy dt x1 y1 _ hs.2.2.1 hs.2.2.2 st

theorem C_advect_velocity_al_x (v v0 : Buf) (bound : Mask) (ai : IBuf) (al : Buf)
    (Nx Ny : Nat) (dx dy dt : ℚ) (x y : Nat) (hx : x < Nx) (hy : y < Ny) :
    (C_advect_velocity v v0 bound ai al Nx Ny dx dy dt).advect_lerps (y + x * Ny)
      = cellS v0 Nx Ny dx dt x y := by
  have hN : 0 < Nx * Ny := by have := idx_lt hx hy; omega
  unfold C_advect_velocity
  refine forLoop2_set_at (fun _ => True)
    (fun st : AdvectOut => st.advect_lerps (y + x * Ny)) _
    0 Nx 0 Ny x y (Nat.zero_le _) hx (Nat.zero_le _) hy
    (fun x y st => advectCell v0 bound Nx Ny dx dy dt x y st) _ trivial
    (fun _ _ _ _ _ _ _ _ => trivial) ?_ ?_
  · intro st _ _
    exact advectCell_al_x v0 bound Nx Ny dx dy dt x y hN st
  · intro x1 y1 _ hx1 _ hy1 hne st
    have hs := cell_index_sep hx1 hy1 hx hy hne
    exact advectCell_al_other v0 bound Nx Ny dx dy dt x1 y1 _ hs.1 hs.2.1 st

theorem C_advect_velocity_al_y (v v0 : Buf) (bound : Mask) (ai : IBuf) (al : Buf)
    (Nx Ny : Nat) (dx dy dt : ℚ) (x y : Nat) (hx : x < Nx) (hy : y < Ny) :
    (C_advect_velocity v v0 bound ai al Nx Ny dx dy dt).advect_lerps (Nx * Ny + (y + x * Ny))
      = cellT v0 Nx Ny dy dt x y := by
  unfold C_advect_velocity
  refine forLoop2_set_at (fun _ => True)
    (fun st : AdvectOut => st.advect_lerps (Nx * Ny + (y + x * Ny))) _
    0 Nx 0 Ny x y (Nat.zero_le _) hx (Nat.zero_le _) hy
    (fun x y st => advectCell v0 bound Nx Ny dx dy dt x y st) _ trivial
    (fun _ _ _ _ _ _ _ _ => trivial) ?_ ?_
  · intro st _ _
    exact advectCell_al_y v0 bound Nx Ny dx dy dt x y st
  · intro x1 y1 _ hx1 _ hy1 hne st
    have hs := cell_index_sep hx1 hy1 hx hy hne
    exact advectCell_al_other v0 bound Nx Ny dx dy dt x1 y1 _ hs.2.2.1 hs.2.2.2 st

/-! ## Clamping -/

theorem clampTrace_bounds (a : ℚ) (N : Nat) (hN : 2 ≤ N) :
    0 ≤ clampTrace a N ∧ clampTrace a N ≤ (N : ℚ) - 101 / 100 := by
  have h2 : (2 : ℚ) ≤ (N : ℚ) := by exact_mod_cast hN
  unfold clampTrace
  split_ifs with h1 h3
  · constructor <;> linarith
  · constructor <;> linarith
  · push_neg at h1 h3
    exact ⟨h1, le_of_lt h3⟩

theorem cTrunc_bounds (q : ℚ) (N : Nat) (h0 : 0 ≤ q) (h1 : q ≤ (N : ℚ) - 101 / 100) :
    0 ≤ cTrunc q ∧ cTrunc q ≤ (N : Int) - 2 ∧ 0 ≤ q - (cTrunc q : ℚ)
      ∧ q - (cTrunc q : ℚ) < 1 := by
  unfold cTrunc
  rw [if_neg (not_lt.mpr h0)]
  refine ⟨Int.floor_nonneg.mpr h0, ?_, ?_, ?_⟩
  · have h : ⌊q⌋ < (N : Int) - 1 := by
      rw [Int.floor_lt]
      push_cast
      linarith
    omega
  · linarith [Int.floor_le q]
  · linarith [Int.lt_floor_add_one q]

/-- The 2x2 block at a cell `(xi, yi)` with `xi ≤ Nx - 2`, `yi ≤ Ny - 2` lies in the
plane. -/
theorem block_in_plane (Nx Ny : Nat) (xi yi : Int) (hx0 : 0 ≤ xi) (hx1 : xi ≤ (Nx : Int) - 2)
    (hy0 : 0 ≤ yi) (hy1 : yi ≤ (Ny : Int) - 2) :
    0 ≤ yi + xi * (Ny : Int) ∧ yi + xi * (Ny : Int) + (Ny : Int) + 1 < (Nx : Int) * (Ny : Int) := by
  have hNy : (0 : Int) ≤ (Ny : Int) := Int.ofNat_nonneg Ny
  have h1 : 0 ≤ xi * (Ny : Int) := mul_nonneg hx0 hNy
  have h2 : xi * (Ny : Int) ≤ ((Nx : Int) - 2) * (Ny : Int) := mul_le_mul_of_nonneg_right hx1 hNy
  have h3 : ((Nx : Int) - 2) * (Ny : Int) = (Nx : Int) * (Ny : Int) - 2 * (Ny : Int) := by ring
  constructor
  · linarith
  · linarith

theorem cellXi_bounds (v0 : Buf) (Nx Ny : Nat) (dx dt : ℚ) (x y : Nat) (hNx : 2 ≤ Nx) :
    0 ≤ cellXi v0 Nx Ny dx dt x y ∧ cellXi v0 Nx Ny dx dt x y ≤ (Nx : Int) - 2 := by
  have h := clampTrace_bounds ((x : ℚ) - dt * v0 (0 + (y + x * Ny)) / dx) Nx hNx
  have h2 := cTrunc_bounds _ Nx h.1 h.2
  exact ⟨h2.1, h2.2.1⟩

theorem cellYi_bounds (v0 : Buf) (Nx Ny : Nat) (dy dt : ℚ) (x y : Nat) (hNy : 2 ≤ Ny) :
    0 ≤ cellYi v0 Nx Ny dy dt x y ∧ cellYi v0 Nx Ny dy dt x y ≤ (Ny : Int) - 2 := by
  have h := clampTrace_bounds ((y : ℚ) - dt * v0 (Nx * Ny + (y + x * Ny)) / dy) Ny hNy
  have h2 := cTrunc_bounds _ Ny h.1 h.2
  exact ⟨h2.1, h2.2.1⟩

/-! ## One-dimensional element-wise loops -/

/-- A loop that rewrites every element from its own old value. -/
theorem forLoop_store_map {α : Type} (F : Nat → α → α) (n : Nat) (b : Nat → α) (i : Nat) :
    forLoop 0 n (fun x w => store w x (F x (w x))) b i = if i < n then F i (b i) else b i := by
  split_ifs with h
  · refine forLoop_set_at (fun _ => True) (fun w : Nat → α => w i) _ 0 n i (Nat.zero_le _) h
      _ b trivial (fun _ _ _ _ _ => trivial) ?_ ?_
    · intro t _ ht
      have ht2 : t i = b i := ht
      simp only [store_same]
      rw [ht2]
    · intro j _ _ hj t
      exact store_ne t _ (fun e => hj e.symm)
  · refine forLoop_preserve (fun w : Nat → α => w i) 0 n _ b ?_
    intro j _ hj t
    exact store_ne t _ (by omega)

/-! ## Advection with a zero time step -/

theorem clampTrace_inner (x N : Nat) (h : x + 2 ≤ N) : clampTrace (x : ℚ) N = (x : ℚ) := by
  have h1 : ((x : ℚ) + 2) ≤ (N : ℚ) := by exact_mod_cast h
  have h0 : (0 : ℚ) ≤ (x : ℚ) := Nat.cast_nonneg x
  unfold clampTrace
  rw [if_neg (not_lt.mpr h0), if_neg]
  intro h2
  linarith

theorem clampTrace_last (x N : Nat) (h : x + 1 = N) :
    clampTrace (x : ℚ) N = (N : ℚ) - 101 / 100 := by
  have h1 : ((x : ℚ) + 1) = (N : ℚ) := by exact_mod_cast h
  have h0 : (0 : ℚ) ≤ (x : ℚ) := Nat.cast_nonneg x
  unfold clampTrace
  rw [if_neg (not_lt.mpr h0), if_pos]
  show (N : ℚ) - 101 / 100 ≤ (x : ℚ)
  linarith

theorem cTrunc_natCast (x : Nat) : cTrunc (x : ℚ) = (x : Int) := by
  have h0 : (0 : ℚ) ≤ (x : ℚ) := Nat.cast_nonneg x
  unfold cTrunc
  rw [if_neg (not_lt.mpr h0)]
  exact Int.floor_natCast x

theorem cTrunc_last (x N : Nat) (h : x + 2 = N) :
    cTrunc ((N : ℚ) - 101 / 100) = (x : Int) := by
  have h1 : ((x : ℚ) + 2) = (N : ℚ) := by exact_mod_cast h
  have h0 : (0 : ℚ) ≤ (x : ℚ) := Nat.cast_nonneg x
  unfold cTrunc
  rw [if_neg (by rw [not_lt]; linarith), Int.floor_eq_iff]
  constructor
  · push_cast
    linarith
  · push_cast
    linarith

theorem tracedXa_dt0 (v0 : Buf) (Nx Ny : Nat) (dx : ℚ) (x y : Nat) :
    tracedXa v0 Nx Ny dx 0 x y = clampTrace (x : ℚ) Nx := by
  simp [tracedXa]

theorem tracedYa_dt0 (v0 : Buf) (Nx Ny : Nat) (dy : ℚ) (x y : Nat) :
    tracedYa v0 Nx Ny dy 0 x y = clampTrace (y : ℚ) Ny := by
  simp [tracedYa]

/-- A loop that assigns every element a value read from elsewhere. -/
theorem forLoop_store_const {α : Type} (f : Nat → α) (n : Nat) (b : Nat → α) (i : Nat) :
    forLoop 0 n (fun x w => store w x (f x)) b i = if i < n then f i else b i :=
  forLoop_store_map (fun x _ => f x) n b i

theorem slipCell_other (bound : Mask) (Nx Ny x y j : Nat) (h1 : j ≠ y + x * Ny)
    (h2 : j ≠ Nx * Ny + (y + x * Ny)) (t : Buf) : slipCell bound Nx Ny x y t j = t j := by
  simp only [slipCell]
  rw [store_ne _ _ h2, store_ne _ _ h1]

theorem slipCell_x (bound : Mask) (Nx Ny x y : Nat) (hN : 0 < Nx * Ny) (t : Buf) :
    slipCell bound Nx Ny x y t (y + x * Ny)
      = if bound (y + x * Ny) ≠ 0 then t (y + x * Ny)
        else if bound (y + x * Ny + Ny) ≠ 0 then t (y + x * Ny + Ny)
        else if bound (y + x * Ny - Ny) ≠ 0 then t (y + x * Ny - Ny) else t (y + x * Ny) := by
  simp only [slipCell]
  rw [store_ne _ _ (by omega), store_same]

theorem slipCell_y (bound : Mask) (Nx Ny x y : Nat) (hN : 2 ≤ Nx * Ny) (t : Buf) :
    slipCell bound Nx Ny x y t (Nx * Ny + (y + x * Ny))
      = if bound (y + x * Ny) ≠ 0 then t (Nx * Ny + (y + x * Ny))
        else if bound (y + x * Ny + 1) ≠ 0 then t (Nx * Ny + (y + x * Ny) + 1)
        else if bound (y + x * Ny - 1) ≠ 0 then t (Nx * Ny + (y + x * Ny) - 1)
        else t (Nx * Ny + (y + x * Ny)) := by
  simp only [slipCell]
  rw [store_same, store_ne _ _ (by omega : Nx * Ny + (y + x * Ny) ≠ y + x * Ny),
    store_ne _ _ (by omega : Nx * Ny + (y + x * Ny) + 1 ≠ y + x * Ny),
    store_ne _ _ (by omega : Nx * Ny + (y + x * Ny) - 1 ≠ y + x * Ny)]

theorem slipCell_solidKept (v : Buf) (bound : Mask) (Nx Ny x y : Nat) (hx : x < Nx)
    (hy : y < Ny) (hN : 2 ≤ Nx * Ny) (t : Buf) (ht : SolidKept v bound Nx Ny t) :
    SolidKept v bound Nx Ny (slipCell bound Nx Ny x y t) := by
  intro j hj hb
  have hlt := idx_lt hx hy
  by_cases e : j = y + x * Ny
  · subst e
    rw [slipCell_x bound Nx Ny x y (by omega), slipCell_y bound Nx Ny x y (by omega),
      if_pos hb, if_pos hb]
    exact ht _ hj hb
  · rw [slipCell_other bound Nx Ny x y j e (by omega),
      slipCell_other bound Nx Ny x y (Nx * Ny + j) (by omega) (by omega)]
    exact ht _ hj hb

theorem C_enforce_slip_x (v : Buf) (bound : Mask) (Nx Ny x y : Nat) (hx1 : 1 ≤ x)
    (hx2 : x < Nx - 1) (hy1 : 1 ≤ y) (hy2 : y < Ny - 1) :
    C_enforce_slip v bound Nx Ny (y + x * Ny)
      = if bound (y + x * Ny) ≠ 0 then v (y + x * Ny)
        else if bound (y + x * Ny + Ny) ≠ 0 then v (y + x * Ny + Ny)
        else if bound (y + x * Ny - Ny) ≠ 0 then v (y + x * Ny - Ny) else v (y + x * Ny) := by
  have hlt : y + x * Ny < Nx * Ny := idx_lt (by omega) (by omega)
  have hlt2 : y + (x + 1) * Ny < Nx * Ny := idx_lt (by omega) (by omega)
  have e2 : y + (x + 1) * Ny = y + x * Ny + Ny := by ring
  have hge : Ny ≤ x * Ny := Nat.le_mul_of_pos_left Ny hx1
  unfold C_enforce_slip
  refine forLoop2_set_at (SolidKept v bound Nx Ny) (fun t : Buf => t (y + x * Ny)) _
    1 (Nx - 1) 1 (Ny - 1) x y hx1 hx2 hy1 hy2 (fun x y t => slipCell bound Nx Ny x y t) v
    (fun j _ _ => ⟨rfl, rfl⟩) ?_ ?_ ?_
  · intro x1 y1 _ h2 _ h4 t ht
    exact slipCell_solidKept v bound Nx Ny x1 y1 (by omega) (by omega) (by omega) t ht
  · intro t ht hg
    have hg2 : t (y + x * Ny) = v (y + x * Ny) := hg
    show slipCell bound Nx Ny x y t (y + x * Ny) = _
    rw [slipCell_x bound Nx Ny x y (by omega) t, hg2]
    by_cases h1 : bound (y + x * Ny) ≠ 0
    · rw [if_pos h1, if_pos h1]
    · rw [if_neg h1, if_neg h1]
      by_cases h2 : bound (y + x * Ny + Ny) ≠ 0
      · rw [if_pos h2, if_pos h2]
        exact (ht _ (by omega) h2).1
      · rw [if_neg h2, if_neg h2]
        by_cases h3 : bound (y + x * Ny - Ny) ≠ 0
        · rw [if_pos h3, if_pos h3]
          exact (ht _ (by omega) h3).1
        · rw [if_neg h3, if_neg h3]
  · intro x1 y1 _ h2 _ h4 hne t
    have a1 : x1 < Nx := by omega
    have a2 : y1 < Ny := by omega
    have a3 : x < Nx := by omega
    have a4 : y < Ny := by omega
    have hs := cell_index_sep a1 a2 a3 a4 hne
    exact slipCell_other bound Nx Ny x1 y1 _ hs.1 hs.2.1 t

theorem C_enforce_slip_y (v : Buf) (bound : Mask) (Nx Ny x y : Nat) (hx1 : 1 ≤ x)
    (hx2 : x < Nx - 1) (hy1 : 1 ≤ y) (hy2 : y < Ny - 1) :
    C_enforce_slip v bound Nx Ny (Nx * Ny + (y + x * Ny))
      = if bound (y + x * Ny) ≠ 0 then v (Nx * Ny + (y + x * Ny))
        else if bound (y + x * Ny + 1) ≠ 0 then v (Nx * Ny + (y + x * Ny) + 1)
        else if bound (y + x * Ny - 1) ≠ 0 then v (Nx * Ny + (y + x * Ny) - 1)
        else v (Nx * Ny + (y + x * Ny)) := by
  have hlt : y + x * Ny < Nx * Ny := idx_lt (by omega) (by omega)
  have hlt2 : (y + 1) + x * Ny < Nx * Ny := idx_lt (by omega) (by omega)
  unfold C_enforce_slip
  refine forLoop2_set_at (SolidKept v bound Nx Ny) (fun t : Buf => t (Nx * Ny + (y + x * Ny))) _
    1 (Nx - 1) 1 (Ny - 1) x y hx1 hx2 hy1 hy2 (fun x y t => slipCell bound Nx Ny x y t) v
    (fun j _ _ => ⟨rfl, rfl⟩) ?_ ?_ ?_
  · intro x1 y1 _ h2 _ h4 t ht
    exact slipCell_solidKept v bound Nx Ny x1 y1 (by omega) (by omega) (by omega) t ht
  · intro t ht hg
    have hg2 : t (Nx * Ny + (y + x * Ny)) = v (Nx * Ny + (y + x * Ny)) := hg
    show slipCell bound Nx Ny x y t (Nx * Ny + (y + x * Ny)) = _
    rw [slipCell_y bound Nx Ny x y (by omega) t, hg2]
    by_cases h1 : bound (y + x * Ny) ≠ 0
    · rw [if_pos h1, if_pos h1]
    · rw [if_neg h1, if_neg h1]
      by_cases h2 : bound (y + x * Ny + 1) ≠ 0
      · rw [if_pos h2, if_pos h2]
        have h := (ht (y + x * Ny + 1) (by omega) h2).2
        rw [← Nat.add_assoc] at h
        exact h
      · rw [if_neg h2, if_neg h2]
        by_cases h3 : bound (y + x * Ny - 1) ≠ 0
        · rw [if_pos h3, if_pos h3]
          have h := (ht (y + x * Ny - 1) (by omega) h3).2
          have e : Nx * Ny + (y + x * Ny - 1) = Nx * Ny + (y + x * Ny) - 1 := by omega
          rw [e] at h
          exact h
        · rw [if_neg h3, if_neg h3]
  · intro x1 y1 _ h2 _ h4 hne t
    have a1 : x1 < Nx := by omega
    have a2 : y1 < Ny := by omega
    have a3 : x < Nx := by omega
    have a4 : y < Ny := by omega
    have hs := cell_index_sep a1 a2 a3 a4 hne
    exact slipCell_other bound Nx Ny x1 y1 _ hs.2.2.1 hs.2.2.2 t

/-- C3 (amended): after `C_enforce_slip` a fluid interior cell holds the x-velocity that
its solid neighbour along the x-axis had before the call, the `x+1` neighbour if that one
is solid, otherwise the `x-1` neighbour if that one is solid, and its own old x-velocity
if neither is solid; the same holds for the y-velocity with the `y+1` / `y-1`
neighbours. -/
theorem C3_slip_copies_solid_neighbour (v : Buf) (bound : Mask) (Nx Ny x y : Nat)
    (hx1 : 1 ≤ x) (hx2 : x + 2 ≤ Nx) (hy1 : 1 ≤ y) (hy2 : y + 2 ≤ Ny)
    (hfluid : bound (y + x * Ny) = 0) :
    C_enforce_slip v bound Nx Ny (y + x * Ny)
      = (if bound (y + (x + 1) * Ny) ≠ 0 then v (y + (x + 1) * Ny)
        else if bound (y + (x - 1) * Ny) ≠ 0 then v (y + (x - 1) * Ny)
        else v (y + x * Ny))
    ∧ C_enforce_slip v bound Nx Ny (Nx * Ny + (y + x * Ny))
      = (if bound ((y + 1) + x * Ny) ≠ 0 then v (Nx * Ny + ((y + 1) + x * Ny))
        else if bound ((y - 1) + x * Ny) ≠ 0 then v (Nx * Ny + ((y - 1) + x * Ny))
        else v (Nx * Ny + (y + x * Ny))) := by
  have e1 : y + (x + 1) * Ny = y + x * Ny + Ny := by ring
  have e2 : y + (x - 1) * Ny = y + x * Ny - Ny := by
    obtain ⟨k, rfl⟩ : ∃ k, x = k + 1 := ⟨x - 1, by omega⟩
    have : y + (k + 1) * Ny = y + k * Ny + Ny := by ring
    rw [Nat.add_sub_cancel, this, Nat.add_sub_cancel]
  have e3 : (y + 1) + x * Ny = y + x * Ny + 1 := by ring
  have e4 : (y - 1) + x * Ny = y + x * Ny - 1 := by omega
  have e5 : Nx * Ny + (y + x * Ny + 1) = Nx * Ny + (y + x * Ny) + 1 := by ring
  have e6 : Nx * Ny + (y + x * Ny - 1) = Nx * Ny + (y + x * Ny) - 1 := by omega
  rw [e1, e2, e3, e4, e5, e6, C_enforce_slip_x v bound Nx Ny x y hx1 (by omega) hy1 (by omega),
    C_enforce_slip_y v bound Nx Ny x y hx1 (by omega) hy1 (by omega)]
  simp [hfluid]

/-- C3 at the centre of the 3x3 grid with the solid cell `(2, 1)`. -/
theorem C3_slip_copies_solid_neighbour_witness :
    C_enforce_slip slipField slipMask 3 3 (1 + 1 * 3)
      = (if slipMask (1 + (1 + 1) * 3) ≠ 0 then slipField (1 + (1 + 1) * 3)
        else if slipMask (1 + (1 - 1) * 3) ≠ 0 then slipField (1 + (1 - 1) * 3)
        else slipField (1 + 1 * 3))
    ∧ C_enforce_slip slipField slipMask 3 3 (3 * 3 + (1 + 1 * 3))
      = (if slipMask ((1 + 1) + 1 * 3) ≠ 0 then slipField (3 * 3 + ((1 + 1) + 1 * 3))
        else if slipMask ((1 - 1) + 1 * 3) ≠ 0 then slipField (3 * 3 + ((1 - 1) + 1 * 3))
        else slipField (3 * 3 + (1 + 1 * 3))) :=
  C3_slip_copies_solid_neighbour slipField slipMask 3 3 1 1 (by decide) (by decide)
    (by decide) (by decide) (by decide)

/-- C3 as stated fails: on a 3x3 grid whose centre is fluid, whose `x+1` neighbour
`(2, 1)` is solid with x-velocity 5 and whose only fluid neighbour along the x-axis,
`(0, 1)`, has x-velocity 7, the centre gets 5, the value of the solid neighbour, not 7. -/
theorem C3_slip_counterexample :
    slipMask (1 + 1 * 3) = 0 ∧ slipMask (1 + 2 * 3) ≠ 0 ∧ slipMask (1 + 0 * 3) = 0
    ∧ slipField (1 + 0 * 3) = 7
    ∧ C_enforce_slip slipField slipMask 3 3 (1 + 1 * 3) = 5
    ∧ C_enforce_slip slipField slipMask 3 3 (1 + 1 * 3) ≠ slipField (1 + 0 * 3) := by
  have h : C_enforce_slip slipField slipMask 3 3 (1 + 1 * 3) = 5 := by
    rw [C_enforce_slip_x slipField slipMask 3 3 1 1 (by decide) (by decide) (by decide)
      (by decide)]
    simp [slipMask, slipField]
  refine ⟨by decide, by decide, by decide, by simp [slipField], h, ?_⟩
  rw [h]
  simp [slipField]

/-! ## `C_pressure_solve` -/

theorem pressureDecay_eq (pressure : Buf) (bound : Mask) (Nx Ny i : Nat) :
    pressureDecay pressure bound Nx Ny i
      = if i < Nx * Ny then pressure i * (if bound i ≠ 0 then 9 / 10 else 1) else pressure i :=
  forLoop_store_map (fun x a => a * (if bound x ≠ 0 then 9 / 10 else 1)) (Nx * Ny) pressure i

/-- A loop that zeroes two places per pass leaves 0 in every place it writes. -/
theorem forLoop_zero2_hit (f g : Nat → Nat) (n : Nat) (b : Buf) (j x0 : Nat) (hx0 : x0 < n)
    (hj : j = f x0 ∨ j = g x0) :
    forLoop 0 n (fun x b => store (store b (f x) 0) (g x) 0) b j = 0 := by
  unfold forLoop
  have h := loopN_ind (fun i (t : Buf) => x0 < i → t j = 0) (n - 0) 0
    (fun x b => store (store b (f x) 0) (g x) 0) b (fun h => absurd h (by omega))
    (fun i _ _ t ht h3 => by
      show store (store t (f i) 0) (g i) 0 j = 0
      by_cases e : i = x0
      · subst e
        rcases hj with hj | hj
        · simp [store, hj]
        · simp [store, hj]
      · have ht2 : t j = 0 := ht (by omega)
        simp only [store]
        split_ifs <;> first | rfl | exact ht2)
  exact h (by omega)

theorem forLoop_zero2_miss (f g : Nat → Nat) (n : Nat) (b : Buf) (j : Nat)
    (hj : ∀ x, x < n → j ≠ f x ∧ j ≠ g x) :
    forLoop 0 n (fun x b => store (store b (f x) 0) (g x) 0) b j = b j := by
  refine forLoop_preserve (fun t : Buf => t j) 0 n _ b ?_
  intro x _ hx t
  show store (store t (f x) 0) (g x) 0 j = t j
  rw [store_ne _ _ (hj x hx).2, store_ne _ _ (hj x hx).1]

theorem jacobiInterior_interior (buf pressure div : Buf) (bound : Mask) (Nx Ny : Nat)
    (dx dy : ℚ) (x y : Nat) (hx1 : 1 ≤ x) (hx2 : x < Nx - 1) (hy1 : 1 ≤ y) (hy2 : y < Ny - 1) :
    jacobiInterior buf pressure div bound Nx Ny dx dy (y + x * Ny)
      = jacobiValue pressure div bound Ny dx dy (y + x * Ny) := by
  unfold jacobiInterior
  refine forLoop2_set_at (fun _ => True) (fun t : Buf => t (y + x * Ny)) _
    1 (Nx - 1) 1 (Ny - 1) x y hx1 hx2 hy1 hy2
    (fun x y b => store b (y + x * Ny) (jacobiValue pressure div bound Ny dx dy (y + x * Ny)))
    buf trivial (fun _ _ _ _ _ _ _ _ => trivial) ?_ ?_
  · intro t _ _
    exact store_same _ _ _
  · intro x1 y1 _ h2 _ h4 hne t
    have a2 : y1 < Ny := by omega
    have a4 : y < Ny := by omega
    exact store_ne _ _ (idx_ne a4 a2 (fun h => hne ⟨h.1.symm, h.2.symm⟩))

theorem jacobiInterior_other (buf pressure div : Buf) (bound : Mask) (Nx Ny : Nat)
    (dx dy : ℚ) (j : Nat)
    (hj : ∀ x y, 1 ≤ x → x < Nx - 1 → 1 ≤ y → y < Ny - 1 → j ≠ y + x * Ny) :
    jacobiInterior buf pressure div bound Nx Ny dx dy j = buf j := by
  unfold jacobiInterior
  refine forLoop2_preserve (fun t : Buf => t j) 1 (Nx - 1) 1 (Ny - 1)
    (fun x y b => store b (y + x * Ny) (jacobiValue pressure div bound Ny dx dy (y + x * Ny)))
    buf ?_
  intro x1 y1 h1 h2 h3 h4 t
  exact store_ne _ _ (hj x1 y1 h1 h2 h3 h4)

theorem resetRows_cell (buf : Buf) (Nx Ny x y : Nat) (hx : x < Nx) (hy : y < Ny) :
    resetRows buf Nx Ny (y + x * Ny) = if y = 0 ∨ y = Ny - 1 then 0 else buf (y + x * Ny) := by
  unfold resetRows
  have e : (x + 1) * Ny = x * Ny + Ny := by ring
  split_ifs with h
  · refine forLoop_zero2_hit (fun x => x * Ny) (fun x => (x + 1) * Ny - 1) Nx buf _ x hx ?_
    rcases h with h | h
    · left
      simp [h]
    · right
      show y + x * Ny = (x + 1) * Ny - 1
      omega
  · refine forLoop_zero2_miss (fun x => x * Ny) (fun x => (x + 1) * Ny - 1) Nx buf _ ?_
    intro x1 hx1
    have e1 : (x1 + 1) * Ny = x1 * Ny + Ny := by ring
    constructor
    · show y + x * Ny ≠ x1 * Ny
      intro e2
      have := @idx_inj Ny x y x1 0 hy (by omega) (by omega)
      omega
    · show y + x * Ny ≠ (x1 + 1) * Ny - 1
      intro e2
      have := @idx_inj Ny x y x1 (Ny - 1) hy (by omega) (by omega)
      omega

theorem resetRows_frame (buf : Buf) (Nx Ny j : Nat) (hNy : 1 ≤ Ny) (hj : Nx * Ny ≤ j) :
    resetRows buf Nx Ny j = buf j := by
  unfold resetRows
  refine forLoop_zero2_miss (fun x => x * Ny) (fun x => (x + 1) * Ny - 1) Nx buf _ ?_
  intro x1 hx1
  have h1 : (x1 + 1) * Ny ≤ Nx * Ny := Nat.mul_le_mul_right Ny hx1
  have e1 : (x1 + 1) * Ny = x1 * Ny + Ny := by ring
  constructor
  · show j ≠ x1 * Ny
    omega
  · show j ≠ (x1 + 1) * Ny - 1
    omega

theorem resetCols_cell (buf : Buf) (Nx Ny x y : Nat) (hx : x < Nx) (hy : y < Ny) :
    resetCols buf Nx Ny (y + x * Ny) = if x = 0 ∨ x = Nx - 1 then 0 else buf (y + x * Ny) := by
  unfold resetCols
  split_ifs with h
  · refine forLoop_zero2_hit (fun y => y) (fun y => y + Ny * (Nx - 1)) Ny buf _ y hy ?_
    rcases h with h | h
    · left
      simp [h]
    · right
      show y + x * Ny = y + Ny * (Nx - 1)
      rw [h, Nat.mul_comm]
  · refine forLoop_zero2_miss (fun y => y) (fun y => y + Ny * (Nx - 1)) Ny buf _ ?_
    intro y1 hy1
    push_neg at h
    constructor
    · show y + x * Ny ≠ y1
      intro e2
      have := @idx_inj Ny x y 0 y1 hy hy1 (by omega)
      omega
    · show y + x * Ny ≠ y1 + Ny * (Nx - 1)
      intro e2
      rw [Nat.mul_comm Ny] at e2
      have := idx_inj hy hy1 e2
      omega

theorem resetCols_frame (buf : Buf) (Nx Ny j : Nat) (hNx : 1 ≤ Nx) (hj : Nx * Ny ≤ j) :
    resetCols buf Nx Ny j = buf j := by
  unfold resetCols
  refine forLoop_zero2_miss (fun y => y) (fun y => y + Ny * (Nx - 1)) Ny buf _ ?_
  intro y1 hy1
  have h1 : y1 + (Nx - 1) * Ny < Nx * Ny := idx_lt (by omega) hy1
  have h2 : Ny ≤ Nx * Ny := Nat.le_mul_of_pos_left Ny hNx
  have e : Ny * (Nx - 1) = (Nx - 1) * Ny := Nat.mul_comm _ _
  constructor
  · show j ≠ y1
    omega
  · show j ≠ y1 + Ny * (Nx - 1)
    omega

theorem not_onRing_iff (Nx Ny x y : Nat) (hx : x < Nx) (hy : y < Ny) :
    ¬ onRing Nx Ny x y ↔ (1 ≤ x ∧ x < Nx - 1 ∧ 1 ≤ y ∧ y < Ny - 1) := by
  unfold onRing
  omega

/-- The buffer written by one Jacobi iteration, cell by cell. -/
theorem jacobiIter_cell (div : Buf) (bound : Mask) (Nx Ny : Nat) (dx dy : ℚ)
    (st : PressureState) (x y : Nat) (hx : x < Nx) (hy : y < Ny) :
    (jacobiIter div bound Nx Ny dx dy st).pressure (y + x * Ny)
      = if onRing Nx Ny x y then 0
        else jacobiValue st.pressure div bound Ny dx dy (y + x * Ny) := by
  simp only [jacobiIter]
  split_ifs with h
  · rw [jacobiInterior_other]
    · rw [resetCols_cell _ Nx Ny x y hx hy]
      split_ifs with h2
      · rfl
      · rw [resetRows_cell _ Nx Ny x y hx hy, if_pos]
        unfold onRing at h
        tauto
    · intro x1 y1 h1 h2 h3 h4 e
      have a2 : y1 < Ny := by omega
      have := idx_inj hy a2 e
      unfold onRing at h
      omega
  · rw [not_onRing_iff Nx Ny x y hx hy] at h
    exact jacobiInterior_interior _ _ _ _ _ _ _ _ x y h.1 h.2.1 h.2.2.1 h.2.2.2

theorem jacobiIter_frame (div : Buf) (bound : Mask) (Nx Ny : Nat) (dx dy : ℚ)
    (st : PressureState) (j : Nat) (hNx : 1 ≤ Nx) (hNy : 1 ≤ Ny) (hj : Nx * Ny ≤ j) :
    (jacobiIter div bound Nx Ny dx dy st).pressure j = st.pressure_buffer j := by
  simp only [jacobiIter]
  rw [jacobiInterior_other, resetCols_frame _ Nx Ny j hNx hj, resetRows_frame _ Nx Ny j hNy hj]
  intro x1 y1 h1 h2 h3 h4
  have := @idx_lt Nx Ny x1 y1 (by omega) (by omega)
  omega

theorem div_mod_of_idx {Ny x y : Nat} (hy : y < Ny) :
    (y + x * Ny) / Ny = x ∧ (y + x * Ny) % Ny = y := by
  have hN : 0 < Ny := by omega
  constructor
  · rw [Nat.add_mul_div_right _ _ hN, Nat.div_eq_of_lt hy, zero_add]
  · rw [Nat.add_mul_mod_self_right, Nat.mod_eq_of_lt hy]

/-- One Jacobi iteration of the code is the step `J` of the specification. -/
theorem jacobiIter_eq_spec (div : Buf) (bound : Mask) (Nx Ny : Nat) (dx dy : ℚ)
    (st : PressureState) (i : Nat) (hi : i < Nx * Ny) :
    (jacobiIter div bound Nx Ny dx dy st).pressure i
      = jacobiStepSpec div bound Nx Ny dx dy st.pressure i := by
  obtain ⟨hy, hx, e⟩ := idx_decomp hi
  have hc := jacobiIter_cell div bound Nx Ny dx dy st _ _ hx hy
  rw [← e] at hc
  rw [hc]
  simp only [jacobiStepSpec, onRing, jacobiValue]
  by_cases h1 : i / Ny = 0 ∨ i / Ny = Nx - 1 ∨ i % Ny = 0 ∨ i % Ny = Ny - 1
  · rw [if_pos h1, if_pos h1]
  · rw [if_neg h1, if_neg h1]
    ring

theorem jacobiStepSpec_congr (div : Buf) (bound : Mask) (Nx Ny : Nat) (dx dy : ℚ)
    (p q : Buf) (h : ∀ i, i < Nx * Ny → p i = q i) (i : Nat) (hi : i < Nx * Ny) :
    jacobiStepSpec div bound Nx Ny dx dy p i = jacobiStepSpec div bound Nx Ny dx dy q i := by
  obtain ⟨hy, hx, e⟩ := idx_decomp hi
  simp only [jacobiStepSpec]
  by_cases h1 : i / Ny = 0 ∨ i / Ny = Nx - 1 ∨ i % Ny = 0 ∨ i % Ny = Ny - 1
  · rw [if_pos h1, if_pos h1]
  · rw [if_neg h1, if_neg h1]
    have hq : p (i - 1) = q (i - 1) ∧ p (i + 1) = q (i + 1) ∧ p (i - Ny) = q (i - Ny)
        ∧ p (i + Ny) = q (i + Ny) := by
      generalize i / Ny = x at hx e h1
      generalize i % Ny = y at hy e h1
      have hup : y + (x + 1) * Ny < Nx * Ny := idx_lt (by omega) hy
      have e2 : (x + 1) * Ny = x * Ny + Ny := by ring
      exact ⟨h _ (by omega), h _ (by omega), h _ (by omega), h _ (by omega)⟩
    rw [h i hi, hq.1, hq.2.1, hq.2.2.1, hq.2.2.2]

theorem pressureLoop_succ (k : Nat) (pressure pressure_buffer div : Buf) (bound : Mask)
    (Nx Ny : Nat) (dx dy : ℚ) :
    pressureLoop (k + 1) pressure pressure_buffer div bound Nx Ny dx dy
      = jacobiIter div bound Nx Ny dx dy
          (pressureLoop k pressure pressure_buffer div bound Nx Ny dx dy) := rfl

/-- After `k` iterations the local pointer `pressure` points to `J^k (D p0)`. -/
theorem pressureLoop_pressure (k : Nat) (p0 buf div : Buf) (bound : Mask) (Nx Ny : Nat)
    (dx dy : ℚ) (i : Nat) (hi : i < Nx * Ny) :
    (pressureLoop k p0 buf div bound Nx Ny dx dy).pressure i
      = (jacobiStepSpec div bound Nx Ny dx dy)^[k] (decaySpec bound p0) i := by
  induction k generalizing i with
  | zero =>
    show pressureDecay p0 bound Nx Ny i = decaySpec bound p0 i
    rw [pressureDecay_eq, if_pos hi]
    unfold decaySpec
    split_ifs <;> ring
  | succ k ih =>
    rw [pressureLoop_succ, jacobiIter_eq_spec _ _ _ _ _ _ _ i hi, Function.iterate_succ_apply']
    exact jacobiStepSpec_congr div bound Nx Ny dx dy _ _ (fun j hj => ih j hj) i hi

theorem pressureLoop_buffer (k : Nat) (p0 buf div : Buf) (bound : Mask) (Nx Ny : Nat)
    (dx dy : ℚ) :
    (pressureLoop (k + 1) p0 buf div bound Nx Ny dx dy).pressure_buffer
      = (pressureLoop k p0 buf div bound Nx Ny dx dy).pressure := rfl

theorem pressureLoop_swapped (k : Nat) (p0 buf div : Buf) (bound : Mask) (Nx Ny : Nat)
    (dx dy : ℚ) :
    (pressureLoop (k + 2) p0 buf div bound Nx Ny dx dy).swapped
      = (pressureLoop k p0 buf div bound Nx Ny dx dy).swapped := by
  rw [pressureLoop_succ, pressureLoop_succ]
  simp [jacobiIter]

theorem pressureLoop_steps_swapped (p0 buf div : Buf) (bound : Mask) (Nx Ny : Nat)
    (dx dy : ℚ) :
    (pressureLoop pressure_solve_steps p0 buf div bound Nx Ny dx dy).swapped = false := by
  unfold pressure_solve_steps
  simp only [pressureLoop_swapped]
  rfl

theorem C_pressure_solve_fst (p0 buf div : Buf) (bound : Mask) (Nx Ny : Nat) (dx dy : ℚ) :
    (C_pressure_solve p0 buf div bound Nx Ny dx dy).1
      = (pressureLoop 20 p0 buf div bound Nx Ny dx dy).pressure := by
  have h := pressureLoop_steps_swapped p0 buf div bound Nx Ny dx dy
  simp only [C_pressure_solve, PressureState.callerPressure, h]
  rfl

theorem C_pressure_solve_snd (p0 buf div : Buf) (bound : Mask) (Nx Ny : Nat) (dx dy : ℚ) :
    (C_pressure_solve p0 buf div bound Nx Ny dx dy).2
      = (pressureLoop 19 p0 buf div bound Nx Ny dx dy).pressure := by
  have h := pressureLoop_steps_swapped p0 buf div bound Nx Ny dx dy
  simp only [C_pressure_solve, PressureState.callerBuffer, h]
  rfl

/-- C5: for every mask, divergence, initial pressure `p0` and initial content of
`pressure_buffer`, after `C_pressure_solve` the caller's array `pressure` holds
`J^20 (D p0)` and the caller's array `pressure_buffer` holds `J^19 (D p0)` at every cell,
with `D = decaySpec` and `J = jacobiStepSpec`; in particular the result is in the caller's
`pressure` array and is 0 on the outermost ring. -/
theorem C5_pressure_solve_output (p0 buf div : Buf) (bound : Mask) (Nx Ny : Nat) (dx dy : ℚ)
    (i : Nat) (hi : i < Nx * Ny) :
    (C_pressure_solve p0 buf div bound Nx Ny dx dy).1 i
        = (jacobiStepSpec div bound Nx Ny dx dy)^[20] (decaySpec bound p0) i
    ∧ (C_pressure_solve p0 buf div bound Nx Ny dx dy).2 i
        = (jacobiStepSpec div bound Nx Ny dx dy)^[19] (decaySpec bound p0) i
    ∧ ((i / Ny = 0 ∨ i / Ny = Nx - 1 ∨ i % Ny = 0 ∨ i % Ny = Ny - 1) →
        (C_pressure_solve p0 buf div bound Nx Ny dx dy).1 i = 0) := by
  have h1 := pressureLoop_pressure 20 p0 buf div bound Nx Ny dx dy i hi
  have h2 := pressureLoop_pressure 19 p0 buf div bound Nx Ny dx dy i hi
  rw [C_pressure_solve_fst, C_pressure_solve_snd]
  refine ⟨h1, h2, fun hr => ?_⟩
  rw [h1, Function.iterate_succ_apply']
  simp only [jacobiStepSpec]
  rw [if_pos hr]

/-- C5 at the corner cell `(0, 0)` of a 3x3 grid. -/
theorem C5_pressure_solve_output_witness :
    (C_pressure_solve (fun _ => 1) (fun _ => 5) (fun _ => 1) (fun _ => 0) 3 3 1 1).1 0
        = (jacobiStepSpec (fun _ => 1) (fun _ => 0) 3 3 1 1)^[20]
            (decaySpec (fun _ => 0) (fun _ => 1)) 0
    ∧ (C_pressure_solve (fun _ => 1) (fun _ => 5) (fun _ => 1) (fun _ => 0) 3 3 1 1).2 0
        = (jacobiStepSpec (fun _ => 1) (fun _ => 0) 3 3 1 1)^[19]
            (decaySpec (fun _ => 0) (fun _ => 1)) 0
    ∧ (C_pressure_solve (fun _ => 1) (fun _ => 5) (fun _ => 1) (fun _ => 0) 3 3 1 1).1 0 = 0 :=
  have h := C5_pressure_solve_output (fun _ => 1) (fun _ => 5) (fun _ => 1) (fun _ => 0)
    3 3 1 1 0 (by decide)
  ⟨h.1, h.2.1, h.2.2 (Or.inl (by decide))⟩

theorem jacobiStepSpec_zero (div : Buf) (bound : Mask) (Nx Ny : Nat) (dx dy : ℚ) (p : Buf)
    (hp : ∀ i, i < Nx * Ny → p i = 0)
    (hdiv : ∀ x y, 1 ≤ x → x < Nx - 1 → 1 ≤ y → y < Ny - 1 → div (y + x * Ny) = 0) (i : Nat)
    (hi : i < Nx * Ny) : jacobiStepSpec div bound Nx Ny dx dy p i = 0 := by
  rw [jacobiStepSpec_congr div bound Nx Ny dx dy p (fun _ => 0) hp i hi]
  obtain ⟨hy, hx, e⟩ := idx_decomp hi
  simp only [jacobiStepSpec]
  by_cases h1 : i / Ny = 0 ∨ i / Ny = Nx - 1 ∨ i % Ny = 0 ∨ i % Ny = Ny - 1
  · rw [if_pos h1]
  · rw [if_neg h1]
    have hd : div i = 0 := by
      rw [e]
      clear e
      generalize i / Ny = x at hx h1 ⊢
      generalize i % Ny = y at hy h1 ⊢
      exact hdiv x y (by omega) (by omega) (by omega) (by omega)
    simp [hd]

theorem jacobi_iterate_zero (div : Buf) (bound : Mask) (Nx Ny : Nat) (dx dy : ℚ) (p : Buf)
    (hp : ∀ i, i < Nx * Ny → p i = 0)
    (hdiv : ∀ x y, 1 ≤ x → x < Nx - 1 → 1 ≤ y → y < Ny - 1 → div (y + x * Ny) = 0)
    (k i : Nat) (hi : i < Nx * Ny) :
    (jacobiStepSpec div bound Nx Ny dx dy)^[k] (decaySpec bound p) i = 0 := by
  induction k generalizing i with
  | zero =>
    simp [decaySpec, hp i hi]
  | succ k ih =>
    rw [Function.iterate_succ_apply']
    exact jacobiStepSpec_zero div bound Nx Ny dx dy _ (fun j hj => ih j hj) hdiv i hi

/-- With zero pressure and zero interior divergence every iterate of the solver is 0. -/
theorem pressureLoop_zero (p buf div : Buf) (bound : Mask) (Nx Ny : Nat) (dx dy : ℚ)
    (hp : ∀ i, i < Nx * Ny → p i = 0)
    (hdiv : ∀ x y, 1 ≤ x → x < Nx - 1 → 1 ≤ y → y < Ny - 1 → div (y + x * Ny) = 0)
    (k i : Nat) (hi : i < Nx * Ny) :
    (pressureLoop k p buf div bound Nx Ny dx dy).pressure i = 0 := by
  rw [pressureLoop_pressure k p buf div bound Nx Ny dx dy i hi]
  exact jacobi_iterate_zero div bound Nx Ny dx dy p hp hdiv k i hi

/-- C6: with `div` identically 0 and `pressure` identically 0 on the grid (whatever
`pressure_buffer` holds, and for every mask, in particular the all-fluid one), after
every number `k` of Jacobi iterations the buffer written last is identically 0, and after
the full `C_pressure_solve` the pressure field is identically 0. -/
theorem C6_pressure_zero_fixed_point (p buf div : Buf) (bound : Mask) (Nx Ny : Nat)
    (dx dy : ℚ) (hp : ∀ i, i < Nx * Ny → p i = 0) (hdiv : ∀ i, i < Nx * Ny → div i = 0)
    (i : Nat) (hi : i < Nx * Ny) :
    (∀ k, (pressureLoop k p buf div bound Nx Ny dx dy).pressure i = 0)
    ∧ (C_pressure_solve p buf div bound Nx Ny dx dy).1 i = 0 := by
  have h : ∀ k, (pressureLoop k p buf div bound Nx Ny dx dy).pressure i = 0 := fun k =>
    pressureLoop_zero p buf div bound Nx Ny dx dy hp
      (fun x y _ h2 _ h4 => hdiv _ (idx_lt (by omega) (by omega))) k i hi
  refine ⟨h, ?_⟩
  rw [C_pressure_solve_fst]
  exact h 20

/-- C6 at the centre of the all-fluid 3x3 grid, with a non-zero `pressure_buffer`. -/
theorem C6_pressure_zero_fixed_point_witness :
    (pressureLoop 1 (fun _ => 0) (fun _ => 7) (fun _ => 0) (fun _ => 0) 3 3 1 1).pressure 4 = 0
    ∧ (C_pressure_solve (fun _ => 0) (fun _ => 7) (fun _ => 0) (fun _ => 0) 3 3 1 1).1 4 = 0 :=
  have h := C6_pressure_zero_fixed_point (fun _ => 0) (fun _ => 7) (fun _ => 0) (fun _ => 0)
    3 3 1 1 (fun _ _ => rfl) (fun _ _ => rfl) 4 (by decide)
  ⟨h.1 1, h.2⟩

/-! ## Sampling a constant block -/

theorem advect_sample_const (f : Nat → ℚ) (Ny : Nat) (s t c : ℚ) (h0 : f 0 = c) (h1 : f 1 = c)
    (h2 : f Ny = c) (h3 : f (Ny + 1) = c) : advect_sample f Ny s t = c := by
  unfold advect_sample
  rw [h0, h1, h2, h3]
  ring

/-- Reading the 2x2 block at an in-range cell of a plane. -/
theorem ptrAdd_block (v : Buf) (Nx Ny : Nat) (xi yi : Int) (hx0 : 0 ≤ xi)
    (hx1 : xi ≤ (Nx : Int) - 2) (hy0 : 0 ≤ yi) (hy1 : yi ≤ (Ny : Int) - 2) (base : Nat)
    (k : Int) (hk : k = (base : Int) + (yi + xi * (Ny : Int))) (j : Nat) (hj : j ≤ Ny + 1) :
    (yi + xi * (Ny : Int) + (j : Int)).toNat < Nx * Ny
    ∧ ptrAdd v k j = v (base + (yi + xi * (Ny : Int) + (j : Int)).toNat) := by
  have hb := block_in_plane Nx Ny xi yi hx0 hx1 hy0 hy1
  constructor
  · have h1 : ((Nx * Ny : Nat) : Int) = (Nx : Int) * (Ny : Int) := by push_cast; ring
    omega
  · unfold ptrAdd
    congr 1
    omega

/-- A sample taken at an in-range cell of a plane that is constant is that constant. -/
theorem advect_sample_const_block (v : Buf) (Nx Ny : Nat) (xi yi : Int) (hx0 : 0 ≤ xi)
    (hx1 : xi ≤ (Nx : Int) - 2) (hy0 : 0 ≤ yi) (hy1 : yi ≤ (Ny : Int) - 2) (base : Nat) (c : ℚ)
    (hv : ∀ i, i < Nx * Ny → v (base + i) = c) (s t : ℚ) (k : Int)
    (hk : k = (base : Int) + (yi + xi * (Ny : Int))) :
    advect_sample (ptrAdd v k) Ny s t = c := by
  have hr : ∀ j, j ≤ Ny + 1 → ptrAdd v k j = c := by
    intro j hj
    obtain ⟨hi, e⟩ := ptrAdd_block v Nx Ny xi yi hx0 hx1 hy0 hy1 base k hk j hj
    rw [e, hv _ hi]
  exact advect_sample_const _ Ny s t c (hr 0 (by omega)) (hr 1 (by omega)) (hr Ny (by omega))
    (hr (Ny + 1) (by omega))

/-- A sample taken at an in-range cell of a plane only depends on that plane. -/
theorem advect_sample_congr_block (v w : Buf) (Nx Ny : Nat) (xi yi : Int) (hx0 : 0 ≤ xi)
    (hx1 : xi ≤ (Nx : Int) - 2) (hy0 : 0 ≤ yi) (hy1 : yi ≤ (Ny : Int) - 2) (base : Nat)
    (hv : ∀ i, i < Nx * Ny → v (base + i) = w (base + i)) (s t : ℚ) (k : Int)
    (hk : k = (base : Int) + (yi + xi * (Ny : Int))) :
    advect_sample (ptrAdd v k) Ny s t = advect_sample (ptrAdd w k) Ny s t := by
  have hr : ∀ j, j ≤ Ny + 1 → ptrAdd v k j = ptrAdd w k j := by
    intro j hj
    obtain ⟨hi, e⟩ := ptrAdd_block v Nx Ny xi yi hx0 hx1 hy0 hy1 base k hk j hj
    obtain ⟨_, e2⟩ := ptrAdd_block w Nx Ny xi yi hx0 hx1 hy0 hy1 base k hk j hj
    rw [e, e2, hv _ hi]
  unfold advect_sample
  rw [hr 0 (by omega), hr 1 (by omega), hr Ny (by omega), hr (Ny + 1) (by omega)]

/-! ## `C_apply_advection`, cell by cell -/

theorem applyCell_other (d0 : Buf) (bound : Mask) (ai : IBuf) (al : Buf) (Nx Ny x y j : Nat)
    (h : j ≠ y + x * Ny) (d : Buf) : applyCell d0 bound ai al Nx Ny x y d j = d j := by
  simp only [applyCell]
  split <;> simp [store, h]

theorem applyCell_self (d0 : Buf) (bound : Mask) (ai : IBuf) (al : Buf) (Nx Ny x y : Nat)
    (d : Buf) :
    applyCell d0 bound ai al Nx Ny x y d (y + x * Ny)
      = if bound (y + x * Ny) = 0 then
          advect_sample (ptrAdd d0 (ai (Nx * Ny + (y + x * Ny)) + ai (y + x * Ny) * (Ny : Int)))
            Ny (al (y + x * Ny)) (al (Nx * Ny + (y + x * Ny)))
        else d (y + x * Ny) * (9 / 10) := by
  simp only [applyCell]
  split <;> simp [store]

theorem C_apply_advection_cell (d d0 : Buf) (bound : Mask) (ai : IBuf) (al : Buf)
    (Nx Ny x y : Nat) (hx : x < Nx) (hy : y < Ny) :
    C_apply_advection d d0 bound ai al Nx Ny (y + x * Ny)
      = if bound (y + x * Ny) = 0 then
          advect_sample (ptrAdd d0 (ai (Nx * Ny + (y + x * Ny)) + ai (y + x * Ny) * (Ny : Int)))
            Ny (al (y + x * Ny)) (al (Nx * Ny + (y + x * Ny)))
        else d (y + x * Ny) * (9 / 10) := by
  unfold C_apply_advection
  refine forLoop2_set_at (fun _ => True) (fun t : Buf => t (y + x * Ny)) _
    0 Nx 0 Ny x y (Nat.zero_le _) hx (Nat.zero_le _) hy
    (fun x y d => applyCell d0 bound ai al Nx Ny x y d) d trivial
    (fun _ _ _ _ _ _ _ _ => trivial) ?_ ?_
  · intro t _ ht
    have ht2 : t (y + x * Ny) = d (y + x * Ny) := ht
    show applyCell d0 bound ai al Nx Ny x y t (y + x * Ny) = _
    rw [applyCell_self, ht2]
  · intro x1 y1 _ hx1 _ hy1 hne t
    exact applyCell_other d0 bound ai al Nx Ny x1 y1 _
      (idx_ne hy hy1 (fun h => hne ⟨h.1.symm, h.2.symm⟩)) t

theorem C_apply_advection_frame (d d0 : Buf) (bound : Mask) (ai : IBuf) (al : Buf)
    (Nx Ny j : Nat) (hj : Nx * Ny ≤ j) :
    C_apply_advection d d0 bound ai al Nx Ny j = d j := by
  unfold C_apply_advection
  refine forLoop2_preserve (fun t : Buf => t j) 0 Nx 0 Ny
    (fun x y d => applyCell d0 bound ai al Nx Ny x y d) d ?_
  intro x1 y1 _ hx1 _ hy1 t
  have := idx_lt hx1 hy1
  exact applyCell_other d0 bound ai al Nx Ny x1 y1 j (by omega) t

/-- C8: after `C_apply_advection(d, d0, ...)` a solid cell holds 0.9 times the value `d`
held there before the call, and a fluid cell holds `advect_sample` of `d0` at its cached
cell `yi + xi * Ny` with its cached fractions, not decayed; in particular, when `d` and
`d0` are the constant `c` on the grid and the cached cell satisfies `0 ≤ xi ≤ Nx - 2` and
`0 ≤ yi ≤ Ny - 2`, a solid cell gets `0.9 * c` and a fluid cell gets exactly `c`. -/
theorem C8_density_advection_policy (d d0 : Buf) (bound : Mask) (ai : IBuf) (al : Buf)
    (Nx Ny x y : Nat) (hx : x < Nx) (hy : y < Ny) :
    C_apply_advection d d0 bound ai al Nx Ny (y + x * Ny)
      = (if bound (y + x * Ny) ≠ 0 then 9 / 10 * d (y + x * Ny)
        else advect_sample
          (ptrAdd d0 (ai (Nx * Ny + (y + x * Ny)) + ai (y + x * Ny) * (Ny : Int)))
          Ny (al (y + x * Ny)) (al (Nx * Ny + (y + x * Ny))))
    ∧ ∀ c : ℚ, (∀ i, i < Nx * Ny → d0 i = c) → d (y + x * Ny) = c →
        0 ≤ ai (y + x * Ny) → ai (y + x * Ny) ≤ (Nx : Int) - 2 →
        0 ≤ ai (Nx * Ny + (y + x * Ny)) → ai (Nx * Ny + (y + x * Ny)) ≤ (Ny : Int) - 2 →
        C_apply_advection d d0 bound ai al Nx Ny (y + x * Ny)
          = if bound (y + x * Ny) ≠ 0 then 9 / 10 * c else c := by
  have h := C_apply_advection_cell d d0 bound ai al Nx Ny x y hx hy
  refine ⟨?_, fun c hc hd hx0 hx1 hy0 hy1 => ?_⟩
  · rw [h]
    by_cases hb : bound (y + x * Ny) = 0
    · rw [if_pos hb, if_neg (not_not.mpr hb)]
    · rw [if_neg hb, if_pos hb]
      ring
  · rw [h]
    by_cases hb : bound (y + x * Ny) = 0
    · rw [if_pos hb, if_neg (not_not.mpr hb)]
      exact advect_sample_const_block d0 Nx Ny _ _ hx0 hx1 hy0 hy1 0 c
        (fun i hi => by rw [Nat.zero_add]; exact hc i hi) _ _ _ (by simp)
    · rw [if_neg hb, if_pos hb, hd]
      ring

/-- C8 on a 3x3 grid with the centre solid and density 1 everywhere: the solid centre
becomes 0.9 and the fluid cell `(1, 0)` stays 1. -/
theorem C8_density_advection_policy_witness :
    C_apply_advection (fun _ => 1) (fun _ => 1) centreMask (fun _ => 0) (fun _ => 0) 3 3
        (1 + 1 * 3) = 9 / 10 * 1
    ∧ C_apply_advection (fun _ => 1) (fun _ => 1) centreMask (fun _ => 0) (fun _ => 0) 3 3
        (0 + 1 * 3) = 1 :=
  ⟨((C8_density_advection_policy (fun _ => 1) (fun _ => 1) centreMask (fun _ => 0)
      (fun _ => 0) 3 3 1 1 (by decide) (by decide)).2 1 (fun _ _ => rfl) rfl (by decide)
      (by decide) (by decide) (by decide)).trans (if_pos (by decide)),
   ((C8_density_advection_policy (fun _ => 1) (fun _ => 1) centreMask (fun _ => 0)
      (fun _ => 0) 3 3 1 0 (by decide) (by decide)).2 1 (fun _ _ => rfl) rfl (by decide)
      (by decide) (by decide) (by decide)).trans (if_neg (by decide))⟩

/-! ## `C_divergence`, `C_sub_gradient`: cell by cell -/

/-- The index of a cell that is not interior differs from every index the interior loops
write, in both components. -/
theorem not_interior_idx {Nx Ny x y : Nat} (hx : x < Nx) (hy : y < Ny)
    (h : ¬ (1 ≤ x ∧ x < Nx - 1 ∧ 1 ≤ y ∧ y < Ny - 1)) (x1 y1 : Nat) (_h1 : 1 ≤ x1)
    (h2 : x1 < Nx - 1) (_h3 : 1 ≤ y1) (h4 : y1 < Ny - 1) :
    y + x * Ny ≠ y1 + x1 * Ny ∧ y + x * Ny ≠ Nx * Ny + (y1 + x1 * Ny)
      ∧ Nx * Ny + (y + x * Ny) ≠ y1 + x1 * Ny
      ∧ Nx * Ny + (y + x * Ny) ≠ Nx * Ny + (y1 + x1 * Ny) := by
  have a1 : x1 < Nx := by omega
  have a2 : y1 < Ny := by omega
  have hne : ¬ (x1 = x ∧ y1 = y) := by omega
  have hs := cell_index_sep a1 a2 hx hy hne
  omega

theorem C_divergence_interior (div v : Buf) (bound : Mask) (Nx Ny : Nat) (dx dy : ℚ)
    (x y : Nat) (hx1 : 1 ≤ x) (hx2 : x < Nx - 1) (hy1 : 1 ≤ y) (hy2 : y < Ny - 1) :
    C_divergence div v bound Nx Ny dx dy (y + x * Ny)
      = divergenceValue v bound Nx Ny dx dy (y + x * Ny) := by
  unfold C_divergence
  refine forLoop2_set_at (fun _ => True) (fun t : Buf => t (y + x * Ny)) _
    1 (Nx - 1) 1 (Ny - 1) x y hx1 hx2 hy1 hy2
    (fun x y d => store d (y + x * Ny) (divergenceValue v bound Nx Ny dx dy (y + x * Ny)))
    div trivial (fun _ _ _ _ _ _ _ _ => trivial) ?_ ?_
  · intro t _ _
    exact store_same _ _ _
  · intro x1 y1 _ h2 _ h4 hne t
    have a2 : y1 < Ny := by omega
    have a4 : y < Ny := by omega
    exact store_ne _ _ (idx_ne a4 a2 (fun h => hne ⟨h.1.symm, h.2.symm⟩))

theorem C_divergence_other (div v : Buf) (bound : Mask) (Nx Ny : Nat) (dx dy : ℚ) (j : Nat)
    (hj : ∀ x y, 1 ≤ x → x < Nx - 1 → 1 ≤ y → y < Ny - 1 → j ≠ y + x * Ny) :
    C_divergence div v bound Nx Ny dx dy j = div j := by
  unfold C_divergence
  refine forLoop2_preserve (fun t : Buf => t j) 1 (Nx - 1) 1 (Ny - 1)
    (fun x y d => store d (y + x * Ny) (divergenceValue v bound Nx Ny dx dy (y + x * Ny)))
    div ?_
  intro x1 y1 h1 h2 h3 h4 t
  exact store_ne _ _ (hj x1 y1 h1 h2 h3 h4)

theorem subGradientCell_other (v0 p : Buf) (bound : Mask) (Nx Ny : Nat) (dx dy : ℚ)
    (x y j : Nat) (h1 : j ≠ y + x * Ny) (h2 : j ≠ Nx * Ny + (y + x * Ny)) (v : Buf) :
    subGradientCell v0 p bound Nx Ny dx dy x y v j = v j := by
  simp only [subGradientCell]
  rw [store_ne _ _ h2, store_ne _ _ h1]

theorem C_sub_gradient_x (v v0 p : Buf) (bound : Mask) (Nx Ny : Nat) (dx dy : ℚ) (x y : Nat)
    (hx1 : 1 ≤ x) (hx2 : x < Nx - 1) (hy1 : 1 ≤ y) (hy2 : y < Ny - 1) :
    C_sub_gradient v v0 p bound Nx Ny dx dy (y + x * Ny)
      = if bound (y + x * Ny) ≠ 0 then v0 (y + x * Ny)
        else v0 (y + x * Ny) - 1 / (2 * dx) * (p (y + x * Ny + Ny) - p (y + x * Ny - Ny)) := by
  have a3 : x < Nx := by omega
  have a4 : y < Ny := by omega
  have hlt := idx_lt a3 a4
  unfold C_sub_gradient
  refine forLoop2_set_at (fun _ => True) (fun t : Buf => t (y + x * Ny)) _
    1 (Nx - 1) 1 (Ny - 1) x y hx1 hx2 hy1 hy2
    (fun x y v => subGradientCell v0 p bound Nx Ny dx dy x y v) v trivial
    (fun _ _ _ _ _ _ _ _ => trivial) ?_ ?_
  · intro t _ _
    show subGradientCell v0 p bound Nx Ny dx dy x y t (y + x * Ny) = _
    simp only [subGradientCell]
    rw [store_ne _ _ (by omega), store_same]
  · intro x1 y1 _ h2 _ h4 hne t
    have a1 : x1 < Nx := by omega
    have a2 : y1 < Ny := by omega
    have hs := cell_index_sep a1 a2 a3 a4 hne
    exact subGradientCell_other v0 p bound Nx Ny dx dy x1 y1 _ hs.1 hs.2.1 t

theorem C_sub_gradient_y (v v0 p : Buf) (bound : Mask) (Nx Ny : Nat) (dx dy : ℚ) (x y : Nat)
    (hx1 : 1 ≤ x) (hx2 : x < Nx - 1) (hy1 : 1 ≤ y) (hy2 : y < Ny - 1) :
    C_sub_gradient v v0 p bound Nx Ny dx dy (Nx * Ny + (y + x * Ny))
      = if bound (y + x * Ny) ≠ 0 then v0 (Nx * Ny + (y + x * Ny))
        else v0 (Nx * Ny + (y + x * Ny))
          - 1 / (2 * dy) * (p (y + x * Ny + 1) - p (y + x * Ny - 1)) := by
  have a3 : x < Nx := by omega
  have a4 : y < Ny := by omega
  unfold C_sub_gradient
  refine forLoop2_set_at (fun _ => True) (fun t : Buf => t (Nx * Ny + (y + x * Ny))) _
    1 (Nx - 1) 1 (Ny - 1) x y hx1 hx2 hy1 hy2
    (fun x y v => subGradientCell v0 p bound Nx Ny dx dy x y v) v trivial
    (fun _ _ _ _ _ _ _ _ => trivial) ?_ ?_
  · intro t _ _
    show subGradientCell v0 p bound Nx Ny dx dy x y t (Nx * Ny + (y + x * Ny)) = _
    simp only [subGradientCell]
    rw [store_same]
  · intro x1 y1 _ h2 _ h4 hne t
    have a1 : x1 < Nx := by omega
    have a2 : y1 < Ny := by omega
    have hs := cell_index_sep a1 a2 a3 a4 hne
    exact subGradientCell_other v0 p bound Nx Ny dx dy x1 y1 _ hs.2.2.1 hs.2.2.2 t

theorem C_sub_gradient_other (v v0 p : Buf) (bound : Mask) (Nx Ny : Nat) (dx dy : ℚ) (j : Nat)
    (hj : ∀ x y, 1 ≤ x → x < Nx - 1 → 1 ≤ y → y < Ny - 1 →
      j ≠ y + x * Ny ∧ j ≠ Nx * Ny + (y + x * Ny)) :
    C_sub_gradient v v0 p bound Nx Ny dx dy j = v j := by
  unfold C_sub_gradient
  refine forLoop2_preserve (fun t : Buf => t j) 1 (Nx - 1) 1 (Ny - 1)
    (fun x y v => subGradientCell v0 p bound Nx Ny dx dy x y v) v ?_
  intro x1 y1 h1 h2 h3 h4 t
  exact subGradientCell_other v0 p bound Nx Ny dx dy x1 y1 j (hj x1 y1 h1 h2 h3 h4).1
    (hj x1 y1 h1 h2 h3 h4).2 t

theorem C_enforce_slip_other (v : Buf) (bound : Mask) (Nx Ny j : Nat)
    (hj : ∀ x y, 1 ≤ x → x < Nx - 1 → 1 ≤ y → y < Ny - 1 →
      j ≠ y + x * Ny ∧ j ≠ Nx * Ny + (y + x * Ny)) :
    C_enforce_slip v bound Nx Ny j = v j := by
  unfold C_enforce_slip
  refine forLoop2_preserve (fun t : Buf => t j) 1 (Nx - 1) 1 (Ny - 1)
    (fun x y v => slipCell bound Nx Ny x y v) v ?_
  intro x1 y1 h1 h2 h3 h4 t
  exact slipCell_other bound Nx Ny x1 y1 j (hj x1 y1 h1 h2 h3 h4).1
    (hj x1 y1 h1 h2 h3 h4).2 t

/-! ## The sub-step -/

theorem densityLoop_v (n : Nat) (bound : Mask) (Nx Ny : Nat) (s : SimState) :
    (forLoop 0 n (fun j s => densityPass bound Nx Ny j s) s).v = s.v :=
  forLoop_preserve (fun s : SimState => s.v) 0 n _ s (fun _ _ _ _ => rfl)

theorem densityLoop_p (n : Nat) (bound : Mask) (Nx Ny : Nat) (s : SimState) :
    (forLoop 0 n (fun j s => densityPass bound Nx Ny j s) s).p = s.p :=
  forLoop_preserve (fun s : SimState => s.p) 0 n _ s (fun _ _ _ _ => rfl)

theorem subStep_v (n : Nat) (bound : Mask) (Nx Ny : Nat) (dx dy dt : ℚ) (s : SimState) :
    (subStep n bound Nx Ny dx dy dt s).v = stepVelocity bound Nx Ny dx dy dt s := by
  unfold subStep
  rw [densityLoop_v]
  rfl

theorem subStep_p (n : Nat) (bound : Mask) (Nx Ny : Nat) (dx dy dt : ℚ) (s : SimState) :
    (subStep n bound Nx Ny dx dy dt s).p = (stepPressure bound Nx Ny dx dy dt s).1 := by
  unfold subStep
  rw [densityLoop_p]
  rfl

theorem C_step_eq (s : SimState) (n : Nat) (bound : Mask) (Nx Ny : Nat) (dx dy dt0 : ℚ) :
    C_step s n bound Nx Ny dx dy dt0
      = subStep n bound Nx Ny dx dy (dt0 / 3)
          (subStep n bound Nx Ny dx dy (dt0 / 3) (subStep n bound Nx Ny dx dy (dt0 / 3) s)) := by
  simp [C_step, forLoop, loopN, num_loops]

/-! ## Uniform fields -/

theorem agree2_of_cells {α : Type} (Nx Ny : Nat) (f g : Nat → α)
    (h : ∀ x y, x < Nx → y < Ny →
      f (y + x * Ny) = g (y + x * Ny) ∧ f (Nx * Ny + (y + x * Ny)) = g (Nx * Ny + (y + x * Ny))) :
    AgreeOn (Nx * Ny * 2) f g := by
  intro i hi
  by_cases h1 : i < Nx * Ny
  · obtain ⟨hy, hx, e⟩ := idx_decomp h1
    have := (h _ _ hx hy).1
    rw [← e] at this
    exact this
  · have h2 : i - Nx * Ny < Nx * Ny := by omega
    obtain ⟨hy, hx, e⟩ := idx_decomp h2
    have := (h _ _ hx hy).2
    rw [← e] at this
    have e3 : Nx * Ny + (i - Nx * Ny) = i := by omega
    rw [e3] at this
    exact this

theorem agree2_cell {α : Type} {Nx Ny : Nat} {f g : Nat → α} (h : AgreeOn (Nx * Ny * 2) f g)
    {x y : Nat} (hx : x < Nx) (hy : y < Ny) :
    f (y + x * Ny) = g (y + x * Ny) ∧ f (Nx * Ny + (y + x * Ny)) = g (Nx * Ny + (y + x * Ny)) := by
  have hlt := idx_lt hx hy
  exact ⟨h _ (by omega), h _ (by omega)⟩

theorem traced_congr (v0 w0 : Buf) (Nx Ny : Nat) (dx dy dt : ℚ) (x y : Nat) (hx : x < Nx)
    (hy : y < Ny) (h : AgreeOn (Nx * Ny * 2) v0 w0) :
    tracedXa v0 Nx Ny dx dt x y = tracedXa w0 Nx Ny dx dt x y
    ∧ tracedYa v0 Nx Ny dy dt x y = tracedYa w0 Nx Ny dy dt x y := by
  have hc := agree2_cell h hx hy
  unfold tracedXa tracedYa
  rw [Nat.zero_add, hc.1, hc.2]
  exact ⟨rfl, rfl⟩

theorem advectValue_congr (v0 w0 : Buf) (bound : Mask) (Nx Ny : Nat) (dx dy dt : ℚ)
    (plane x y : Nat) (hNx : 2 ≤ Nx) (hNy : 2 ≤ Ny) (hx : x < Nx) (hy : y < Ny)
    (hplane : plane = 0 ∨ plane = Nx * Ny) (h : AgreeOn (Nx * Ny * 2) v0 w0) :
    advectValue v0 bound Nx Ny dx dy dt plane x y
      = advectValue w0 bound Nx Ny dx dy dt plane x y := by
  have ht := traced_congr v0 w0 Nx Ny dx dy dt x y hx hy h
  have hxi := cellXi_bounds w0 Nx Ny dx dt x y hNx
  have hyi := cellYi_bounds w0 Nx Ny dy dt x y hNy
  have hlt := idx_lt hx hy
  have hP : ∀ i, i < Nx * Ny → v0 (plane + i) = w0 (plane + i) := by
    intro i hi
    rcases hplane with e | e <;> rw [e] <;> exact h _ (by omega)
  unfold advectValue cellS cellT cellXi cellYi
  rw [ht.1, ht.2]
  split_ifs with hb
  · exact advect_sample_congr_block v0 w0 Nx Ny _ _ hxi.1 hxi.2 hyi.1 hyi.2 plane hP _ _ _ rfl
  · exact hP _ hlt

theorem C_advect_velocity_congr (v v' v0 w0 : Buf) (bound : Mask) (ai ai' : IBuf)
    (al al' : Buf) (Nx Ny : Nat) (dx dy dt : ℚ) (hNx : 2 ≤ Nx) (hNy : 2 ≤ Ny)
    (h : AgreeOn (Nx * Ny * 2) v0 w0) :
    AgreeOn (Nx * Ny * 2) (C_advect_velocity v v0 bound ai al Nx Ny dx dy dt).v
      (C_advect_velocity v' w0 bound ai' al' Nx Ny dx dy dt).v
    ∧ AgreeOn (Nx * Ny * 2) (C_advect_velocity v v0 bound ai al Nx Ny dx dy dt).advect_indexes
      (C_advect_velocity v' w0 bound ai' al' Nx Ny dx dy dt).advect_indexes
    ∧ AgreeOn (Nx * Ny * 2) (C_advect_velocity v v0 bound ai al Nx Ny dx dy dt).advect_lerps
      (C_advect_velocity v' w0 bound ai' al' Nx Ny dx dy dt).advect_lerps := by
  refine ⟨agree2_of_cells Nx Ny _ _ ?_, agree2_of_cells Nx Ny _ _ ?_,
    agree2_of_cells Nx Ny _ _ ?_⟩
  · intro x y hx hy
    rw [C_advect_velocity_v_x _ _ _ _ _ _ _ _ _ _ x y hx hy,
      C_advect_velocity_v_x _ _ _ _ _ _ _ _ _ _ x y hx hy,
      C_advect_velocity_v_y _ _ _ _ _ _ _ _ _ _ x y hx hy,
      C_advect_velocity_v_y _ _ _ _ _ _ _ _ _ _ x y hx hy]
    exact ⟨advectValue_congr v0 w0 bound Nx Ny dx dy dt 0 x y hNx hNy hx hy (Or.inl rfl) h,
      advectValue_congr v0 w0 bound Nx Ny dx dy dt _ x y hNx hNy hx hy (Or.inr rfl) h⟩
  · intro x y hx hy
    have ht := traced_congr v0 w0 Nx Ny dx dy dt x y hx hy h
    rw [C_advect_velocity_ai_x _ _ _ _ _ _ _ _ _ _ x y hx hy,
      C_advect_velocity_ai_x _ _ _ _ _ _ _ _ _ _ x y hx hy,
      C_advect_velocity_ai_y _ _ _ _ _ _ _ _ _ _ x y hx hy,
      C_advect_velocity_ai_y _ _ _ _ _ _ _ _ _ _ x y hx hy]
    unfold cellXi cellYi
    rw [ht.1, ht.2]
    exact ⟨rfl, rfl⟩
  · intro x y hx hy
    have ht := traced_congr v0 w0 Nx Ny dx dy dt x y hx hy h
    rw [C_advect_velocity_al_x _ _ _ _ _ _ _ _ _ _ x y hx hy,
      C_advect_velocity_al_x _ _ _ _ _ _ _ _ _ _ x y hx hy,
      C_advect_velocity_al_y _ _ _ _ _ _ _ _ _ _ x y hx hy,
      C_advect_velocity_al_y _ _ _ _ _ _ _ _ _ _ x y hx hy]
    unfold cellS cellT cellXi cellYi
    rw [ht.1, ht.2]
    exact ⟨rfl, rfl⟩

/-- The BFECC result and the cache it leaves only depend on the velocity `v`. -/
theorem bfecc_congr (bound : Mask) (Nx Ny : Nat) (dx dy dt : ℚ) (s s' : SimState)
    (hNx : 2 ≤ Nx) (hNy : 2 ≤ Ny) (hv : AgreeOn (Nx * Ny * 2) s.v s'.v) :
    AgreeOn (Nx * Ny * 2) (bfeccAdvect bound Nx Ny dx dy dt s).vtmp
      (bfeccAdvect bound Nx Ny dx dy dt s').vtmp
    ∧ AgreeOn (Nx * Ny * 2) (bfeccAdvect bound Nx Ny dx dy dt s).advect_indexes
      (bfeccAdvect bound Nx Ny dx dy dt s').advect_indexes
    ∧ AgreeOn (Nx * Ny * 2) (bfeccAdvect bound Nx Ny dx dy dt s).advect_lerps
      (bfeccAdvect bound Nx Ny dx dy dt s').advect_lerps := by
  simp only [bfeccAdvect]
  apply C_advect_velocity_congr _ _ _ _ _ _ _ _ _ _ _ _ _ _ hNx hNy
  have h1 := (C_advect_velocity_congr s.vtmp2 s'.vtmp2 s.v s'.v bound s.advect_indexes
    s'.advect_indexes s.advect_lerps s'.advect_lerps Nx Ny dx dy dt hNx hNy hv).1
  have h2 := (C_advect_velocity_congr s.vtmp s'.vtmp _ _ bound
    (C_advect_velocity s.vtmp2 s.v bound s.advect_indexes s.advect_lerps
      Nx Ny dx dy dt).advect_indexes
    (C_advect_velocity s'.vtmp2 s'.v bound s'.advect_indexes s'.advect_lerps
      Nx Ny dx dy dt).advect_indexes
    (C_advect_velocity s.vtmp2 s.v bound s.advect_indexes s.advect_lerps
      Nx Ny dx dy dt).advect_lerps
    (C_advect_velocity s'.vtmp2 s'.v bound s'.advect_indexes s'.advect_lerps
      Nx Ny dx dy dt).advect_lerps Nx Ny dx dy (-dt) hNx hNy h1).1
  intro i hi
  rw [forLoop_store_const, forLoop_store_const, if_pos hi, if_pos hi, hv i hi, h2 i hi]

/-- The cache left by the BFECC sequence points inside the grid. -/
theorem bfecc_cache_bounds (bound : Mask) (Nx Ny : Nat) (dx dy dt : ℚ) (s : SimState)
    (hNx : 2 ≤ Nx) (hNy : 2 ≤ Ny) (x y : Nat) (hx : x < Nx) (hy : y < Ny) :
    (0 ≤ (bfeccAdvect bound Nx Ny dx dy dt s).advect_indexes (y + x * Ny)
      ∧ (bfeccAdvect bound Nx Ny dx dy dt s).advect_indexes (y + x * Ny) ≤ (Nx : Int) - 2)
    ∧ (0 ≤ (bfeccAdvect bound Nx Ny dx dy dt s).advect_indexes (Nx * Ny + (y + x * Ny))
      ∧ (bfeccAdvect bound Nx Ny dx dy dt s).advect_indexes (Nx * Ny + (y + x * Ny))
          ≤ (Ny : Int) - 2) := by
  simp only [bfeccAdvect]
  rw [C_advect_velocity_ai_x _ _ _ _ _ _ _ _ _ _ x y hx hy,
    C_advect_velocity_ai_y _ _ _ _ _ _ _ _ _ _ x y hx hy]
  exact ⟨cellXi_bounds _ Nx Ny dx dt x y hNx, cellYi_bounds _ Nx Ny dy dt x y hNy⟩

/-- The four neighbours of an interior cell are cells of the grid. -/
theorem interior_neighbours {Nx Ny x y : Nat} (hx1 : 1 ≤ x) (hx2 : x < Nx - 1) (hy1 : 1 ≤ y)
    (hy2 : y < Ny - 1) :
    y + x * Ny < Nx * Ny ∧ y + x * Ny + Ny < Nx * Ny ∧ Ny ≤ y + x * Ny ∧ 1 ≤ y + x * Ny := by
  have hlt : y + x * Ny < Nx * Ny := idx_lt (by omega) (by omega)
  have hup : y + (x + 1) * Ny < Nx * Ny := idx_lt (by omega) (by omega)
  have e1 : y + (x + 1) * Ny = y + x * Ny + Ny := by ring
  have hge : Ny ≤ x * Ny := Nat.le_mul_of_pos_left Ny hx1
  omega

theorem divergenceValue_congr (v w : Buf) (bound : Mask) (Nx Ny : Nat) (dx dy : ℚ)
    (x y : Nat) (hx1 : 1 ≤ x) (hx2 : x < Nx - 1) (hy1 : 1 ≤ y) (hy2 : y < Ny - 1)
    (h : AgreeOn (Nx * Ny * 2) v w) :
    divergenceValue v bound Nx Ny dx dy (y + x * Ny)
      = divergenceValue w bound Nx Ny dx dy (y + x * Ny) := by
  have hn := interior_neighbours hx1 hx2 hy1 hy2
  unfold divergenceValue
  rw [h (y + x * Ny + Ny) (by omega), h (y + x * Ny - Ny) (by omega),
    h (Nx * Ny + (y + x * Ny) + 1) (by omega), h (Nx * Ny + (y + x * Ny) - 1) (by omega)]

theorem jacobiStepSpec_congr_div (div div' : Buf) (bound : Mask) (Nx Ny : Nat) (dx dy : ℚ)
    (hd : ∀ x y, 1 ≤ x → x < Nx - 1 → 1 ≤ y → y < Ny - 1 →
      div (y + x * Ny) = div' (y + x * Ny)) (p : Buf) (i : Nat) (hi : i < Nx * Ny) :
    jacobiStepSpec div bound Nx Ny dx dy p i = jacobiStepSpec div' bound Nx Ny dx dy p i := by
  obtain ⟨hy, hx, e⟩ := idx_decomp hi
  simp only [jacobiStepSpec]
  by_cases h1 : i / Ny = 0 ∨ i / Ny = Nx - 1 ∨ i % Ny = 0 ∨ i % Ny = Ny - 1
  · rw [if_pos h1, if_pos h1]
  · rw [if_neg h1, if_neg h1]
    have hdi : div i = div' i := by
      rw [e]
      clear e
      generalize i / Ny = x at hx h1 ⊢
      generalize i % Ny = y at hy h1 ⊢
      exact hd x y (by omega) (by omega) (by omega) (by omega)
    rw [hdi]

theorem jacobi_iterate_congr (div div' : Buf) (bound : Mask) (Nx Ny : Nat) (dx dy : ℚ)
    (hd : ∀ x y, 1 ≤ x → x < Nx - 1 → 1 ≤ y → y < Ny - 1 →
      div (y + x * Ny) = div' (y + x * Ny)) (p q : Buf) (hp : AgreeOn (Nx * Ny) p q)
    (k i : Nat) (hi : i < Nx * Ny) :
    (jacobiStepSpec div bound Nx Ny dx dy)^[k] (decaySpec bound p) i
      = (jacobiStepSpec div' bound Nx Ny dx dy)^[k] (decaySpec bound q) i := by
  induction k generalizing i with
  | zero =>
    simp [decaySpec, hp i hi]
  | succ k ih =>
    rw [Function.iterate_succ_apply', Function.iterate_succ_apply',
      jacobiStepSpec_congr div bound Nx Ny dx dy _ _ (fun j hj => ih j hj) i hi]
    exact jacobiStepSpec_congr_div div div' bound Nx Ny dx dy hd _ i hi

/-- The pressure returned by the solver only depends on the input pressure on the grid
and on the interior divergence. -/
theorem C_pressure_solve_congr (p q buf buf' div div' : Buf) (bound : Mask) (Nx Ny : Nat)
    (dx dy : ℚ) (hp : AgreeOn (Nx * Ny) p q)
    (hd : ∀ x y, 1 ≤ x → x < Nx - 1 → 1 ≤ y → y < Ny - 1 →
      div (y + x * Ny) = div' (y + x * Ny)) :
    AgreeOn (Nx * Ny) (C_pressure_solve p buf div bound Nx Ny dx dy).1
      (C_pressure_solve q buf' div' bound Nx Ny dx dy).1 := by
  intro i hi
  rw [C_pressure_solve_fst, C_pressure_solve_fst, pressureLoop_pressure _ _ _ _ _ _ _ _ _ i hi,
    pressureLoop_pressure _ _ _ _ _ _ _ _ _ i hi]
  exact jacobi_iterate_congr div div' bound Nx Ny dx dy hd p q hp 20 i hi

theorem C_sub_gradient_congr (v v' v0 w0 p q : Buf) (bound : Mask) (Nx Ny : Nat) (dx dy : ℚ)
    (hv : AgreeOn (Nx * Ny * 2) v v') (h0 : AgreeOn (Nx * Ny * 2) v0 w0)
    (hp : AgreeOn (Nx * Ny) p q) :
    AgreeOn (Nx * Ny * 2) (C_sub_gradient v v0 p bound Nx Ny dx dy)
      (C_sub_gradient v' w0 q bound Nx Ny dx dy) := by
  apply agree2_of_cells
  intro x y hx hy
  have hlt := idx_lt hx hy
  by_cases hin : 1 ≤ x ∧ x < Nx - 1 ∧ 1 ≤ y ∧ y < Ny - 1
  · obtain ⟨h1, h2, h3, h4⟩ := hin
    have hn := interior_neighbours h1 h2 h3 h4
    rw [C_sub_gradient_x _ _ _ _ _ _ _ _ x y h1 h2 h3 h4,
      C_sub_gradient_x _ _ _ _ _ _ _ _ x y h1 h2 h3 h4,
      C_sub_gradient_y _ _ _ _ _ _ _ _ x y h1 h2 h3 h4,
      C_sub_gradient_y _ _ _ _ _ _ _ _ x y h1 h2 h3 h4,
      h0 (y + x * Ny) (by omega), h0 (Nx * Ny + (y + x * Ny)) (by omega),
      hp (y + x * Ny + Ny) (by omega), hp (y + x * Ny - Ny) (by omega),
      hp (y + x * Ny + 1) (by omega), hp (y + x * Ny - 1) (by omega)]
    exact ⟨rfl, rfl⟩
  · have hn := not_interior_idx hx hy hin
    rw [C_sub_gradient_other _ _ _ _ _ _ _ _ _
        (fun x1 y1 h1 h2 h3 h4 => ⟨(hn x1 y1 h1 h2 h3 h4).1, (hn x1 y1 h1 h2 h3 h4).2.1⟩),
      C_sub_gradient_other _ _ _ _ _ _ _ _ _
        (fun x1 y1 h1 h2 h3 h4 => ⟨(hn x1 y1 h1 h2 h3 h4).1, (hn x1 y1 h1 h2 h3 h4).2.1⟩),
      C_sub_gradient_other _ _ _ _ _ _ _ _ _
        (fun x1 y1 h1 h2 h3 h4 => ⟨(hn x1 y1 h1 h2 h3 h4).2.2.1, (hn x1 y1 h1 h2 h3 h4).2.2.2⟩),
      C_sub_gradient_other _ _ _ _ _ _ _ _ _
        (fun x1 y1 h1 h2 h3 h4 => ⟨(hn x1 y1 h1 h2 h3 h4).2.2.1, (hn x1 y1 h1 h2 h3 h4).2.2.2⟩)]
    exact ⟨hv _ (by omega), hv _ (by omega)⟩

theorem C_enforce_slip_congr (v v' : Buf) (bound : Mask) (Nx Ny : Nat)
    (hv : AgreeOn (Nx * Ny * 2) v v') :
    AgreeOn (Nx * Ny * 2) (C_enforce_slip v bound Nx Ny) (C_enforce_slip v' bound Nx Ny) := by
  apply agree2_of_cells
  intro x y hx hy
  have hlt := idx_lt hx hy
  by_cases hin : 1 ≤ x ∧ x < Nx - 1 ∧ 1 ≤ y ∧ y < Ny - 1
  · obtain ⟨h1, h2, h3, h4⟩ := hin
    have hn := interior_neighbours h1 h2 h3 h4
    rw [C_enforce_slip_x _ _ _ _ x y h1 h2 h3 h4, C_enforce_slip_x _ _ _ _ x y h1 h2 h3 h4,
      C_enforce_slip_y _ _ _ _ x y h1 h2 h3 h4, C_enforce_slip_y _ _ _ _ x y h1 h2 h3 h4,
      hv (y + x * Ny) (by omega), hv (y + x * Ny + Ny) (by omega),
      hv (y + x * Ny - Ny) (by omega), hv (Nx * Ny + (y + x * Ny)) (by omega),
      hv (Nx * Ny + (y + x * Ny) + 1) (by omega), hv (Nx * Ny + (y + x * Ny) - 1) (by omega)]
    exact ⟨rfl, rfl⟩
  · have hn := not_interior_idx hx hy hin
    rw [C_enforce_slip_other _ _ _ _ _
        (fun x1 y1 h1 h2 h3 h4 => ⟨(hn x1 y1 h1 h2 h3 h4).1, (hn x1 y1 h1 h2 h3 h4).2.1⟩),
      C_enforce_slip_other _ _ _ _ _
        (fun x1 y1 h1 h2 h3 h4 => ⟨(hn x1 y1 h1 h2 h3 h4).1, (hn x1 y1 h1 h2 h3 h4).2.1⟩),
      C_enforce_slip_other _ _ _ _ _
        (fun x1 y1 h1 h2 h3 h4 => ⟨(hn x1 y1 h1 h2 h3 h4).2.2.1, (hn x1 y1 h1 h2 h3 h4).2.2.2⟩),
      C_enforce_slip_other _ _ _ _ _
        (fun x1 y1 h1 h2 h3 h4 => ⟨(hn x1 y1 h1 h2 h3 h4).2.2.1, (hn x1 y1 h1 h2 h3 h4).2.2.2⟩)]
    exact ⟨hv _ (by omega), hv _ (by omega)⟩

/-- The pressure and the velocity a sub-step produces only depend on the velocity and the
pressure it starts from. -/
theorem step_congr (bound : Mask) (Nx Ny : Nat) (dx dy dt : ℚ) (s s' : SimState)
    (hNx : 2 ≤ Nx) (hNy : 2 ≤ Ny) (hv : AgreeOn (Nx * Ny * 2) s.v s'.v)
    (hp : AgreeOn (Nx * Ny) s.p s'.p) :
    AgreeOn (Nx * Ny * 2) (stepVelocity bound Nx Ny dx dy dt s)
      (stepVelocity bound Nx Ny dx dy dt s')
    ∧ AgreeOn (Nx * Ny) (stepPressure bound Nx Ny dx dy dt s).1
      (stepPressure bound Nx Ny dx dy dt s').1 := by
  have hb := bfecc_congr bound Nx Ny dx dy dt s s' hNx hNy hv
  have hd : ∀ x y, 1 ≤ x → x < Nx - 1 → 1 ≤ y → y < Ny - 1 →
      stepDiv bound Nx Ny dx dy dt s (y + x * Ny)
        = stepDiv bound Nx Ny dx dy dt s' (y + x * Ny) := by
    intro x y h1 h2 h3 h4
    unfold stepDiv
    rw [C_divergence_interior _ _ _ _ _ _ _ x y h1 h2 h3 h4,
      C_divergence_interior _ _ _ _ _ _ _ x y h1 h2 h3 h4]
    exact divergenceValue_congr _ _ bound Nx Ny dx dy x y h1 h2 h3 h4 hb.1
  have hpr : AgreeOn (Nx * Ny) (stepPressure bound Nx Ny dx dy dt s).1
      (stepPressure bound Nx Ny dx dy dt s').1 :=
    C_pressure_solve_congr _ _ _ _ _ _ bound Nx Ny dx dy hp hd
  refine ⟨?_, hpr⟩
  unfold stepVelocity
  exact C_enforce_slip_congr _ _ bound Nx Ny
    (C_sub_gradient_congr _ _ _ _ _ _ bound Nx Ny dx dy hv hb.1 hpr)

/-! ## The density passes -/

/-- Two runs of the same loop keep a relation that every pass keeps. -/
theorem forLoop_rel {σ : Type} (R : σ → σ → Prop) (lo hi : Nat) (body body' : Nat → σ → σ)
    (s s' : σ) (h0 : R s s')
    (hs : ∀ i, lo ≤ i → i < hi → ∀ t t', R t t' → R (body i t) (body' i t')) :
    R (forLoop lo hi body s) (forLoop lo hi body' s') := by
  unfold forLoop
  have key : ∀ n, lo + n ≤ lo + (hi - lo) → R (loopN n lo body s) (loopN n lo body' s') := by
    intro n
    induction n with
    | zero => intro _; exact h0
    | succ n ih =>
      intro hn
      exact hs (lo + n) (by omega) (by omega) _ _ (ih (by omega))
  exact key (hi - lo) (le_refl _)

theorem densityPass_frame (bound : Mask) (Nx Ny j : Nat) (s : SimState) (k : Nat)
    (hk : ¬ (Nx * Ny * j ≤ k ∧ k < Nx * Ny * j + Nx * Ny)) :
    (densityPass bound Nx Ny j s).density_arrays k = s.density_arrays k := by
  simp only [densityPass, ptrWriteBack]
  split_ifs with h
  · rw [C_apply_advection_frame _ _ _ _ _ _ _ _ (by omega), ptrAdd_natCast]
    congr 1
    omega
  · rfl

theorem densityPass_cell (bound : Mask) (Nx Ny j : Nat) (s : SimState) (x y : Nat)
    (hx : x < Nx) (hy : y < Ny) :
    (densityPass bound Nx Ny j s).density_arrays (Nx * Ny * j + (y + x * Ny))
      = if bound (y + x * Ny) = 0 then
          advect_sample
            (ptrAdd (forLoop 0 (Nx * Ny)
                (fun x w => store w x (s.density_arrays (Nx * Ny * j + x))) s.vtmp)
              (s.advect_indexes (Nx * Ny + (y + x * Ny))
                + s.advect_indexes (y + x * Ny) * (Ny : Int)))
            Ny (s.advect_lerps (y + x * Ny)) (s.advect_lerps (Nx * Ny + (y + x * Ny)))
        else s.density_arrays (Nx * Ny * j + (y + x * Ny)) * (9 / 10) := by
  simp only [densityPass, ptrWriteBack]
  rw [if_pos (by omega), Nat.add_sub_cancel_left, C_apply_advection_cell _ _ _ _ _ _ _ x y hx hy,
    ptrAdd_natCast]

/-- The density plane `j` after its own pass only depends on that plane and on the
cache. -/
theorem densityPass_congr (bound : Mask) (Nx Ny j : Nat) (s s' : SimState)
    (hai : AgreeOn (Nx * Ny * 2) s.advect_indexes s'.advect_indexes)
    (hal : AgreeOn (Nx * Ny * 2) s.advect_lerps s'.advect_lerps)
    (hc : CacheInGrid Nx Ny s'.advect_indexes)
    (hd : SliceAgree Nx Ny j s.density_arrays s'.density_arrays) :
    SliceAgree Nx Ny j (densityPass bound Nx Ny j s).density_arrays
      (densityPass bound Nx Ny j s').density_arrays := by
  intro i hi
  obtain ⟨hy, hx, e⟩ := idx_decomp hi
  rw [e, densityPass_cell bound Nx Ny j s _ _ hx hy,
    densityPass_cell bound Nx Ny j s' _ _ hx hy, ← e]
  have h1 := agree2_cell hai hx hy
  have h2 := agree2_cell hal hx hy
  have hb := hc _ _ hx hy
  rw [← e] at h1 h2 hb
  rw [h1.1, h1.2, h2.1, h2.2, hd i hi]
  split_ifs with hbd
  · refine advect_sample_congr_block _ _ Nx Ny _ _ hb.1.1 hb.1.2 hb.2.1 hb.2.2 0 ?_ _ _ _
      (by simp)
    intro r hr
    rw [Nat.zero_add, forLoop_store_const, forLoop_store_const, if_pos hr, if_pos hr]
    exact hd r hr
  · rfl

theorem slice_disjoint {Nx Ny j j0 i : Nat} (hne : j ≠ j0) (hi : i < Nx * Ny) :
    ¬ (Nx * Ny * j ≤ Nx * Ny * j0 + i ∧ Nx * Ny * j0 + i < Nx * Ny * j + Nx * Ny) := by
  intro h
  rcases Nat.lt_or_gt_of_ne hne with h1 | h1
  · have h2 : Nx * Ny * (j + 1) ≤ Nx * Ny * j0 := Nat.mul_le_mul_left _ h1
    have e : Nx * Ny * (j + 1) = Nx * Ny * j + Nx * Ny := by ring
    omega
  · have h2 : Nx * Ny * (j0 + 1) ≤ Nx * Ny * j := Nat.mul_le_mul_left _ h1
    have e : Nx * Ny * (j0 + 1) = Nx * Ny * j0 + Nx * Ny := by ring
    omega

/-- The loop over the density planes: plane `j0` only depends on plane `j0` and on the
cache. -/
theorem densityLoop_congr (n : Nat) (bound : Mask) (Nx Ny j0 : Nat) (s s' : SimState)
    (hai : AgreeOn (Nx * Ny * 2) s.advect_indexes s'.advect_indexes)
    (hal : AgreeOn (Nx * Ny * 2) s.advect_lerps s'.advect_lerps)
    (hc : CacheInGrid Nx Ny s'.advect_indexes)
    (hd : SliceAgree Nx Ny j0 s.density_arrays s'.density_arrays) :
    SliceAgree Nx Ny j0
      (forLoop 0 n (fun j s => densityPass bound Nx Ny j s) s).density_arrays
      (forLoop 0 n (fun j s => densityPass bound Nx Ny j s) s').density_arrays := by
  have h := forLoop_rel
    (fun t t' : SimState => AgreeOn (Nx * Ny * 2) t.advect_indexes t'.advect_indexes
      ∧ AgreeOn (Nx * Ny * 2) t.advect_lerps t'.advect_lerps
      ∧ CacheInGrid Nx Ny t'.advect_indexes
      ∧ SliceAgree Nx Ny j0 t.density_arrays t'.density_arrays)
    0 n (fun j s => densityPass bound Nx Ny j s) (fun j s => densityPass bound Nx Ny j s)
    s s' ⟨hai, hal, hc, hd⟩ ?_
  · exact h.2.2.2
  · intro j _ _ t t' ht
    refine ⟨ht.1, ht.2.1, ht.2.2.1, ?_⟩
    by_cases e : j = j0
    · subst e
      exact densityPass_congr bound Nx Ny j t t' ht.1 ht.2.1 ht.2.2.1 ht.2.2.2
    · intro i hi
      show (densityPass bound Nx Ny j t).density_arrays (Nx * Ny * j0 + i)
        = (densityPass bound Nx Ny j t').density_arrays (Nx * Ny * j0 + i)
      rw [densityPass_frame bound Nx Ny j t _ (slice_disjoint e hi),
        densityPass_frame bound Nx Ny j t' _ (slice_disjoint e hi)]
      exact ht.2.2.2 i hi

/-- One sub-step: the velocity and the pressure only depend on the velocity and the
pressure, the density plane `j` only depends on these and on the density plane `j`. -/
theorem subStep_congr (n : Nat) (bound : Mask) (Nx Ny : Nat) (dx dy dt : ℚ) (s s' : SimState)
    (hNx : 2 ≤ Nx) (hNy : 2 ≤ Ny) (hv : AgreeOn (Nx * Ny * 2) s.v s'.v)
    (hp : AgreeOn (Nx * Ny) s.p s'.p) :
    AgreeOn (Nx * Ny * 2) (subStep n bound Nx Ny dx dy dt s).v
      (subStep n bound Nx Ny dx dy dt s').v
    ∧ AgreeOn (Nx * Ny) (subStep n bound Nx Ny dx dy dt s).p
      (subStep n bound Nx Ny dx dy dt s').p
    ∧ ∀ j, SliceAgree Nx Ny j s.density_arrays s'.density_arrays →
        SliceAgree Nx Ny j (subStep n bound Nx Ny dx dy dt s).density_arrays
          (subStep n bound Nx Ny dx dy dt s').density_arrays := by
  have h := step_congr bound Nx Ny dx dy dt s s' hNx hNy hv hp
  rw [subStep_v, subStep_v, subStep_p, subStep_p]
  refine ⟨h.1, h.2, fun j hj => ?_⟩
  have hb := bfecc_congr bound Nx Ny dx dy dt s s' hNx hNy hv
  unfold subStep
  exact densityLoop_congr n bound Nx Ny j _ _ hb.2.1 hb.2.2
    (fun x y hx hy => bfecc_cache_bounds bound Nx Ny dx dy dt s' hNx hNy x y hx hy) hj

/-- The whole step: the same dependencies as for one sub-step. -/
theorem C_step_congr (n : Nat) (bound : Mask) (Nx Ny : Nat) (dx dy dt0 : ℚ) (s s' : SimState)
    (hNx : 2 ≤ Nx) (hNy : 2 ≤ Ny) (hv : AgreeOn (Nx * Ny * 2) s.v s'.v)
    (hp : AgreeOn (Nx * Ny) s.p s'.p) :
    AgreeOn (Nx * Ny * 2) (C_step s n bound Nx Ny dx dy dt0).v
      (C_step s' n bound Nx Ny dx dy dt0).v
    ∧ AgreeOn (Nx * Ny) (C_step s n bound Nx Ny dx dy dt0).p
      (C_step s' n bound Nx Ny dx dy dt0).p
    ∧ ∀ j, SliceAgree Nx Ny j s.density_arrays s'.density_arrays →
        SliceAgree Nx Ny j (C_step s n bound Nx Ny dx dy dt0).density_arrays
          (C_step s' n bound Nx Ny dx dy dt0).density_arrays := by
  rw [C_step_eq, C_step_eq]
  have h1 := subStep_congr n bound Nx Ny dx dy (dt0 / 3) s s' hNx hNy hv hp
  have h2 := subStep_congr n bound Nx Ny dx dy (dt0 / 3) _ _ hNx hNy h1.1 h1.2.1
  have h3 := subStep_congr n bound Nx Ny dx dy (dt0 / 3) _ _ hNx hNy h2.1 h2.2.1
  exact ⟨h3.1, h3.2.1, fun j hj => h3.2.2 j (h2.2.2 j (h1.2.2 j hj))⟩

theorem agreeOn_of_slices (Nx Ny n : Nat) (f g : Buf)
    (h : ∀ j, j < n → SliceAgree Nx Ny j f g) : AgreeOn (Nx * Ny * n) f g := by
  intro i hi
  have hN : 0 < Nx * Ny := by
    rcases Nat.eq_zero_or_pos (Nx * Ny) with h0 | h0
    · rw [h0] at hi
      simp at hi
    · exact h0
  have hj : i / (Nx * Ny) < n := by
    rw [Nat.div_lt_iff_lt_mul hN, Nat.mul_comm]
    exact hi
  have e : Nx * Ny * (i / (Nx * Ny)) + i % (Nx * Ny) = i := Nat.div_add_mod i (Nx * Ny)
  have := h _ hj (i % (Nx * Ny)) (Nat.mod_lt _ hN)
  rw [e] at this
  exact this

theorem slice_of_agreeOn (Nx Ny n : Nat) (f g : Buf) (h : AgreeOn (Nx * Ny * n) f g) (j : Nat)
    (hj : j < n) : SliceAgree Nx Ny j f g := by
  intro i hi
  apply h
  have h2 : Nx * Ny * (j + 1) ≤ Nx * Ny * n := Nat.mul_le_mul_left _ hj
  have e : Nx * Ny * (j + 1) = Nx * Ny * j + Nx * Ny := by ring
  omega

/-! ## Divergence after the projection -/

/-- The projected x-velocity at a cell of an all-fluid grid. -/
theorem C_sub_gradient_fluid_x (v v0 p : Buf) (bound : Mask) (Nx Ny : Nat) (dx dy : ℚ)
    (hfluid : ∀ i, i < Nx * Ny → bound i = 0) (x y : Nat) (hx : x < Nx) (hy : y < Ny) :
    C_sub_gradient v v0 p bound Nx Ny dx dy (y + x * Ny)
      = if 1 ≤ x ∧ x < Nx - 1 ∧ 1 ≤ y ∧ y < Ny - 1 then
          v0 (y + x * Ny) - 1 / (2 * dx) * (p (y + x * Ny + Ny) - p (y + x * Ny - Ny))
        else v (y + x * Ny) := by
  have hlt := idx_lt hx hy
  split_ifs with hin
  · obtain ⟨h1, h2, h3, h4⟩ := hin
    rw [C_sub_gradient_x _ _ _ _ _ _ _ _ x y h1 h2 h3 h4, hfluid _ hlt]
    simp
  · have hn := not_interior_idx hx hy hin
    exact C_sub_gradient_other _ _ _ _ _ _ _ _ _
      (fun x1 y1 h1 h2 h3 h4 => ⟨(hn x1 y1 h1 h2 h3 h4).1, (hn x1 y1 h1 h2 h3 h4).2.1⟩)

/-- The projected y-velocity at a cell of an all-fluid grid. -/
theorem C_sub_gradient_fluid_y (v v0 p : Buf) (bound : Mask) (Nx Ny : Nat) (dx dy : ℚ)
    (hfluid : ∀ i, i < Nx * Ny → bound i = 0) (x y : Nat) (hx : x < Nx) (hy : y < Ny) :
    C_sub_gradient v v0 p bound Nx Ny dx dy (Nx * Ny + (y + x * Ny))
      = if 1 ≤ x ∧ x < Nx - 1 ∧ 1 ≤ y ∧ y < Ny - 1 then
          v0 (Nx * Ny + (y + x * Ny))
            - 1 / (2 * dy) * (p (y + x * Ny + 1) - p (y + x * Ny - 1))
        else v (Nx * Ny + (y + x * Ny)) := by
  have hlt := idx_lt hx hy
  split_ifs with hin
  · obtain ⟨h1, h2, h3, h4⟩ := hin
    rw [C_sub_gradient_y _ _ _ _ _ _ _ _ x y h1 h2 h3 h4, hfluid _ hlt]
    simp
  · have hn := not_interior_idx hx hy hin
    exact C_sub_gradient_other _ _ _ _ _ _ _ _ _
      (fun x1 y1 h1 h2 h3 h4 => ⟨(hn x1 y1 h1 h2 h3 h4).2.2.1, (hn x1 y1 h1 h2 h3 h4).2.2.2⟩)

/-- On an all-fluid grid the divergence of the projected field differs from the
divergence of the field by the pressure differences subtracted at the interior
neighbours of the cell. -/
theorem divergence_after_sub_gradient (v p div0 div1 : Buf) (bound : Mask) (Nx Ny : Nat)
    (dx dy : ℚ) (hfluid : ∀ i, i < Nx * Ny → bound i = 0) (x y : Nat) (hx1 : 1 ≤ x)
    (hx2 : x < Nx - 1) (hy1 : 1 ≤ y) (hy2 : y < Ny - 1) :
    C_divergence div1 (C_sub_gradient v v p bound Nx Ny dx dy) bound Nx Ny dx dy (y + x * Ny)
      = C_divergence div0 v bound Nx Ny dx dy (y + x * Ny)
        - (if x + 2 < Nx then 1 / (2 * dx) * (p (y + x * Ny + Ny + Ny) - p (y + x * Ny))
            else 0) / (2 * dx)
        + (if 2 ≤ x then 1 / (2 * dx) * (p (y + x * Ny) - p (y + x * Ny - Ny - Ny))
            else 0) / (2 * dx)
        - (if y + 2 < Ny then 1 / (2 * dy) * (p (y + x * Ny + 1 + 1) - p (y + x * Ny))
            else 0) / (2 * dy)
        + (if 2 ≤ y then 1 / (2 * dy) * (p (y + x * Ny) - p (y + x * Ny - 1 - 1))
            else 0) / (2 * dy) := by
  have hn := interior_neighbours hx1 hx2 hy1 hy2
  have hge : Ny ≤ x * Ny := Nat.le_mul_of_pos_left Ny hx1
  have eR : y + x * Ny + Ny = y + (x + 1) * Ny := by ring
  have eL : y + x * Ny - Ny = y + (x - 1) * Ny := by
    obtain ⟨k, rfl⟩ : ∃ k, x = k + 1 := ⟨x - 1, by omega⟩
    have : y + (k + 1) * Ny = y + k * Ny + Ny := by ring
    rw [Nat.add_sub_cancel, this, Nat.add_sub_cancel]
  have eU : Nx * Ny + (y + x * Ny) + 1 = Nx * Ny + ((y + 1) + x * Ny) := by ring
  have eD : Nx * Ny + (y + x * Ny) - 1 = Nx * Ny + ((y - 1) + x * Ny) := by omega
  have vR := C_sub_gradient_fluid_x v v p bound Nx Ny dx dy hfluid (x + 1) y (by omega)
    (by omega)
  have vL := C_sub_gradient_fluid_x v v p bound Nx Ny dx dy hfluid (x - 1) y (by omega)
    (by omega)
  have vU := C_sub_gradient_fluid_y v v p bound Nx Ny dx dy hfluid x (y + 1) (by omega)
    (by omega)
  have vD := C_sub_gradient_fluid_y v v p bound Nx Ny dx dy hfluid x (y - 1) (by omega)
    (by omega)
  rw [C_divergence_interior _ _ _ _ _ _ _ x y hx1 hx2 hy1 hy2,
    C_divergence_interior _ _ _ _ _ _ _ x y hx1 hx2 hy1 hy2]
  unfold divergenceValue
  rw [hfluid (y + x * Ny + Ny) (by omega), hfluid (y + x * Ny - Ny) (by omega),
    hfluid (y + x * Ny + 1) (by omega), hfluid (y + x * Ny - 1) (by omega)]
  simp only [ne_eq, not_true_eq_false, if_false]
  rw [eU, eD, eR, eL, vR, vL, vU, vD, ← eR, ← eL]
  have c1 : (1 ≤ x + 1 ∧ x + 1 < Nx - 1 ∧ 1 ≤ y ∧ y < Ny - 1) ↔ x + 2 < Nx := by omega
  have c2 : (1 ≤ x - 1 ∧ x - 1 < Nx - 1 ∧ 1 ≤ y ∧ y < Ny - 1) ↔ 2 ≤ x := by omega
  have c3 : (1 ≤ x ∧ x < Nx - 1 ∧ 1 ≤ y + 1 ∧ y + 1 < Ny - 1) ↔ y + 2 < Ny := by omega
  have c4 : (1 ≤ x ∧ x < Nx - 1 ∧ 1 ≤ y - 1 ∧ y - 1 < Ny - 1) ↔ 2 ≤ y := by omega
  have i1 : y + 1 + x * Ny + 1 = y + x * Ny + 1 + 1 := by ring
  have i2 : y + 1 + x * Ny - 1 = y + x * Ny := by omega
  have i3 : y - 1 + x * Ny + 1 = y + x * Ny := by omega
  have i4 : y - 1 + x * Ny - 1 = y + x * Ny - 1 - 1 := by omega
  have i5 : y + x * Ny + Ny - Ny = y + x * Ny := by omega
  have i6 : y + x * Ny - Ny + Ny = y + x * Ny := by omega
  have i7 : Nx * Ny + (y + 1 + x * Ny) = Nx * Ny + (y + x * Ny) + 1 := by ring
  have i8 : Nx * Ny + (y - 1 + x * Ny) = Nx * Ny + (y + x * Ny) - 1 := by omega
  simp only [c1, c2, c3, c4, i1, i2, i3, i4, i5, i6, i7, i8]
  split_ifs <;> ring

theorem interiorSumSq_three (d : Buf) : interiorSumSq 3 3 d = d (1 + 1 * 3) ^ 2 := by
  simp [interiorSumSq]

/-- On the 3x3 grid the only interior cell has no interior neighbour: the projection
leaves its divergence unchanged. -/
theorem projectedDivergence_three (v p0 buf div0 div1 : Buf) (bound : Mask) (dx dy : ℚ)
    (hfluid : ∀ i, i < 3 * 3 → bound i = 0) :
    projectedDivergence v p0 buf div0 div1 bound 3 3 dx dy (1 + 1 * 3)
      = C_divergence div0 v bound 3 3 dx dy (1 + 1 * 3) := by
  unfold projectedDivergence
  rw [divergence_after_sub_gradient v _ div0 div1 bound 3 3 dx dy hfluid 1 1 (by decide)
    (by decide) (by decide) (by decide)]
  simp

/-- C4 as stated fails: on the all-fluid 3x3 grid with `dx = dy = 1`, zero pressure and
x-velocity 1 at the ring cell `(2, 1)`, the divergence of the interior cell is `1/2`
before and after the projection, so the sum of squares is not strictly reduced. -/
theorem C4_projection_counterexample :
    C_divergence (fun _ => 0) ringImpulse (fun _ => 0) 3 3 1 1 (1 + 1 * 3) = 1 / 2
    ∧ interiorSumSq 3 3 (C_divergence (fun _ => 0) ringImpulse (fun _ => 0) 3 3 1 1) = 1 / 4
    ∧ interiorSumSq 3 3
        (projectedDivergence ringImpulse (fun _ => 0) (fun _ => 0) (fun _ => 0) (fun _ => 0)
          (fun _ => 0) 3 3 1 1) = 1 / 4
    ∧ ¬ (interiorSumSq 3 3
        (projectedDivergence ringImpulse (fun _ => 0) (fun _ => 0) (fun _ => 0) (fun _ => 0)
          (fun _ => 0) 3 3 1 1)
        < interiorSumSq 3 3 (C_divergence (fun _ => 0) ringImpulse (fun _ => 0) 3 3 1 1)) := by
  have h0 : C_divergence (fun _ => 0) ringImpulse (fun _ => 0) 3 3 1 1 (1 + 1 * 3) = 1 / 2 := by
    rw [C_divergence_interior _ _ _ _ _ _ _ 1 1 (by decide) (by decide) (by decide)
      (by decide)]
    norm_num [divergenceValue, ringImpulse]
  have h1 : interiorSumSq 3 3 (C_divergence (fun _ => 0) ringImpulse (fun _ => 0) 3 3 1 1)
      = 1 / 4 := by
    rw [interiorSumSq_three, h0]
    norm_num
  have h2 : interiorSumSq 3 3
      (projectedDivergence ringImpulse (fun _ => 0) (fun _ => 0) (fun _ => 0) (fun _ => 0)
        (fun _ => 0) 3 3 1 1) = 1 / 4 := by
    rw [interiorSumSq_three, projectedDivergence_three _ _ _ _ _ _ _ _ (fun _ _ => rfl), h0]
    norm_num
  refine ⟨h0, h1, h2, ?_⟩
  rw [h1, h2]
  exact lt_irrefl _

/-! ## The projection on the 4x4 grid -/

theorem pressureLoop_ring_zero (p0 buf div : Buf) (bound : Mask) (Nx Ny : Nat) (dx dy : ℚ)
    (hp : ∀ i, i < Nx * Ny → p0 i = 0) (k x y : Nat)
    (hx : x < Nx) (hy : y < Ny) (hr : onRing Nx Ny x y) :
    (pressureLoop k p0 buf div bound Nx Ny dx dy).pressure (y + x * Ny) = 0 := by
  cases k with
  | zero =>
    show pressureDecay p0 bound Nx Ny (y + x * Ny) = 0
    rw [pressureDecay_eq, if_pos (idx_lt hx hy), hp _ (idx_lt hx hy)]
    simp
  | succ k =>
    rw [pressureLoop_succ, jacobiIter_cell _ _ _ _ _ _ _ x y hx hy, if_pos hr]

theorem pressureLoop_interior_succ (p0 buf div : Buf) (bound : Mask) (Nx Ny : Nat) (dx dy : ℚ)
    (hfluid : ∀ i, i < Nx * Ny → bound i = 0) (k x y : Nat)
    (hx1 : 1 ≤ x) (hx2 : x < Nx - 1) (hy1 : 1 ≤ y) (hy2 : y < Ny - 1) :
    (pressureLoop (k + 1) p0 buf div bound Nx Ny dx dy).pressure (y + x * Ny)
      = 1 / 4 * ((pressureLoop k p0 buf div bound Nx Ny dx dy).pressure (y + x * Ny - 1)
        + (pressureLoop k p0 buf div bound Nx Ny dx dy).pressure (y + x * Ny + 1)
        + (pressureLoop k p0 buf div bound Nx Ny dx dy).pressure (y + x * Ny - Ny)
        + (pressureLoop k p0 buf div bound Nx Ny dx dy).pressure (y + x * Ny + Ny)
        - dx * dy * div (y + x * Ny)) := by
  have hn := interior_neighbours hx1 hx2 hy1 hy2
  rw [pressureLoop_succ, jacobiIter_cell _ _ _ _ _ _ _ x y (by omega) (by omega),
    if_neg ((not_onRing_iff Nx Ny x y (by omega) (by omega)).mpr ⟨hx1, hx2, hy1, hy2⟩)]
  unfold jacobiValue
  rw [hfluid (y + x * Ny - 1) (by omega), hfluid (y + x * Ny + 1) (by omega),
    hfluid (y + x * Ny - Ny) (by omega), hfluid (y + x * Ny + Ny) (by omega)]
  simp

/-- The pressure iterates on the all-fluid 4x4 grid, started from zero. -/
theorem pressureLoop_four (p0 buf div : Buf) (bound : Mask) (h : ℚ)
    (hfluid : ∀ i, i < 4 * 4 → bound i = 0) (hp : ∀ i, i < 4 * 4 → p0 i = 0) (k : Nat) :
    (pressureLoop k p0 buf div bound 4 4 h h).pressure 5
        = h * h * (jacA k * (div 5 + div 6 + div 9 + div 10)
          + jacB k * (div 5 - div 6 - div 9 + div 10) + 2 * jacC k * (div 5 - div 10)) / 4
    ∧ (pressureLoop k p0 buf div bound 4 4 h h).pressure 6
        = h * h * (jacA k * (div 5 + div 6 + div 9 + div 10)
          - jacB k * (div 5 - div 6 - div 9 + div 10) + 2 * jacC k * (div 6 - div 9)) / 4
    ∧ (pressureLoop k p0 buf div bound 4 4 h h).pressure 9
        = h * h * (jacA k * (div 5 + div 6 + div 9 + div 10)
          - jacB k * (div 5 - div 6 - div 9 + div 10) - 2 * jacC k * (div 6 - div 9)) / 4
    ∧ (pressureLoop k p0 buf div bound 4 4 h h).pressure 10
        = h * h * (jacA k * (div 5 + div 6 + div 9 + div 10)
          + jacB k * (div 5 - div 6 - div 9 + div 10) - 2 * jacC k * (div 5 - div 10)) / 4 := by
  have ring0 : ∀ k x y, x < 4 → y < 4 → onRing 4 4 x y →
      (pressureLoop k p0 buf div bound 4 4 h h).pressure (y + x * 4) = 0 :=
    fun k x y hx hy hr => pressureLoop_ring_zero p0 buf div bound 4 4 h h hp k x y hx hy hr
  induction k with
  | zero =>
    have z : ∀ i, i < 4 * 4 → (pressureLoop 0 p0 buf div bound 4 4 h h).pressure i = 0 := by
      intro i hi
      show pressureDecay p0 bound 4 4 i = 0
      rw [pressureDecay_eq, if_pos hi, hp i hi]
      simp
    simp [z, jacA, jacB, jacC]
  | succ k ih =>
    obtain ⟨i5, i6, i9, i10⟩ := ih
    have r1 := ring0 k 0 1 (by decide) (by decide) (by decide)
    have r2 := ring0 k 0 2 (by decide) (by decide) (by decide)
    have r4 := ring0 k 1 0 (by decide) (by decide) (by decide)
    have r7 := ring0 k 1 3 (by decide) (by decide) (by decide)
    have r8 := ring0 k 2 0 (by decide) (by decide) (by decide)
    have r11 := ring0 k 2 3 (by decide) (by decide) (by decide)
    have r13 := ring0 k 3 1 (by decide) (by decide) (by decide)
    have r14 := ring0 k 3 2 (by decide) (by decide) (by decide)
    have s5 := pressureLoop_interior_succ p0 buf div bound 4 4 h h hfluid k 1 1 (by decide)
      (by decide) (by decide) (by decide)
    have s6 := pressureLoop_interior_succ p0 buf div bound 4 4 h h hfluid k 1 2 (by decide)
      (by decide) (by decide) (by decide)
    have s9 := pressureLoop_interior_succ p0 buf div bound 4 4 h h hfluid k 2 1 (by decide)
      (by decide) (by decide) (by decide)
    have s10 := pressureLoop_interior_succ p0 buf div bound 4 4 h h hfluid k 2 2 (by decide)
      (by decide) (by decide) (by decide)
    norm_num at r1 r2 r4 r7 r8 r11 r13 r14 s5 s6 s9 s10
    rw [s5, s6, s9, s10, r1, r2, r4, r7, r8, r11, r13, r14, i5, i6, i9, i10]
    simp only [jacA, jacB, jacC]
    refine ⟨?_, ?_, ?_, ?_⟩ <;> ring

theorem interiorSumSq_four (d : Buf) :
    interiorSumSq 4 4 d = d 5 ^ 2 + d 6 ^ 2 + d 9 ^ 2 + d 10 ^ 2 := by
  simp [interiorSumSq, Finset.sum_Ico_eq_sum_range, Finset.sum_range_succ]
  ring

theorem jac_values : jacA 20 = -(1048575 / 2097152) ∧ jacB 20 = -(1048575 / 6291456)
    ∧ jacC 20 = -(1 / 4) := by
  refine ⟨?_, ?_, rfl⟩
  · norm_num [jacA]
  · norm_num [jacB]

/-- The divergence after the projection on the all-fluid 4x4 grid with `dx = dy = h`. -/
theorem projectedDivergence_four (v p0 buf div0 div1 : Buf) (bound : Mask) (h : ℚ)
    (hh : h ≠ 0) (hfluid : ∀ i, i < 4 * 4 → bound i = 0) (hp : ∀ i, i < 4 * 4 → p0 i = 0)
    (d : Buf) (hd : d = C_divergence div0 v bound 4 4 h h) :
    projectedDivergence v p0 buf div0 div1 bound 4 4 h h 5
        = d 5 + (jacA 20 * (d 5 + d 6 + d 9 + d 10) + jacB 20 * (d 5 - d 6 - d 9 + d 10)
          + 2 * jacC 20 * (d 5 - d 10)) / 8
    ∧ projectedDivergence v p0 buf div0 div1 bound 4 4 h h 6
        = d 6 + (jacA 20 * (d 5 + d 6 + d 9 + d 10) - jacB 20 * (d 5 - d 6 - d 9 + d 10)
          + 2 * jacC 20 * (d 6 - d 9)) / 8
    ∧ projectedDivergence v p0 buf div0 div1 bound 4 4 h h 9
        = d 9 + (jacA 20 * (d 5 + d 6 + d 9 + d 10) - jacB 20 * (d 5 - d 6 - d 9 + d 10)
          - 2 * jacC 20 * (d 6 - d 9)) / 8
    ∧ projectedDivergence v p0 buf div0 div1 bound 4 4 h h 10
        = d 10 + (jacA 20 * (d 5 + d 6 + d 9 + d 10) + jacB 20 * (d 5 - d 6 - d 9 + d 10)
          - 2 * jacC 20 * (d 5 - d 10)) / 8 := by
  have P := pressureLoop_four p0 buf d bound h hfluid hp 20
  obtain ⟨P5, P6, P9, P10⟩ := P
  have ring0 : ∀ x y, x < 4 → y < 4 → onRing 4 4 x y →
      (pressureLoop 20 p0 buf d bound 4 4 h h).pressure (y + x * 4) = 0 :=
    fun x y hx hy hr => pressureLoop_ring_zero p0 buf d bound 4 4 h h hp 20 x y hx hy hr
  have r1 := ring0 0 1 (by decide) (by decide) (by decide)
  have r2 := ring0 0 2 (by decide) (by decide) (by decide)
  have r4 := ring0 1 0 (by decide) (by decide) (by decide)
  have r7 := ring0 1 3 (by decide) (by decide) (by decide)
  have r8 := ring0 2 0 (by decide) (by decide) (by decide)
  have r11 := ring0 2 3 (by decide) (by decide) (by decide)
  have r13 := ring0 3 1 (by decide) (by decide) (by decide)
  have r14 := ring0 3 2 (by decide) (by decide) (by decide)
  have e5 := divergence_after_sub_gradient v
    (C_pressure_solve p0 buf d bound 4 4 h h).1 div0 div1 bound 4 4 h h hfluid 1 1
    (by decide) (by decide) (by decide) (by decide)
  have e6 := divergence_after_sub_gradient v
    (C_pressure_solve p0 buf d bound 4 4 h h).1 div0 div1 bound 4 4 h h hfluid 1 2
    (by decide) (by decide) (by decide) (by decide)
  have e9 := divergence_after_sub_gradient v
    (C_pressure_solve p0 buf d bound 4 4 h h).1 div0 div1 bound 4 4 h h hfluid 2 1
    (by decide) (by decide) (by decide) (by decide)
  have e10 := divergence_after_sub_gradient v
    (C_pressure_solve p0 buf d bound 4 4 h h).1 div0 div1 bound 4 4 h h hfluid 2 2
    (by decide) (by decide) (by decide) (by decide)
  rw [C_pressure_solve_fst] at e5 e6 e9 e10
  norm_num at r1 r2 r4 r7 r8 r11 r13 r14 e5 e6 e9 e10
  rw [r13, r7, P5, ← hd] at e5
  rw [r14, r4, P6, ← hd] at e6
  rw [r1, r11, P9, ← hd] at e9
  rw [r2, r8, P10, ← hd] at e10
  unfold projectedDivergence
  rw [← hd, C_pressure_solve_fst]
  refine ⟨?_, ?_, ?_, ?_⟩
  · rw [e5]; field_simp; ring
  · rw [e6]; field_simp; ring
  · rw [e9]; field_simp; ring
  · rw [e10]; field_simp; ring

/-- On the all-fluid 4x4 grid with `dx = dy` the projection strictly reduces the sum of
the squared interior divergences. -/
theorem projection_reduces_four (v p0 buf div0 div1 : Buf) (bound : Mask) (h : ℚ)
    (hh : h ≠ 0) (hfluid : ∀ i, i < 4 * 4 → bound i = 0) (hp : ∀ i, i < 4 * 4 → p0 i = 0)
    (hne : ∃ x y, 1 ≤ x ∧ x ≤ 2 ∧ 1 ≤ y ∧ y ≤ 2
      ∧ C_divergence div0 v bound 4 4 h h (y + x * 4) ≠ 0) :
    interiorSumSq 4 4 (projectedDivergence v p0 buf div0 div1 bound 4 4 h h)
      < interiorSumSq 4 4 (C_divergence div0 v bound 4 4 h h) := by
  obtain ⟨e5, e6, e9, e10⟩ := projectedDivergence_four v p0 buf div0 div1 bound h hh hfluid hp
    _ rfl
  obtain ⟨hA, hB, hC⟩ := jac_values
  rw [interiorSumSq_four, interiorSumSq_four, e5, e6, e9, e10, hA, hB, hC]
  generalize C_divergence div0 v bound 4 4 h h = d at hne ⊢
  have hpos : 0 < d 5 ^ 2 + d 6 ^ 2 + d 9 ^ 2 + d 10 ^ 2 := by
    obtain ⟨x, y, hx1, hx2, hy1, hy2, hxy⟩ := hne
    have h5 := sq_nonneg (d 5)
    have h6 := sq_nonneg (d 6)
    have h9 := sq_nonneg (d 9)
    have h10 := sq_nonneg (d 10)
    have hc : (x = 1 ∨ x = 2) ∧ (y = 1 ∨ y = 2) := by omega
    rcases hc with ⟨hx | hx, hy | hy⟩ <;> subst hx <;> subst hy <;> norm_num at hxy <;>
      have := pow_pos (abs_pos.mpr hxy) 2 <;> rw [sq_abs] at this <;> linarith
  nlinarith [sq_nonneg (d 5 + d 6 + d 9 + d 10), sq_nonneg (d 5 - d 6 - d 9 + d 10),
    sq_nonneg (d 5 - d 10), sq_nonneg (d 6 - d 9)]


/-- C4 (amended): on an all-fluid grid the divergence after the projection
`divergence → pressure_solve → sub_gradient` (ring cells of the projected field equal to
those of `v`) differs from the divergence before it, at an interior cell, only by the
pressure differences subtracted at the interior neighbours of the cell. On the 3x3 grid
the sum over the interior of the squared divergence is therefore unchanged; on the 4x4
grid with `dx = dy ≠ 0` and pressure initially zero it is strictly reduced whenever the
divergence is not identically zero on the interior. -/
theorem C4_projection_divergence (v p0 buf div0 div1 : Buf) (bound : Mask) (Nx Ny : Nat)
    (dx dy : ℚ) (hfluid : ∀ i, i < Nx * Ny → bound i = 0) :
    (∀ x y, 1 ≤ x → x + 2 ≤ Nx → 1 ≤ y → y + 2 ≤ Ny →
      projectedDivergence v p0 buf div0 div1 bound Nx Ny dx dy (y + x * Ny)
        = C_divergence div0 v bound Nx Ny dx dy (y + x * Ny)
          - (if x + 2 < Nx then 1 / (2 * dx)
              * ((C_pressure_solve p0 buf (C_divergence div0 v bound Nx Ny dx dy)
                    bound Nx Ny dx dy).1 (y + x * Ny + Ny + Ny)
                - (C_pressure_solve p0 buf (C_divergence div0 v bound Nx Ny dx dy)
                    bound Nx Ny dx dy).1 (y + x * Ny))
              else 0) / (2 * dx)
          + (if 2 ≤ x then 1 / (2 * dx)
              * ((C_pressure_solve p0 buf (C_divergence div0 v bound Nx Ny dx dy)
                    bound Nx Ny dx dy).1 (y + x * Ny)
                - (C_pressure_solve p0 buf (C_divergence div0 v bound Nx Ny dx dy)
                    bound Nx Ny dx dy).1 (y + x * Ny - Ny - Ny))
              else 0) / (2 * dx)
          - (if y + 2 < Ny then 1 / (2 * dy)
              * ((C_pressure_solve p0 buf (C_divergence div0 v bound Nx Ny dx dy)
                    bound Nx Ny dx dy).1 (y + x * Ny + 1 + 1)
                - (C_pressure_solve p0 buf (C_divergence div0 v bound Nx Ny dx dy)
                    bound Nx Ny dx dy).1 (y + x * Ny))
              else 0) / (2 * dy)
          + (if 2 ≤ y then 1 / (2 * dy)
              * ((C_pressure_solve p0 buf (C_divergence div0 v bound Nx Ny dx dy)
                    bound Nx Ny dx dy).1 (y + x * Ny)
                - (C_pressure_solve p0 buf (C_divergence div0 v bound Nx Ny dx dy)
                    bound Nx Ny dx dy).1 (y + x * Ny - 1 - 1))
              else 0) / (2 * dy))
    ∧ (Nx = 3 → Ny = 3 →
        interiorSumSq Nx Ny (projectedDivergence v p0 buf div0 div1 bound Nx Ny dx dy)
          = interiorSumSq Nx Ny (C_divergence div0 v bound Nx Ny dx dy))
    ∧ (Nx = 4 → Ny = 4 → dx = dy → dx ≠ 0 → (∀ i, i < Nx * Ny → p0 i = 0) →
        (∃ x y, 1 ≤ x ∧ x ≤ Nx - 2 ∧ 1 ≤ y ∧ y ≤ Ny - 2
          ∧ C_divergence div0 v bound Nx Ny dx dy (y + x * Ny) ≠ 0) →
        interiorSumSq Nx Ny (projectedDivergence v p0 buf div0 div1 bound Nx Ny dx dy)
          < interiorSumSq Nx Ny (C_divergence div0 v bound Nx Ny dx dy)) := by
  refine ⟨?_, ?_, ?_⟩
  · intro x y hx1 hx2 hy1 hy2
    unfold projectedDivergence
    exact divergence_after_sub_gradient v _ div0 div1 bound Nx Ny dx dy hfluid x y hx1
      (by omega) hy1 (by omega)
  · intro hNx hNy
    subst hNx
    subst hNy
    rw [interiorSumSq_three, interiorSumSq_three,
      projectedDivergence_three v p0 buf div0 div1 bound dx dy hfluid]
  · intro hNx hNy hd hh hp hne
    subst hNx
    subst hNy
    subst hd
    exact projection_reduces_four v p0 buf div0 div1 bound dx hh hfluid hp hne

/-- C4 on the all-fluid 3x3 grid (sums equal) and on the all-fluid 4x4 grid with
`dx = dy = 1` and x-velocity 1 at the cell `(2, 1)` (sum strictly reduced). -/
theorem C4_projection_divergence_witness :
    interiorSumSq 3 3
        (projectedDivergence ringImpulse (fun _ => 0) (fun _ => 0) (fun _ => 0) (fun _ => 0)
          (fun _ => 0) 3 3 1 1)
      = interiorSumSq 3 3 (C_divergence (fun _ => 0) ringImpulse (fun _ => 0) 3 3 1 1)
    ∧ interiorSumSq 4 4
        (projectedDivergence interiorImpulse (fun _ => 0) (fun _ => 0) (fun _ => 0)
          (fun _ => 0) (fun _ => 0) 4 4 1 1)
      < interiorSumSq 4 4 (C_divergence (fun _ => 0) interiorImpulse (fun _ => 0) 4 4 1 1) :=
  ⟨(C4_projection_divergence ringImpulse (fun _ => 0) (fun _ => 0) (fun _ => 0) (fun _ => 0)
      (fun _ => 0) 3 3 1 1 (fun _ _ => rfl)).2.1 rfl rfl,
   (C4_projection_divergence interiorImpulse (fun _ => 0) (fun _ => 0) (fun _ => 0)
      (fun _ => 0) (fun _ => 0) 4 4 1 1 (fun _ _ => rfl)).2.2 rfl rfl rfl one_ne_zero
      (fun _ _ => rfl)
      ⟨1, 1, by decide, by decide, by decide, by decide, by
        rw [C_divergence_interior _ _ _ _ _ _ _ 1 1 (by decide) (by decide) (by decide)
          (by decide)]
        norm_num [divergenceValue, interiorImpulse]⟩⟩

/-! ## The sampler -/

/-- C12: `advect_sample` returns the corner values at the corner fractions,
`advect_sample(v, Ny, 0, 0) = v[0]`, `(1, 0) ↦ v[Ny]`, `(0, 1) ↦ v[1]`,
`(1, 1) ↦ v[Ny + 1]`, and returns `c` for all fractions `s`, `t` when the four corner
values are `c`. -/
theorem C12_sampler_bilinear (v : Nat → ℚ) (Ny : Nat) (s t c : ℚ) :
    advect_sample v Ny 0 0 = v 0
    ∧ advect_sample v Ny 1 0 = v Ny
    ∧ advect_sample v Ny 0 1 = v 1
    ∧ advect_sample v Ny 1 1 = v (Ny + 1)
    ∧ (v 0 = c → v 1 = c → v Ny = c → v (Ny + 1) = c → advect_sample v Ny s t = c) := by
  refine ⟨?_, ?_, ?_, ?_, fun h0 h1 h2 h3 => advect_sample_const v Ny s t c h0 h1 h2 h3⟩ <;>
    simp [advect_sample]

/-- C12 for the constant field 7 with `Ny = 3` and fractions `1/3`, `2/5`. -/
theorem C12_sampler_bilinear_witness : advect_sample (fun _ => 7) 3 (1 / 3) (2 / 5) = 7 :=
  (C12_sampler_bilinear (fun _ => 7) 3 (1 / 3) (2 / 5) 7).2.2.2.2 rfl rfl rfl rfl

/-! ## Postconditions of the divergence and of the projector -/

/-- C13: after `C_divergence` every interior cell `(x, y)` holds
`(R - L) / (2 dx) + (U - D) / (2 dy)`, where `R`, `L` are the x-velocities at `(x+1, y)`,
`(x-1, y)` and `U`, `D` the y-velocities at `(x, y+1)`, `(x, y-1)`, each replaced by 0
when that neighbour is solid; every cell of the outer ring keeps the previous value of
`div`. -/
theorem C13_divergence_postcondition (div v : Buf) (bound : Mask) (Nx Ny : Nat) (dx dy : ℚ)
    (x y : Nat) (hx : x < Nx) (hy : y < Ny) :
    C_divergence div v bound Nx Ny dx dy (y + x * Ny)
      = if 1 ≤ x ∧ x + 2 ≤ Nx ∧ 1 ≤ y ∧ y + 2 ≤ Ny then
          ((if bound (y + (x + 1) * Ny) ≠ 0 then 0 else v (y + (x + 1) * Ny))
            - (if bound (y + (x - 1) * Ny) ≠ 0 then 0 else v (y + (x - 1) * Ny))) / (2 * dx)
          + ((if bound ((y + 1) + x * Ny) ≠ 0 then 0 else v (Nx * Ny + ((y + 1) + x * Ny)))
            - (if bound ((y - 1) + x * Ny) ≠ 0 then 0 else v (Nx * Ny + ((y - 1) + x * Ny))))
              / (2 * dy)
        else div (y + x * Ny) := by
  by_cases hin : 1 ≤ x ∧ x + 2 ≤ Nx ∧ 1 ≤ y ∧ y + 2 ≤ Ny
  · rw [if_pos hin]
    obtain ⟨h1, h2, h3, h4⟩ := hin
    have e1 : y + (x + 1) * Ny = y + x * Ny + Ny := by ring
    have e2 : y + (x - 1) * Ny = y + x * Ny - Ny := by
      obtain ⟨k, rfl⟩ : ∃ k, x = k + 1 := ⟨x - 1, by omega⟩
      have : y + (k + 1) * Ny = y + k * Ny + Ny := by ring
      rw [Nat.add_sub_cancel, this, Nat.add_sub_cancel]
    have e3 : (y + 1) + x * Ny = y + x * Ny + 1 := by ring
    have e4 : (y - 1) + x * Ny = y + x * Ny - 1 := by omega
    have e5 : Nx * Ny + (y + x * Ny + 1) = Nx * Ny + (y + x * Ny) + 1 := by ring
    have e6 : Nx * Ny + (y + x * Ny - 1) = Nx * Ny + (y + x * Ny) - 1 := by omega
    rw [C_divergence_interior _ _ _ _ _ _ _ x y h1 (by omega) h3 (by omega), e1, e2, e3, e4,
      e5, e6]
    unfold divergenceValue
    split_ifs <;> ring
  · rw [if_neg hin]
    have hn := not_interior_idx hx hy (by omega : ¬ (1 ≤ x ∧ x < Nx - 1 ∧ 1 ≤ y ∧ y < Ny - 1))
    exact C_divergence_other _ _ _ _ _ _ _ _ (fun x1 y1 h1 h2 h3 h4 => (hn x1 y1 h1 h2 h3 h4).1)

/-- C14: after `C_sub_gradient` an interior fluid cell holds
`vx = v0x - (p[x+1, y] - p[x-1, y]) / (2 dx)` and
`vy = v0y - (p[x, y+1] - p[x, y-1]) / (2 dy)`, and an interior solid cell holds the two
components of `v0` at that cell. -/
theorem C14_projector_postcondition (v v0 p : Buf) (bound : Mask) (Nx Ny : Nat) (dx dy : ℚ)
    (x y : Nat) (hx1 : 1 ≤ x) (hx2 : x + 2 ≤ Nx) (hy1 : 1 ≤ y) (hy2 : y + 2 ≤ Ny) :
    C_sub_gradient v v0 p bound Nx Ny dx dy (y + x * Ny)
      = (if bound (y + x * Ny) ≠ 0 then v0 (y + x * Ny)
        else v0 (y + x * Ny) - (p (y + (x + 1) * Ny) - p (y + (x - 1) * Ny)) / (2 * dx))
    ∧ C_sub_gradient v v0 p bound Nx Ny dx dy (Nx * Ny + (y + x * Ny))
      = (if bound (y + x * Ny) ≠ 0 then v0 (Nx * Ny + (y + x * Ny))
        else v0 (Nx * Ny + (y + x * Ny))
          - (p ((y + 1) + x * Ny) - p ((y - 1) + x * Ny)) / (2 * dy)) := by
  have e1 : y + (x + 1) * Ny = y + x * Ny + Ny := by ring
  have e2 : y + (x - 1) * Ny = y + x * Ny - Ny := by
    obtain ⟨k, rfl⟩ : ∃ k, x = k + 1 := ⟨x - 1, by omega⟩
    have : y + (k + 1) * Ny = y + k * Ny + Ny := by ring
    rw [Nat.add_sub_cancel, this, Nat.add_sub_cancel]
  have e3 : (y + 1) + x * Ny = y + x * Ny + 1 := by ring
  have e4 : (y - 1) + x * Ny = y + x * Ny - 1 := by omega
  rw [C_sub_gradient_x _ _ _ _ _ _ _ _ x y hx1 (by omega) hy1 (by omega),
    C_sub_gradient_y _ _ _ _ _ _ _ _ x y hx1 (by omega) hy1 (by omega), e1, e2, e3, e4]
  constructor <;> split_ifs <;> ring

/-- C13 at the interior cell of the all-fluid 3x3 grid, x-velocity 1 at `(2, 1)`. -/
theorem C13_divergence_postcondition_witness :
    C_divergence (fun _ => 5) ringImpulse (fun _ => 0) 3 3 1 1 (1 + 1 * 3)
      = if 1 ≤ 1 ∧ 1 + 2 ≤ 3 ∧ 1 ≤ 1 ∧ 1 + 2 ≤ 3 then
          ((if (fun _ => 0 : Mask) (1 + (1 + 1) * 3) ≠ 0 then 0
              else ringImpulse (1 + (1 + 1) * 3))
            - (if (fun _ => 0 : Mask) (1 + (1 - 1) * 3) ≠ 0 then 0
              else ringImpulse (1 + (1 - 1) * 3))) / (2 * 1)
          + ((if (fun _ => 0 : Mask) ((1 + 1) + 1 * 3) ≠ 0 then 0
              else ringImpulse (3 * 3 + ((1 + 1) + 1 * 3)))
            - (if (fun _ => 0 : Mask) ((1 - 1) + 1 * 3) ≠ 0 then 0
              else ringImpulse (3 * 3 + ((1 - 1) + 1 * 3)))) / (2 * 1)
        else (fun _ => (5 : ℚ)) (1 + 1 * 3) :=
  C13_divergence_postcondition (fun _ => 5) ringImpulse (fun _ => 0) 3 3 1 1 1 1 (by decide)
    (by decide)

/-- C14 at the interior cell of the 3x3 grid with the solid cell `(2, 1)`. -/
theorem C14_projector_postcondition_witness :
    C_sub_gradient (fun _ => 0) slipField (fun i => (i : ℚ)) slipMask 3 3 1 1 (1 + 1 * 3)
      = (if slipMask (1 + 1 * 3) ≠ 0 then slipField (1 + 1 * 3)
        else slipField (1 + 1 * 3)
          - ((fun i : Nat => (i : ℚ)) (1 + (1 + 1) * 3)
            - (fun i : Nat => (i : ℚ)) (1 + (1 - 1) * 3)) / (2 * 1))
    ∧ C_sub_gradient (fun _ => 0) slipField (fun i => (i : ℚ)) slipMask 3 3 1 1
        (3 * 3 + (1 + 1 * 3))
      = (if slipMask (1 + 1 * 3) ≠ 0 then slipField (3 * 3 + (1 + 1 * 3))
        else slipField (3 * 3 + (1 + 1 * 3))
          - ((fun i : Nat => (i : ℚ)) ((1 + 1) + 1 * 3)
            - (fun i : Nat => (i : ℚ)) ((1 - 1) + 1 * 3)) / (2 * 1)) :=
  C14_projector_postcondition (fun _ => 0) slipField (fun i => (i : ℚ)) slipMask 3 3 1 1 1 1
    (by decide) (by decide) (by decide) (by decide)

/-! ## The ring of the velocity -/

/-- The velocity a sub-step leaves at an index that is not the index of an interior
cell is the velocity it started from. -/
theorem stepVelocity_ring (bound : Mask) (Nx Ny : Nat) (dx dy dt : ℚ) (s : SimState) (j : Nat)
    (hj : ∀ x y, 1 ≤ x → x < Nx - 1 → 1 ≤ y → y < Ny - 1 →
      j ≠ y + x * Ny ∧ j ≠ Nx * Ny + (y + x * Ny)) :
    stepVelocity bound Nx Ny dx dy dt s j = s.v j := by
  unfold stepVelocity
  rw [C_enforce_slip_other _ _ _ _ _ hj, C_sub_gradient_other _ _ _ _ _ _ _ _ _ hj]

/-- C18: after `C_step` both velocity components at every cell of the outermost ring
(`x ∈ {0, Nx-1}` or `y ∈ {0, Ny-1}`) equal their values before the call. -/
theorem C18_ring_velocity_unchanged (s : SimState) (n : Nat) (bound : Mask) (Nx Ny : Nat)
    (dx dy dt0 : ℚ) (x y : Nat) (hx : x < Nx) (hy : y < Ny)
    (hring : x = 0 ∨ x = Nx - 1 ∨ y = 0 ∨ y = Ny - 1) :
    (C_step s n bound Nx Ny dx dy dt0).v (y + x * Ny) = s.v (y + x * Ny)
    ∧ (C_step s n bound Nx Ny dx dy dt0).v (Nx * Ny + (y + x * Ny))
        = s.v (Nx * Ny + (y + x * Ny)) := by
  have hn := not_interior_idx hx hy (by omega : ¬ (1 ≤ x ∧ x < Nx - 1 ∧ 1 ≤ y ∧ y < Ny - 1))
  have h1 : ∀ x1 y1, 1 ≤ x1 → x1 < Nx - 1 → 1 ≤ y1 → y1 < Ny - 1 →
      y + x * Ny ≠ y1 + x1 * Ny ∧ y + x * Ny ≠ Nx * Ny + (y1 + x1 * Ny) :=
    fun x1 y1 a b c d => ⟨(hn x1 y1 a b c d).1, (hn x1 y1 a b c d).2.1⟩
  have h2 : ∀ x1 y1, 1 ≤ x1 → x1 < Nx - 1 → 1 ≤ y1 → y1 < Ny - 1 →
      Nx * Ny + (y + x * Ny) ≠ y1 + x1 * Ny
        ∧ Nx * Ny + (y + x * Ny) ≠ Nx * Ny + (y1 + x1 * Ny) :=
    fun x1 y1 a b c d => ⟨(hn x1 y1 a b c d).2.2.1, (hn x1 y1 a b c d).2.2.2⟩
  have k1 : ∀ t : SimState, (subStep n bound Nx Ny dx dy (dt0 / 3) t).v (y + x * Ny)
      = t.v (y + x * Ny) := fun t => by
    rw [subStep_v, stepVelocity_ring _ _ _ _ _ _ _ _ h1]
  have k2 : ∀ t : SimState,
      (subStep n bound Nx Ny dx dy (dt0 / 3) t).v (Nx * Ny + (y + x * Ny))
        = t.v (Nx * Ny + (y + x * Ny)) := fun t => by
    rw [subStep_v, stepVelocity_ring _ _ _ _ _ _ _ _ h2]
  rw [C_step_eq, k1, k1, k1, k2, k2, k2]
  exact ⟨rfl, rfl⟩

/-- C18 at the ring cell `(0, 1)` of the 3x3 grid with a solid centre. -/
theorem C18_ring_velocity_unchanged_witness :
    (C_step (densitySample 2) 2 centreMask 3 3 1 1 (3 / 10)).v (1 + 0 * 3)
        = (densitySample 2).v (1 + 0 * 3)
    ∧ (C_step (densitySample 2) 2 centreMask 3 3 1 1 (3 / 10)).v (3 * 3 + (1 + 0 * 3))
        = (densitySample 2).v (3 * 3 + (1 + 0 * 3)) :=
  C18_ring_velocity_unchanged (densitySample 2) 2 centreMask 3 3 1 1 (3 / 10) 0 1 (by decide)
    (by decide) (Or.inl rfl)

/-! ## Zero time step: the last row and the last column -/

/-- With `dt = 0` a fluid cell of the last row (not in the last column) gets
`0.01 * v0(x, y-1) + 0.99 * v0(x, y)`. -/
theorem advectValue_dt0_lastrow (v0 : Buf) (bound : Mask) (Nx Ny : Nat) (dx dy : ℚ)
    (plane x y : Nat) (hb : bound ((y + 1) + x * Ny) = 0) (hx : x + 2 ≤ Nx) (hy : y + 2 = Ny) :
    advectValue v0 bound Nx Ny dx dy 0 plane x (y + 1)
      = 1 / 100 * v0 (plane + (y + x * Ny)) + 99 / 100 * v0 (plane + ((y + 1) + x * Ny)) := by
  unfold advectValue
  rw [if_pos hb]
  have hN : ((y : ℚ) + 2) = (Ny : ℚ) := by exact_mod_cast hy
  have e1 : cellXi v0 Nx Ny dx 0 x (y + 1) = (x : Int) := by
    rw [cellXi, tracedXa_dt0, clampTrace_inner x Nx hx, cTrunc_natCast]
  have e2 : cellYi v0 Nx Ny dy 0 x (y + 1) = (y : Int) := by
    rw [cellYi, tracedYa_dt0, clampTrace_last (y + 1) Ny (by omega), cTrunc_last y Ny hy]
  have e3 : cellS v0 Nx Ny dx 0 x (y + 1) = 0 := by
    rw [cellS, e1, tracedXa_dt0, clampTrace_inner x Nx hx]
    simp
  have e4 : cellT v0 Nx Ny dy 0 x (y + 1) = 99 / 100 := by
    rw [cellT, e2, tracedYa_dt0, clampTrace_last (y + 1) Ny (by omega)]
    push_cast
    linarith
  rw [e1, e2, e3, e4]
  have e5 : (plane : Int) + ((y : Int) + (x : Int) * (Ny : Int))
      = ((plane + (y + x * Ny) : Nat) : Int) := by push_cast; ring
  rw [e5]
  simp only [advect_sample, ptrAdd_natCast]
  have e6 : plane + (y + x * Ny) + 1 = plane + ((y + 1) + x * Ny) := by ring
  rw [e6]
  ring_nf

/-! ## The cache of the advection -/

theorem foldl_inv {σ β : Type} (I : σ → Prop) (Q : β → Prop) (f : σ → β → σ) (l : List β)
    (hQ : ∀ b, b ∈ l → Q b) (s : σ) (h0 : I s) (hI : ∀ b, Q b → ∀ t, I t → I (f t b)) :
    I (l.foldl f s) := by
  induction l generalizing s with
  | nil => exact h0
  | cons a l ih =>
    rw [List.foldl_cons]
    exact ih (fun b hb => hQ b (List.mem_cons_of_mem a hb)) _
      (hI a (hQ a (List.mem_cons_self a l)) s h0)

theorem foldl_preserve {σ α β : Type} (g : σ → α) (Q : β → Prop) (f : σ → β → σ) (l : List β)
    (hQ : ∀ b, b ∈ l → Q b) (s : σ) (hg : ∀ b, Q b → ∀ t, g (f t b) = g t) :
    g (l.foldl f s) = g s :=
  foldl_inv (fun t => g t = g s) Q f l hQ s rfl (fun b hb t ht => (hg b hb t).trans ht)

/-- The value a fold leaves in a place that only the element `b0` writes, when a second
visit of `b0` writes the same value again. -/
theorem foldl_set_at {σ α β : Type} (I : σ → Prop) (g : σ → α) (c : α) (Q : β → Prop)
    (f : σ → β → σ) (b0 : β) (s : σ) (hI : ∀ b, Q b → ∀ t, I t → I (f t b))
    (hset : ∀ t, I t → (g t = g s ∨ g t = c) → g (f t b0) = c)
    (hother : ∀ b, Q b → b ≠ b0 → ∀ t, g (f t b) = g t) (l : List β)
    (hQ : ∀ b, b ∈ l → Q b) (t : σ) (ht : I t) (hg : g t = g s ∨ g t = c)
    (hmem : b0 ∈ l ∨ g t = c) : g (l.foldl f t) = c := by
  induction l generalizing t with
  | nil =>
    rcases hmem with h | h
    · exact absurd h (List.not_mem_nil b0)
    · exact h
  | cons a l ih =>
    rw [List.foldl_cons]
    have hQa := hQ a (List.mem_cons_self a l)
    have hQl : ∀ b, b ∈ l → Q b := fun b hb => hQ b (List.mem_cons_of_mem a hb)
    by_cases e : a = b0
    · subst e
      have hc := hset t ht hg
      exact ih hQl _ (hI a hQa t ht) (Or.inr hc) (Or.inr hc)
    · have hk := hother a hQa e t
      refine ih hQl _ (hI a hQa t ht) (by rw [hk]; exact hg) ?_
      rcases hmem with h | h
      · rcases List.mem_cons.mp h with h2 | h2
        · exact absurd h2.symm e
        · exact Or.inl h2
      · exact Or.inr (by rw [hk]; exact h)

theorem C_enforce_slip_rule (v : Buf) (bound : Mask) (Nx Ny x y : Nat) (hx1 : 1 ≤ x)
    (hx2 : x < Nx - 1) (hy1 : 1 ≤ y) (hy2 : y < Ny - 1) :
    C_enforce_slip v bound Nx Ny (y + x * Ny) = slipRuleX v bound Ny (y + x * Ny)
    ∧ C_enforce_slip v bound Nx Ny (Nx * Ny + (y + x * Ny))
        = slipRuleY v bound Nx Ny (y + x * Ny) :=
  ⟨C_enforce_slip_x v bound Nx Ny x y hx1 hx2 hy1 hy2,
    C_enforce_slip_y v bound Nx Ny x y hx1 hx2 hy1 hy2⟩

theorem slipCell_rule_x (v : Buf) (bound : Mask) (Nx Ny x y : Nat) (hx1 : 1 ≤ x)
    (hx2 : x < Nx - 1) (hy1 : 1 ≤ y) (hy2 : y < Ny - 1) (t : Buf)
    (ht : SolidKept v bound Nx Ny t)
    (hg : t (y + x * Ny) = v (y + x * Ny)
      ∨ t (y + x * Ny) = slipRuleX v bound Ny (y + x * Ny)) :
    slipCell bound Nx Ny x y t (y + x * Ny) = slipRuleX v bound Ny (y + x * Ny) := by
  have hn := interior_neighbours hx1 hx2 hy1 hy2
  rw [slipCell_x bound Nx Ny x y (by omega) t]
  unfold slipRuleX at hg ⊢
  by_cases h1 : bound (y + x * Ny) ≠ 0
  · rw [if_pos h1] at hg ⊢
    rw [if_pos h1]
    rcases hg with h | h <;> exact h
  · rw [if_neg h1] at hg ⊢
    rw [if_neg h1]
    by_cases h2 : bound (y + x * Ny + Ny) ≠ 0
    · rw [if_pos h2, if_pos h2]
      exact (ht _ (by omega) h2).1
    · rw [if_neg h2] at hg ⊢
      rw [if_neg h2]
      by_cases h3 : bound (y + x * Ny - Ny) ≠ 0
      · rw [if_pos h3, if_pos h3]
        exact (ht _ (by omega) h3).1
      · rw [if_neg h3] at hg ⊢
        rw [if_neg h3]
        rcases hg with h | h <;> exact h

theorem slipCell_rule_y (v : Buf) (bound : Mask) (Nx Ny x y : Nat) (hx1 : 1 ≤ x)
    (hx2 : x < Nx - 1) (hy1 : 1 ≤ y) (hy2 : y < Ny - 1) (t : Buf)
    (ht : SolidKept v bound Nx Ny t)
    (hg : t (Nx * Ny + (y + x * Ny)) = v (Nx * Ny + (y + x * Ny))
      ∨ t (Nx * Ny + (y + x * Ny)) = slipRuleY v bound Nx Ny (y + x * Ny)) :
    slipCell bound Nx Ny x y t (Nx * Ny + (y + x * Ny))
      = slipRuleY v bound Nx Ny (y + x * Ny) := by
  have hn := interior_neighbours hx1 hx2 hy1 hy2
  rw [slipCell_y bound Nx Ny x y (by omega) t]
  unfold slipRuleY at hg ⊢
  by_cases h1 : bound (y + x * Ny) ≠ 0
  · rw [if_pos h1] at hg ⊢
    rw [if_pos h1]
    rcases hg with h | h <;> exact h
  · rw [if_neg h1] at hg ⊢
    rw [if_neg h1]
    by_cases h2 : bound (y + x * Ny + 1) ≠ 0
    · rw [if_pos h2, if_pos h2]
      have h := (ht (y + x * Ny + 1) (by omega) h2).2
      rw [← Nat.add_assoc] at h
      exact h
    · rw [if_neg h2] at hg ⊢
      rw [if_neg h2]
      by_cases h3 : bound (y + x * Ny - 1) ≠ 0
      · rw [if_pos h3, if_pos h3]
        have h := (ht (y + x * Ny - 1) (by omega) h3).2
        have e : Nx * Ny + (y + x * Ny - 1) = Nx * Ny + (y + x * Ny) - 1 := by omega
        rw [e] at h
        exact h
      · rw [if_neg h3] at hg ⊢
        rw [if_neg h3]
        rcases hg with h | h <;> exact h

/-- The slip pass over any list of interior cells that contains `(x, y)` leaves the
snapshot rule at `(x, y)`. -/
theorem slipVisit_cell (v : Buf) (bound : Mask) (Nx Ny : Nat) (cells : List (Nat × Nat))
    (hin : ∀ c, c ∈ cells → isInterior Nx Ny c) (x y : Nat) (hmem : (x, y) ∈ cells) :
    slipVisit bound Nx Ny cells v (y + x * Ny) = slipRuleX v bound Ny (y + x * Ny)
    ∧ slipVisit bound Nx Ny cells v (Nx * Ny + (y + x * Ny))
        = slipRuleY v bound Nx Ny (y + x * Ny) := by
  obtain ⟨hx1, hx2, hy1, hy2⟩ := hin _ hmem
  have hx1 : 1 ≤ x := hx1
  have hx2 : x < Nx - 1 := hx2
  have hy1 : 1 ≤ y := hy1
  have hy2 : y < Ny - 1 := hy2
  have hn := interior_neighbours hx1 hx2 hy1 hy2
  have hI : ∀ c : Nat × Nat, isInterior Nx Ny c → ∀ t, SolidKept v bound Nx Ny t →
      SolidKept v bound Nx Ny (slipCell bound Nx Ny c.1 c.2 t) := by
    intro c hc t ht
    obtain ⟨c1, c2, c3, c4⟩ := hc
    exact slipCell_solidKept v bound Nx Ny c.1 c.2 (by omega) (by omega) (by omega) t ht
  have hsep : ∀ c : Nat × Nat, isInterior Nx Ny c → c ≠ (x, y) →
      y + x * Ny ≠ c.2 + c.1 * Ny ∧ y + x * Ny ≠ Nx * Ny + (c.2 + c.1 * Ny)
      ∧ Nx * Ny + (y + x * Ny) ≠ c.2 + c.1 * Ny
      ∧ Nx * Ny + (y + x * Ny) ≠ Nx * Ny + (c.2 + c.1 * Ny) := by
    intro c hc hne
    obtain ⟨c1, c2, c3, c4⟩ := hc
    have a1 : c.1 < Nx := by omega
    have a2 : c.2 < Ny := by omega
    have a3 : x < Nx := by omega
    have a4 : y < Ny := by omega
    refine cell_index_sep a1 a2 a3 a4 (fun h => hne ?_)
    exact Prod.ext h.1 h.2
  unfold slipVisit
  constructor
  · exact foldl_set_at (SolidKept v bound Nx Ny) (fun t : Buf => t (y + x * Ny)) _
      (isInterior Nx Ny) _ (x, y) v hI
      (fun t ht hg => slipCell_rule_x v bound Nx Ny x y hx1 hx2 hy1 hy2 t ht hg)
      (fun c hc hne t => slipCell_other bound Nx Ny c.1 c.2 _ (hsep c hc hne).1
        (hsep c hc hne).2.1 t)
      cells hin v (fun j _ _ => ⟨rfl, rfl⟩) (Or.inl rfl) (Or.inl hmem)
  · exact foldl_set_at (SolidKept v bound Nx Ny) (fun t : Buf => t (Nx * Ny + (y + x * Ny))) _
      (isInterior Nx Ny) _ (x, y) v hI
      (fun t ht hg => slipCell_rule_y v bound Nx Ny x y hx1 hx2 hy1 hy2 t ht hg)
      (fun c hc hne t => slipCell_other bound Nx Ny c.1 c.2 _ (hsep c hc hne).2.2.1
        (hsep c hc hne).2.2.2 t)
      cells hin v (fun j _ _ => ⟨rfl, rfl⟩) (Or.inl rfl) (Or.inl hmem)

theorem slipVisit_other (v : Buf) (bound : Mask) (Nx Ny : Nat) (cells : List (Nat × Nat))
    (hin : ∀ c, c ∈ cells → isInterior Nx Ny c) (j : Nat)
    (hj : ∀ x y, 1 ≤ x → x < Nx - 1 → 1 ≤ y → y < Ny - 1 →
      j ≠ y + x * Ny ∧ j ≠ Nx * Ny + (y + x * Ny)) :
    slipVisit bound Nx Ny cells v j = v j := by
  unfold slipVisit
  refine foldl_preserve (fun t : Buf => t j) (isInterior Nx Ny) _ cells hin v ?_
  intro c hc t
  obtain ⟨c1, c2, c3, c4⟩ := hc
  exact slipCell_other bound Nx Ny c.1 c.2 j (hj _ _ c1 c2 c3 c4).1 (hj _ _ c1 c2 c3 c4).2 t

/-- Visiting the interior cells in any order gives the result of `C_enforce_slip`. -/
theorem slipVisit_eq (v : Buf) (bound : Mask) (Nx Ny : Nat) (cells : List (Nat × Nat))
    (hin : ∀ c, c ∈ cells → isInterior Nx Ny c)
    (hall : ∀ x y, 1 ≤ x → x < Nx - 1 → 1 ≤ y → y < Ny - 1 → (x, y) ∈ cells) :
    slipVisit bound Nx Ny cells v = C_enforce_slip v bound Nx Ny := by
  funext j
  by_cases h : ∃ x y, (1 ≤ x ∧ x < Nx - 1 ∧ 1 ≤ y ∧ y < Ny - 1)
      ∧ (j = y + x * Ny ∨ j = Nx * Ny + (y + x * Ny))
  · obtain ⟨x, y, ⟨h1, h2, h3, h4⟩, hj⟩ := h
    have hc := slipVisit_cell v bound Nx Ny cells hin x y (hall x y h1 h2 h3 h4)
    have hr := C_enforce_slip_rule v bound Nx Ny x y h1 h2 h3 h4
    rcases hj with hj | hj
    · rw [hj, hc.1, hr.1]
    · rw [hj, hc.2, hr.2]
  · have hj : ∀ x y, 1 ≤ x → x < Nx - 1 → 1 ≤ y → y < Ny - 1 →
        j ≠ y + x * Ny ∧ j ≠ Nx * Ny + (y + x * Ny) := by
      intro x y h1 h2 h3 h4
      constructor
      · intro e
        exact h ⟨x, y, ⟨h1, h2, h3, h4⟩, Or.inl e⟩
      · intro e
        exact h ⟨x, y, ⟨h1, h2, h3, h4⟩, Or.inr e⟩
    rw [slipVisit_other v bound Nx Ny cells hin j hj, C_enforce_slip_other v bound Nx Ny j hj]

/-- C17: the in-place pass `C_enforce_slip` is order-independent. Visiting the interior
cells in the order of any list `cells` that contains every interior cell gives the result
of `C_enforce_slip`; that result is, at every interior cell, the slip rule evaluated on
the snapshot `v` taken before the call (the rule reads a neighbour only when it is
solid); and solid cells and ring cells are left unchanged. -/
theorem C17_slip_order_independent (v : Buf) (bound : Mask) (Nx Ny : Nat)
    (cells : List (Nat × Nat)) (hin : ∀ c, c ∈ cells → isInterior Nx Ny c)
    (hall : ∀ x y, isInterior Nx Ny (x, y) → (x, y) ∈ cells) :
    slipVisit bound Nx Ny cells v = C_enforce_slip v bound Nx Ny
    ∧ (∀ x y, isInterior Nx Ny (x, y) →
        C_enforce_slip v bound Nx Ny (y + x * Ny) = slipRuleX v bound Ny (y + x * Ny)
        ∧ C_enforce_slip v bound Nx Ny (Nx * Ny + (y + x * Ny))
            = slipRuleY v bound Nx Ny (y + x * Ny))
    ∧ (∀ x y, x < Nx → y < Ny →
        (bound (y + x * Ny) ≠ 0 ∨ x = 0 ∨ x = Nx - 1 ∨ y = 0 ∨ y = Ny - 1) →
        C_enforce_slip v bound Nx Ny (y + x * Ny) = v (y + x * Ny)
        ∧ C_enforce_slip v bound Nx Ny (Nx * Ny + (y + x * Ny))
            = v (Nx * Ny + (y + x * Ny))) := by
  refine ⟨slipVisit_eq v bound Nx Ny cells hin
    (fun x y h1 h2 h3 h4 => hall x y ⟨h1, h2, h3, h4⟩), ?_, ?_⟩
  · intro x y h
    exact C_enforce_slip_rule v bound Nx Ny x y h.1 h.2.1 h.2.2.1 h.2.2.2
  · intro x y hx hy h
    by_cases hi : 1 ≤ x ∧ x < Nx - 1 ∧ 1 ≤ y ∧ y < Ny - 1
    · have hb : bound (y + x * Ny) ≠ 0 := by
        rcases h with h | h
        · exact h
        · omega
      have hr := C_enforce_slip_rule v bound Nx Ny x y hi.1 hi.2.1 hi.2.2.1 hi.2.2.2
      rw [hr.1, hr.2]
      unfold slipRuleX slipRuleY
      rw [if_pos hb, if_pos hb]
      exact ⟨rfl, rfl⟩
    · have hn := not_interior_idx hx hy hi
      exact ⟨C_enforce_slip_other v bound Nx Ny _
          (fun x1 y1 a b c d => ⟨(hn x1 y1 a b c d).1, (hn x1 y1 a b c d).2.1⟩),
        C_enforce_slip_other v bound Nx Ny _
          (fun x1 y1 a b c d => ⟨(hn x1 y1 a b c d).2.2.1, (hn x1 y1 a b c d).2.2.2⟩)⟩

/-- C17 on the 4x4 grid with the solid cell `(1, 1)`: visiting the four interior cells
in reverse order gives the result of `C_enforce_slip`. -/
theorem C17_slip_order_independent_witness :
    slipVisit innerMask 4 4 [(2, 2), (2, 1), (1, 2), (1, 1)] (fun i => (i : ℚ))
      = C_enforce_slip (fun i => (i : ℚ)) innerMask 4 4 :=
  (C17_slip_order_independent (fun i => (i : ℚ)) innerMask 4 4
    [(2, 2), (2, 1), (1, 2), (1, 1)] (by decide)
    (fun x y h => by
      obtain ⟨h1, h2, h3, h4⟩ := h
      have hx : x = 1 ∨ x = 2 := by simp only at h1 h2; omega
      have hy : y = 1 ∨ y = 2 := by simp only at h3 h4; omega
      rcases hx with rfl | rfl <;> rcases hy with rfl | rfl <;> simp)).1

/-! ## The maximum principle of one advection pass -/

theorem foldr_min_le (l : List ℚ) (a x : ℚ) (hx : x ∈ l) : l.foldr min a ≤ x := by
  induction l with
  | nil => exact absurd hx (List.not_mem_nil x)
  | cons b l ih =>
    rw [List.foldr_cons]
    rcases List.mem_cons.mp hx with h | h
    · rw [h]
      exact min_le_left _ _
    · exact le_trans (min_le_right _ _) (ih h)

theorem le_foldr_max (l : List ℚ) (a x : ℚ) (hx : x ∈ l) : x ≤ l.foldr max a := by
  induction l with
  | nil => exact absurd hx (List.not_mem_nil x)
  | cons b l ih =>
    rw [List.foldr_cons]
    rcases List.mem_cons.mp hx with h | h
    · rw [h]
      exact le_max_left _ _
    · exact le_trans (ih h) (le_max_right _ _)

theorem planeMin_le (v : Buf) (plane n i : Nat) (hi : i < n) :
    planeMin v plane n ≤ v (plane + i) :=
  foldr_min_le _ _ _ (List.mem_map.mpr ⟨i, List.mem_range.mpr hi, rfl⟩)

theorem le_planeMax (v : Buf) (plane n i : Nat) (hi : i < n) :
    v (plane + i) ≤ planeMax v plane n :=
  le_foldr_max _ _ _ (List.mem_map.mpr ⟨i, List.mem_range.mpr hi, rfl⟩)

/-- A bilinear sample with fractions in `[0, 1]` lies between bounds of its corners. -/
theorem advect_sample_between (f : Nat → ℚ) (Ny : Nat) (s t m M : ℚ) (hs0 : 0 ≤ s)
    (hs1 : s ≤ 1) (ht0 : 0 ≤ t) (ht1 : t ≤ 1)
    (h0 : m ≤ f 0 ∧ f 0 ≤ M) (h1 : m ≤ f 1 ∧ f 1 ≤ M) (h2 : m ≤ f Ny ∧ f Ny ≤ M)
    (h3 : m ≤ f (Ny + 1) ∧ f (Ny + 1) ≤ M) :
    m ≤ advect_sample f Ny s t ∧ advect_sample f Ny s t ≤ M := by
  unfold advect_sample
  have a1 : 0 ≤ 1 - s := by linarith
  have a2 : 0 ≤ 1 - t := by linarith
  have w00 := mul_nonneg a1 a2
  have w01 := mul_nonneg a1 ht0
  have w10 := mul_nonneg hs0 a2
  have w11 := mul_nonneg hs0 ht0
  constructor
  · nlinarith [mul_nonneg w00 (sub_nonneg.mpr h0.1), mul_nonneg w01 (sub_nonneg.mpr h1.1),
      mul_nonneg w10 (sub_nonneg.mpr h2.1), mul_nonneg w11 (sub_nonneg.mpr h3.1)]
  · nlinarith [mul_nonneg w00 (sub_nonneg.mpr h0.2), mul_nonneg w01 (sub_nonneg.mpr h1.2),
      mul_nonneg w10 (sub_nonneg.mpr h2.2), mul_nonneg w11 (sub_nonneg.mpr h3.2)]

/-- The value written at a cell lies between bounds of the source plane. -/
theorem advectValue_between (v0 : Buf) (bound : Mask) (Nx Ny : Nat) (dx dy dt : ℚ)
    (plane x y : Nat) (m M : ℚ) (hNx : 2 ≤ Nx) (hNy : 2 ≤ Ny) (hx : x < Nx) (hy : y < Ny)
    (hv : ∀ i, i < Nx * Ny → m ≤ v0 (plane + i) ∧ v0 (plane + i) ≤ M) :
    m ≤ advectValue v0 bound Nx Ny dx dy dt plane x y
    ∧ advectValue v0 bound Nx Ny dx dy dt plane x y ≤ M := by
  unfold advectValue
  split_ifs with hb
  · have hxi := cellXi_bounds v0 Nx Ny dx dt x y hNx
    have hyi := cellYi_bounds v0 Nx Ny dy dt x y hNy
    have bx := clampTrace_bounds ((x : ℚ) - dt * v0 (0 + (y + x * Ny)) / dx) Nx hNx
    have bY := clampTrace_bounds ((y : ℚ) - dt * v0 (Nx * Ny + (y + x * Ny)) / dy) Ny hNy
    have tx := cTrunc_bounds _ Nx bx.1 bx.2
    have tY := cTrunc_bounds _ Ny bY.1 bY.2
    have hr : ∀ j, j ≤ Ny + 1 →
        m ≤ ptrAdd v0 ((plane : Int) + (cellYi v0 Nx Ny dy dt x y
            + cellXi v0 Nx Ny dx dt x y * (Ny : Int))) j
        ∧ ptrAdd v0 ((plane : Int) + (cellYi v0 Nx Ny dy dt x y
            + cellXi v0 Nx Ny dx dt x y * (Ny : Int))) j ≤ M := by
      intro j hj
      obtain ⟨hi, e⟩ := ptrAdd_block v0 Nx Ny _ _ hxi.1 hxi.2 hyi.1 hyi.2 plane _ rfl j hj
      rw [e]
      exact hv _ hi
    exact advect_sample_between _ Ny _ _ m M tx.2.2.1 (le_of_lt tx.2.2.2) tY.2.2.1
      (le_of_lt tY.2.2.2) (hr 0 (by omega)) (hr 1 (by omega)) (hr Ny (by omega))
      (hr (Ny + 1) (by omega))
  · exact hv _ (idx_lt hx hy)

/-! ## Single precision -/

theorem roundEven_of_abs_lt (x : ℚ) (r : Int) (h : |x - (r : ℚ)| < 1 / 2) : roundEven x = r := by
  rw [abs_lt] at h
  unfold roundEven
  by_cases hx : (r : ℚ) ≤ x
  · have hf : ⌊x⌋ = r := by
      rw [Int.floor_eq_iff]
      constructor <;> linarith
    rw [hf, if_pos (by linarith)]
  · push_neg at hx
    have hf : ⌊x⌋ = r - 1 := by
      rw [Int.floor_eq_iff]
      push_cast
      constructor <;> linarith
    rw [hf, if_neg (by push_cast; linarith), if_pos (by push_cast; linarith)]
    ring

theorem roundEven_intCast (z : Int) : roundEven (z : ℚ) = z :=
  roundEven_of_abs_lt _ z (by simp)

theorem roundEven_err (x : ℚ) : |(roundEven x : ℚ) - x| ≤ 1 / 2 := by
  have h1 := Int.floor_le x
  have h2 := Int.lt_floor_add_one x
  rw [abs_le]
  unfold roundEven
  split_ifs with a b c
  · constructor <;> linarith
  · push_cast
    constructor <;> linarith
  · push_neg at a b
    constructor <;> linarith
  · push_neg at a b
    push_cast
    constructor <;> linarith

theorem roundEven_nonneg (x : ℚ) (h : 0 ≤ x) : 0 ≤ roundEven x := by
  have h1 : 0 ≤ ⌊x⌋ := Int.floor_nonneg.mpr h
  unfold roundEven
  split_ifs <;> omega

theorem toFloat_zero : toFloat 0 = 0 := by
  simp [toFloat]

theorem log_two_eq (q : ℚ) (e : Int) (h1 : (2 : ℚ) ^ e ≤ q) (h2 : q < (2 : ℚ) ^ (e + 1)) :
    Int.log 2 q = e := by
  have hq : 0 < q := lt_of_lt_of_le (by positivity) h1
  have a : e ≤ Int.log 2 q := (Int.zpow_le_iff_le_log (by norm_num) hq).mp (by exact_mod_cast h1)
  have b : Int.log 2 q < e + 1 := (Int.lt_zpow_iff_log_lt (by norm_num) hq).mp (by exact_mod_cast h2)
  omega

/-- The value of `(float) q` from the binade of `q` and the nearest multiple of the
unit in the last place. -/
theorem toFloat_eq (q : ℚ) (e r : Int) (h1 : (2 : ℚ) ^ e ≤ |q|) (h2 : |q| < (2 : ℚ) ^ (e + 1))
    (hr : |q / (2 : ℚ) ^ (e - 23) - (r : ℚ)| < 1 / 2) :
    toFloat q = (r : ℚ) * (2 : ℚ) ^ (e - 23) := by
  have hq : q ≠ 0 := by
    intro h
    rw [h, abs_zero] at h1
    have : (0 : ℚ) < (2 : ℚ) ^ e := by positivity
    linarith
  unfold toFloat
  rw [if_neg hq, log_two_eq |q| e h1 h2, roundEven_of_abs_lt _ r hr]

theorem toFloat_err (q : ℚ) (hq : q ≠ 0) :
    |toFloat q - q| ≤ (2 : ℚ) ^ (Int.log 2 |q| - 24) := by
  unfold toFloat
  rw [if_neg hq]
  generalize Int.log 2 |q| = e
  have hu : (0 : ℚ) < (2 : ℚ) ^ (e - 23) := by positivity
  have h := roundEven_err (q / (2 : ℚ) ^ (e - 23))
  have e1 : (roundEven (q / (2 : ℚ) ^ (e - 23)) : ℚ) * (2 : ℚ) ^ (e - 23) - q
      = ((roundEven (q / (2 : ℚ) ^ (e - 23)) : ℚ) - q / (2 : ℚ) ^ (e - 23)) * (2 : ℚ) ^ (e - 23) := by
    field_simp
  have e2 : (2 : ℚ) ^ (e - 24) = 1 / 2 * (2 : ℚ) ^ (e - 23) := by
    have : e - 23 = (e - 24) + 1 := by ring
    rw [this, zpow_add_one₀ (by norm_num)]
    ring
  rw [e1, abs_mul, abs_of_pos hu, e2]
  exact mul_le_mul_of_nonneg_right h hu.le

/-- The rounding error of `(float) q` for `|q| < 2 ^ k`. -/
theorem toFloat_err_lt (q : ℚ) (k : Int) (h : |q| < (2 : ℚ) ^ k) :
    |toFloat q - q| ≤ (2 : ℚ) ^ (k - 25) := by
  by_cases hq : q = 0
  · rw [hq, toFloat_zero]
    simp
    positivity
  · have hpos : 0 < |q| := abs_pos.mpr hq
    have hl : Int.log 2 |q| < k :=
      (Int.lt_zpow_iff_log_lt (by norm_num) hpos).mp (by exact_mod_cast h)
    refine le_trans (toFloat_err q hq) ?_
    exact zpow_le_zpow_right₀ (by norm_num) (by omega)

theorem toFloat_nonneg (q : ℚ) (h : 0 ≤ q) : 0 ≤ toFloat q := by
  unfold toFloat
  split_ifs with h0
  · exact le_refl 0
  · have hu : (0 : ℚ) < (2 : ℚ) ^ (Int.log 2 |q| - 23) := by positivity
    have hr := roundEven_nonneg (q / (2 : ℚ) ^ (Int.log 2 |q| - 23)) (div_nonneg h hu.le)
    have hr2 : (0 : ℚ) ≤ (roundEven (q / (2 : ℚ) ^ (Int.log 2 |q| - 23)) : ℚ) := by
      exact_mod_cast hr
    exact mul_nonneg hr2 hu.le

/-- A natural number below `2 ^ 24` is a `float`. -/
theorem toFloat_natCast (n : Nat) (h : n < 2 ^ 24) : toFloat (n : ℚ) = (n : ℚ) := by
  by_cases hn : n = 0
  · rw [hn]
    simp [toFloat_zero]
  · have hq : (n : ℚ) ≠ 0 := by exact_mod_cast hn
    have hl : Nat.log 2 n < 24 := Nat.log_lt_of_lt_pow hn h
    unfold toFloat
    rw [if_neg hq, abs_of_nonneg (Nat.cast_nonneg n), Int.log_natCast]
    obtain ⟨j, hj⟩ : ∃ j : Nat, ((Nat.log 2 n : Nat) : Int) - 23 = -(j : Int) :=
      ⟨23 - Nat.log 2 n, by omega⟩
    rw [hj, zpow_neg, zpow_natCast]
    have hp : (0 : ℚ) < (2 : ℚ) ^ j := by positivity
    have e1 : (n : ℚ) / ((2 : ℚ) ^ j)⁻¹ = (((n * 2 ^ j : Nat) : Int) : ℚ) := by
      push_cast
      field_simp
    rw [e1, roundEven_intCast]
    push_cast
    field_simp

/-! ## `C_advect_velocity` in single precision, cell by cell -/

theorem advectCellFloat_v_other (v0 : Buf) (bound : Mask) (Nx Ny : Nat) (dx dy dt : ℚ)
    (x y j : Nat) (h1 : j ≠ y + x * Ny) (h2 : j ≠ Nx * Ny + (y + x * Ny)) (st : AdvectOut) :
    (advectCellFloat v0 bound Nx Ny dx dy dt x y st).v j = st.v j := by
  simp only [advectCellFloat]
  split <;> simp [store, h1, h2]

theorem advectCellFloat_ai_other (v0 : Buf) (bound : Mask) (Nx Ny : Nat) (dx dy dt : ℚ)
    (x y j : Nat) (h1 : j ≠ y + x * Ny) (h2 : j ≠ Nx * Ny + (y + x * Ny)) (st : AdvectOut) :
    (advectCellFloat v0 bound Nx Ny dx dy dt x y st).advect_indexes j = st.advect_indexes j := by
  simp only [advectCellFloat]
  split <;> simp [store, h1, h2]

theorem advectCellFloat_v_x (v0 : Buf) (bound : Mask) (Nx Ny : Nat) (dx dy dt : ℚ)
    (x y : Nat) (hN : 0 < Nx * Ny) (st : AdvectOut) :
    (advectCellFloat v0 bound Nx Ny dx dy dt x y st).v (y + x * Ny)
      = advectValueFloat v0 bound Nx Ny dx dy dt 0 x y := by
  have h : y + x * Ny ≠ Nx * Ny + (y + x * Ny) := by omega
  simp only [advectCellFloat, advectValueFloat]
  split <;> simp [store, h]

theorem advectCellFloat_v_y (v0 : Buf) (bound : Mask) (Nx Ny : Nat) (dx dy dt : ℚ)
    (x y : Nat) (st : AdvectOut) :
    (advectCellFloat v0 bound Nx Ny dx dy dt x y st).v (Nx * Ny + (y + x * Ny))
      = advectValueFloat v0 bound Nx Ny dx dy dt (Nx * Ny) x y := by
  simp only [advectCellFloat, advectValueFloat]
  split <;> simp [store]

theorem advectCellFloat_ai_x (v0 : Buf) (bound : Mask) (Nx Ny : Nat) (dx dy dt : ℚ)
    (x y : Nat) (hN : 0 < Nx * Ny) (st : AdvectOut) :
    (advectCellFloat v0 bound Nx Ny dx dy dt x y st).advect_indexes (y + x * Ny)
      = cTrunc (tracedXaFloat v0 Nx Ny dx dt x y) := by
  have h : y + x * Ny ≠ Nx * Ny + (y + x * Ny) := by omega
  simp only [advectCellFloat]
  split <;> simp [store, h]

theorem C_advect_velocity_float_v_x (v v0 : Buf) (bound : Mask) (ai : IBuf) (al : Buf)
    (Nx Ny : Nat) (dx dy dt : ℚ) (x y : Nat) (hx : x < Nx) (hy : y < Ny) :
    (C_advect_velocity_float v v0 bound ai al Nx Ny dx dy dt).v (y + x * Ny)
      = advectValueFloat v0 bound Nx Ny dx dy dt 0 x y := by
  have hN : 0 < Nx * Ny := by have := idx_lt hx hy; omega
  unfold C_advect_velocity_float
  refine forLoop2_set_at (fun _ => True) (fun st : AdvectOut => st.v (y + x * Ny)) _
    0 Nx 0 Ny x y (Nat.zero_le _) hx (Nat.zero_le _) hy
    (fun x y st => advectCellFloat v0 bound Nx Ny dx dy dt x y st) _ trivial
    (fun _ _ _ _ _ _ _ _ => trivial) ?_ ?_
  · intro st _ _
    exact advectCellFloat_v_x v0 bound Nx Ny dx dy dt x y hN st
  · intro x1 y1 _ hx1 _ hy1 hne st
    have hs := cell_index_sep hx1 hy1 hx hy hne
    exact advectCellFloat_v_other v0 bound Nx Ny dx dy dt x1 y1 _ hs.1 hs.2.1 st

theorem C_advect_velocity_float_v_y (v v0 : Buf) (bound : Mask) (ai : IBuf) (al : Buf)
    (Nx Ny : Nat) (dx dy dt : ℚ) (x y : Nat) (hx : x < Nx) (hy : y < Ny) :
    (C_advect_velocity_float v v0 bound ai al Nx Ny dx dy dt).v (Nx * Ny + (y + x * Ny))
      = advectValueFloat v0 bound Nx Ny dx dy dt (Nx * Ny) x y := by
  unfold C_advect_velocity_float
  refine forLoop2_set_at (fun _ => True) (fun st : AdvectOut => st.v (Nx * Ny + (y + x * Ny))) _
    0 Nx 0 Ny x y (Nat.zero_le _) hx (Nat.zero_le _) hy
    (fun x y st => advectCellFloat v0 bound Nx Ny dx dy dt x y st) _ trivial
    (fun _ _ _ _ _ _ _ _ => trivial) ?_ ?_
  · intro st _ _
    exact advectCellFloat_v_y v0 bound Nx Ny dx dy dt x y st
  · intro x1 y1 _ hx1 _ hy1 hne st
    have hs := cell_index_sep hx1 hy1 hx hy hne
    exact advectCellFloat_v_other v0 bound Nx Ny dx dy dt x1 y1 _ hs.2.2.1 hs.2.2.2 st

theorem C_advect_velocity_float_ai_x (v v0 : Buf) (bound : Mask) (ai : IBuf) (al : Buf)
    (Nx Ny : Nat) (dx dy dt : ℚ) (x y : Nat) (hx : x < Nx) (hy : y < Ny) :
    (C_advect_velocity_float v v0 bound ai al Nx Ny dx dy dt).advect_indexes (y + x * Ny)
      = cTrunc (tracedXaFloat v0 Nx Ny dx dt x y) := by
  have hN : 0 < Nx * Ny := by have := idx_lt hx hy; omega
  unfold C_advect_velocity_float
  refine forLoop2_set_at (fun _ => True)
    (fun st : AdvectOut => st.advect_indexes (y + x * Ny)) _
    0 Nx 0 Ny x y (Nat.zero_le _) hx (Nat.zero_le _) hy
    (fun x y st => advectCellFloat v0 bound Nx Ny dx dy dt x y st) _ trivial
    (fun _ _ _ _ _ _ _ _ => trivial) ?_ ?_
  · intro st _ _
    exact advectCellFloat_ai_x v0 bound Nx Ny dx dy dt x y hN st
  · intro x1 y1 _ hx1 _ hy1 hne st
    have hs := cell_index_sep hx1 hy1 hx hy hne
    exact advectCellFloat_ai_other v0 bound Nx Ny dx dy dt x1 y1 _ hs.1 hs.2.1 st

/-! ## The clamp in single precision -/

/-- The `float` nearest to `N - 1.01` lies in `[N - 2, N - 1)` for `2 ≤ N ≤ 262145`, and
within `2 ^ -7` of `N - 1.01`. -/
theorem toFloat_clamp_small (N : Nat) (h2 : 2 ≤ N) (hN : N ≤ 262145) :
    |toFloat ((N : ℚ) - 101 / 100) - ((N : ℚ) - 101 / 100)| ≤ 1 / 128
    ∧ (N : ℚ) - 2 ≤ toFloat ((N : ℚ) - 101 / 100)
    ∧ toFloat ((N : ℚ) - 101 / 100) < (N : ℚ) - 1 := by
  have a2 : (2 : ℚ) ≤ (N : ℚ) := by exact_mod_cast h2
  have aN : (N : ℚ) ≤ 262145 := by exact_mod_cast hN
  have hlt : |(N : ℚ) - 101 / 100| < (2 : ℚ) ^ (18 : Int) := by
    rw [abs_of_nonneg (by linarith)]
    norm_num
    linarith
  have h := toFloat_err_lt _ 18 hlt
  have e : (2 : ℚ) ^ ((18 : Int) - 25) = 1 / 128 := by norm_num [zpow_neg]
  rw [e] at h
  refine ⟨h, ?_, ?_⟩
  · linarith [(abs_le.mp h).1]
  · linarith [(abs_le.mp h).2]

/-- For `2 ≤ N ≤ 262145` the clamped `float` position lies in `[0, N - 1)`. -/
theorem clampTraceFloat_bounds (a : ℚ) (N : Nat) (h2 : 2 ≤ N) (hN : N ≤ 262145) :
    0 ≤ clampTraceFloat a N ∧ clampTraceFloat a N < (N : ℚ) - 1 := by
  have a2 : (2 : ℚ) ≤ (N : ℚ) := by exact_mod_cast h2
  have aN : (N : ℚ) ≤ 262145 := by exact_mod_cast hN
  have hc := toFloat_clamp_small N h2 hN
  unfold clampTraceFloat
  split_ifs with h1 h3
  · rw [toFloat_zero]
    constructor <;> linarith
  · constructor <;> linarith [hc.2.1, hc.2.2]
  · push_neg at h1 h3
    have hlt : |toFloat a| < (2 : ℚ) ^ (18 : Int) := by
      rw [abs_of_nonneg h1]
      norm_num
      linarith
    have h := toFloat_err_lt _ 18 hlt
    have e : (2 : ℚ) ^ ((18 : Int) - 25) = 1 / 128 := by norm_num [zpow_neg]
    rw [e] at h
    exact ⟨toFloat_nonneg _ h1, by linarith [(abs_le.mp h).2]⟩

/-- On a grid of at most 262145 cells per side the cell index computed from the clamped
`float` position is at most `N - 2`, and the fraction lies in `[0, 1)` before its own
rounding. -/
theorem cTrunc_clampTraceFloat_bounds (a : ℚ) (N : Nat) (h2 : 2 ≤ N) (hN : N ≤ 262145) :
    0 ≤ cTrunc (clampTraceFloat a N) ∧ cTrunc (clampTraceFloat a N) ≤ (N : Int) - 2
    ∧ 0 ≤ clampTraceFloat a N - (cTrunc (clampTraceFloat a N) : ℚ)
    ∧ clampTraceFloat a N - (cTrunc (clampTraceFloat a N) : ℚ) < 1 := by
  have hb := clampTraceFloat_bounds a N h2 hN
  unfold cTrunc
  rw [if_neg (not_lt.mpr hb.1)]
  refine ⟨Int.floor_nonneg.mpr hb.1, ?_, ?_, ?_⟩
  · have h : ⌊clampTraceFloat a N⌋ < (N : Int) - 1 := by
      rw [Int.floor_lt]
      push_cast
      exact hb.2
    omega
  · linarith [Int.floor_le (clampTraceFloat a N)]
  · linarith [Int.lt_floor_add_one (clampTraceFloat a N)]

/-! ## The clamp value on large grids -/

theorem toFloat_clamp_65538 : toFloat ((65538 : ℚ) - 101 / 100) = 65536 + 127 / 128 := by
  rw [toFloat_eq _ 16 8388735 (by rw [abs_of_nonneg (by norm_num)]; norm_num)
    (by rw [abs_of_nonneg (by norm_num)]; norm_num)
    (by rw [abs_lt]; norm_num [zpow_neg])]
  norm_num [zpow_neg]

theorem toFloat_clamp_262146 : toFloat ((262146 : ℚ) - 101 / 100) = 262145 := by
  rw [toFloat_eq _ 18 8388640 (by rw [abs_of_nonneg (by norm_num)]; norm_num)
    (by rw [abs_of_nonneg (by norm_num)]; norm_num)
    (by rw [abs_lt]; norm_num [zpow_neg])]
  norm_num [zpow_neg]

theorem toFloat_clamp_33554436 : toFloat ((33554436 : ℚ) - 101 / 100) = 33554436 := by
  rw [toFloat_eq _ 25 8388609 (by rw [abs_of_nonneg (by norm_num)]; norm_num)
    (by rw [abs_of_nonneg (by norm_num)]; norm_num)
    (by rw [abs_lt]; norm_num)]
  norm_num

theorem toFloat_33554435 : toFloat (33554435 : ℚ) = 33554436 := by
  rw [toFloat_eq _ 25 8388609 (by rw [abs_of_nonneg (by norm_num)]; norm_num)
    (by rw [abs_of_nonneg (by norm_num)]; norm_num)
    (by rw [abs_lt]; norm_num)]
  norm_num

theorem toFloat_127_128 : toFloat ((127 : ℚ) / 128) = 127 / 128 := by
  rw [toFloat_eq _ (-1) 16646144 (by rw [abs_of_nonneg (by norm_num)]; norm_num [zpow_neg])
    (by rw [abs_of_nonneg (by norm_num)]; norm_num)
    (by rw [abs_lt]; norm_num [zpow_neg])]
  norm_num [zpow_neg]

theorem clampTraceFloat_zero (N : Nat) (h : 2 ≤ N) : clampTraceFloat 0 N = 0 := by
  have a2 : (2 : ℚ) ≤ (N : ℚ) := by exact_mod_cast h
  unfold clampTraceFloat
  rw [toFloat_zero, if_neg (lt_irrefl 0), if_neg (by rw [ge_iff_le, not_le]; linarith),
    toFloat_zero]

/-- The position of a cell of the last column (or row) is clamped. -/
theorem clampTraceFloat_last (x N : Nat) (h : x + 1 = N) (hx : x < 2 ^ 24) :
    clampTraceFloat (x : ℚ) N = toFloat ((N : ℚ) - 101 / 100) := by
  have h1 : ((x : ℚ) + 1) = (N : ℚ) := by exact_mod_cast h
  have h0 : (0 : ℚ) ≤ (x : ℚ) := Nat.cast_nonneg x
  unfold clampTraceFloat
  rw [toFloat_natCast x hx, if_neg (not_lt.mpr h0), if_pos]
  show (N : ℚ) - 101 / 100 ≤ (x : ℚ)
  linarith

/-- The position of a cell outside the last column (or row) is not clamped. -/
theorem clampTraceFloat_inner (x N : Nat) (h : x + 2 ≤ N) (hx : x < 2 ^ 24) :
    clampTraceFloat (x : ℚ) N = (x : ℚ) := by
  have h1 : ((x : ℚ) + 2) ≤ (N : ℚ) := by exact_mod_cast h
  have h0 : (0 : ℚ) ≤ (x : ℚ) := Nat.cast_nonneg x
  unfold clampTraceFloat
  rw [toFloat_natCast x hx, if_neg (not_lt.mpr h0), if_neg, toFloat_natCast x hx]
  intro h2
  linarith

theorem tracedXaFloat_dt0 (v0 : Buf) (Nx Ny : Nat) (dx : ℚ) (x y : Nat) :
    tracedXaFloat v0 Nx Ny dx 0 x y = clampTraceFloat (x : ℚ) Nx := by
  simp [tracedXaFloat]

theorem tracedYaFloat_dt0 (v0 : Buf) (Nx Ny : Nat) (dy : ℚ) (x y : Nat) :
    tracedYaFloat v0 Nx Ny dy 0 x y = clampTraceFloat (y : ℚ) Ny := by
  simp [tracedYaFloat]

theorem cTrunc_intCast (z : Int) (hz : 0 ≤ z) : cTrunc (z : ℚ) = z := by
  have h0 : (0 : ℚ) ≤ (z : ℚ) := by exact_mod_cast hz
  unfold cTrunc
  rw [if_neg (not_lt.mpr h0)]
  exact Int.floor_intCast z

/-! ## Values written in single precision -/

/-- A fluid cell whose clamped `float` position is the cell `(xi, yi)` itself (both
fractions are 0) gets the value of the source at the index `yi + xi * Ny`. -/
theorem advectValueFloat_at_cell (v0 : Buf) (bound : Mask) (Nx Ny : Nat) (dx dy dt : ℚ)
    (plane x y xi yi : Nat) (hb : bound (y + x * Ny) = 0)
    (hxa : tracedXaFloat v0 Nx Ny dx dt x y = (xi : ℚ))
    (hya : tracedYaFloat v0 Nx Ny dy dt x y = (yi : ℚ)) :
    advectValueFloat v0 bound Nx Ny dx dy dt plane x y = v0 (plane + (yi + xi * Ny)) := by
  unfold advectValueFloat
  rw [if_pos hb, hxa, hya, cTrunc_natCast, cTrunc_natCast]
  have e5 : (plane : Int) + ((yi : Int) + (xi : Int) * (Ny : Int))
      = ((plane + (yi + xi * Ny) : Nat) : Int) := by push_cast; ring
  rw [e5]
  simp only [Int.cast_natCast, sub_self, toFloat_zero, advect_sample, ptrAdd_natCast]
  ring_nf

/-- The integer part of the clamp value on a grid of at most 262145 cells per side. -/
theorem cTrunc_clamp_small (x N : Nat) (h : x + 2 = N) (hN : N ≤ 262145) :
    cTrunc (toFloat ((N : ℚ) - 101 / 100)) = (x : Int) := by
  have h1 : ((x : ℚ) + 2) = (N : ℚ) := by exact_mod_cast h
  have hc := toFloat_clamp_small N (by omega) hN
  have h0 : (0 : ℚ) ≤ (x : ℚ) := Nat.cast_nonneg x
  unfold cTrunc
  rw [if_neg (by rw [not_lt]; linarith [hc.2.1]), Int.floor_eq_iff]
  constructor
  · push_cast
    linarith [hc.2.1]
  · push_cast
    linarith [hc.2.2]

/-- The fraction at the clamp value is 0.99 up to the rounding to `float`. -/
theorem clampFraction_near (N : Nat) (h2 : 3 ≤ N) (hN : N ≤ 262145) :
    |clampFraction N - 99 / 100| < 1 / 100 := by
  have hc := toFloat_clamp_small N (by omega) hN
  have hz : |toFloat ((N : ℚ) - 101 / 100) - ((N : ℚ) - 2)| < (2 : ℚ) ^ (0 : Int) := by
    rw [abs_of_nonneg (by linarith [hc.2.1])]
    norm_num
    linarith [hc.2.2]
  have h := toFloat_err_lt _ 0 hz
  have e : (2 : ℚ) ^ ((0 : Int) - 25) = 1 / 33554432 := by norm_num [zpow_neg]
  rw [e] at h
  have a := abs_le.mp hc.1
  have b := abs_le.mp h
  unfold clampFraction
  rw [abs_lt]
  constructor <;> linarith [a.1, a.2, b.1, b.2]

/-- With `dt = 0` a solid cell, and a cell outside the last row and column, keeps the
value of the source field, in single precision too. -/
theorem advectValueFloat_dt0 (v0 : Buf) (bound : Mask) (Nx Ny : Nat) (dx dy : ℚ)
    (plane x y : Nat) (hx : x < 2 ^ 24) (hy : y < 2 ^ 24)
    (h : bound (y + x * Ny) ≠ 0 ∨ (x + 2 ≤ Nx ∧ y + 2 ≤ Ny)) :
    advectValueFloat v0 bound Nx Ny dx dy 0 plane x y = v0 (plane + (y + x * Ny)) := by
  by_cases hb : bound (y + x * Ny) = 0
  · rcases h with h | ⟨hxl, hyl⟩
    · exact absurd hb h
    · exact advectValueFloat_at_cell v0 bound Nx Ny dx dy 0 plane x y x y hb
        (by rw [tracedXaFloat_dt0, clampTraceFloat_inner x Nx hxl hx])
        (by rw [tracedYaFloat_dt0, clampTraceFloat_inner y Ny hyl hy])
  · unfold advectValueFloat
    rw [if_neg hb]

/-- With `dt = 0` a fluid cell of the last column (not in the last row) of a grid of at
most 262145 columns is blended with its neighbour, with the weight `clampFraction Nx`. -/
theorem advectValueFloat_dt0_lastcol (v0 : Buf) (bound : Mask) (Nx Ny : Nat) (dx dy : ℚ)
    (plane x y : Nat) (hb : bound (y + (x + 1) * Ny) = 0) (hx : x + 2 = Nx) (hy : y + 2 ≤ Ny)
    (hNx : Nx ≤ 262145) (hNy : Ny ≤ 262145) :
    advectValueFloat v0 bound Nx Ny dx dy 0 plane (x + 1) y
      = (1 - clampFraction Nx) * v0 (plane + (y + x * Ny))
        + clampFraction Nx * v0 (plane + (y + (x + 1) * Ny)) := by
  unfold advectValueFloat
  rw [if_pos hb]
  have hN : ((x : ℚ) + 2) = (Nx : ℚ) := by exact_mod_cast hx
  have a1 : tracedXaFloat v0 Nx Ny dx 0 (x + 1) y = toFloat ((Nx : ℚ) - 101 / 100) := by
    rw [tracedXaFloat_dt0, clampTraceFloat_last (x + 1) Nx (by omega) (by norm_num; omega)]
  have a2 : tracedYaFloat v0 Nx Ny dy 0 (x + 1) y = (y : ℚ) := by
    rw [tracedYaFloat_dt0, clampTraceFloat_inner y Ny hy (by norm_num; omega)]
  rw [a1, a2, cTrunc_clamp_small x Nx hx hNx, cTrunc_natCast]
  have e3 : toFloat (toFloat ((Nx : ℚ) - 101 / 100) - (((x : Int) : ℚ))) = clampFraction Nx := by
    unfold clampFraction
    congr 2
    push_cast
    linarith
  rw [e3]
  have e5 : (plane : Int) + ((y : Int) + (x : Int) * (Ny : Int))
      = ((plane + (y + x * Ny) : Nat) : Int) := by push_cast; ring
  rw [e5]
  simp only [Int.cast_natCast, sub_self, toFloat_zero, advect_sample, ptrAdd_natCast]
  have e6 : plane + (y + x * Ny) + Ny = plane + (y + (x + 1) * Ny) := by ring
  rw [e6]
  ring_nf

/-- With `dt = 0` a fluid cell of the last row (not in the last column) of a grid of at
most 262145 rows is blended with its neighbour, with the weight `clampFraction Ny`. -/
theorem advectValueFloat_dt0_lastrow (v0 : Buf) (bound : Mask) (Nx Ny : Nat) (dx dy : ℚ)
    (plane x y : Nat) (hb : bound ((y + 1) + x * Ny) = 0) (hx : x + 2 ≤ Nx) (hy : y + 2 = Ny)
    (hNx : Nx ≤ 262145) (hNy : Ny ≤ 262145) :
    advectValueFloat v0 bound Nx Ny dx dy 0 plane x (y + 1)
      = (1 - clampFraction Ny) * v0 (plane + (y + x * Ny))
        + clampFraction Ny * v0 (plane + ((y + 1) + x * Ny)) := by
  unfold advectValueFloat
  rw [if_pos hb]
  have hN : ((y : ℚ) + 2) = (Ny : ℚ) := by exact_mod_cast hy
  have a1 : tracedXaFloat v0 Nx Ny dx 0 x (y + 1) = (x : ℚ) := by
    rw [tracedXaFloat_dt0, clampTraceFloat_inner x Nx hx (by norm_num; omega)]
  have a2 : tracedYaFloat v0 Nx Ny dy 0 x (y + 1) = toFloat ((Ny : ℚ) - 101 / 100) := by
    rw [tracedYaFloat_dt0, clampTraceFloat_last (y + 1) Ny (by omega) (by norm_num; omega)]
  rw [a1, a2, cTrunc_clamp_small y Ny hy hNy, cTrunc_natCast]
  have e3 : toFloat (toFloat ((Ny : ℚ) - 101 / 100) - (((y : Int) : ℚ))) = clampFraction Ny := by
    unfold clampFraction
    congr 2
    push_cast
    linarith
  rw [e3]
  have e5 : (plane : Int) + ((y : Int) + (x : Int) * (Ny : Int))
      = ((plane + (y + x * Ny) : Nat) : Int) := by push_cast; ring
  rw [e5]
  simp only [Int.cast_natCast, sub_self, toFloat_zero, advect_sample, ptrAdd_natCast]
  have e6 : plane + (y + x * Ny) + 1 = plane + ((y + 1) + x * Ny) := by ring
  rw [e6]
  ring_nf

/-! ## The clamp of line 43 on a grid of 262146 columns -/

theorem tracedXaFloat_262146 (v0 : Buf) (dx : ℚ) :
    tracedXaFloat v0 262146 3 dx 0 262145 0 = ((262145 : Nat) : ℚ) := by
  rw [tracedXaFloat_dt0, clampTraceFloat_last 262145 262146 (by norm_num) (by norm_num)]
  push_cast
  exact toFloat_clamp_262146

theorem tracedYaFloat_row0 (v0 : Buf) (Nx Ny : Nat) (dy : ℚ) (x : Nat) (h : 2 ≤ Ny) :
    tracedYaFloat v0 Nx Ny dy 0 x 0 = ((0 : Nat) : ℚ) := by
  rw [tracedYaFloat_dt0]
  push_cast
  exact clampTraceFloat_zero Ny h

/-- C2 fails in the code on a grid of 262146 columns. With `dt = 0`, whatever the field
and the spacings, the `float` position `xa` of the cell `(262145, 0)` after line 43 is
`262145 = Nx - 1`, above `Nx - 1.01`; the cell index is `xi = Nx - 1`, not `≤ Nx - 2`;
the index `iidx + Ny` read by `advect_sample` is `Nx * Ny`, outside `[0, Nx * Ny)`; and
in the y-component the index `Nx * Ny + iidx + Ny` is `Nx * Ny * 2`, the length of the
array. -/
theorem C2_float_clamp_leaves_plane (v0 : Buf) (dx dy : ℚ) :
    tracedXaFloat v0 262146 3 dx 0 262145 0 = 262145
    ∧ (262146 : ℚ) - 101 / 100 < tracedXaFloat v0 262146 3 dx 0 262145 0
    ∧ cTrunc (tracedXaFloat v0 262146 3 dx 0 262145 0) = 262146 - 1
    ∧ cTrunc (tracedYaFloat v0 262146 3 dy 0 262145 0) = 0
    ∧ cTrunc (tracedYaFloat v0 262146 3 dy 0 262145 0)
        + cTrunc (tracedXaFloat v0 262146 3 dx 0 262145 0) * ((3 : Nat) : Int) + ((3 : Nat) : Int)
        = ((262146 * 3 : Nat) : Int)
    ∧ ((262146 * 3 : Nat) : Int) + (cTrunc (tracedYaFloat v0 262146 3 dy 0 262145 0)
        + cTrunc (tracedXaFloat v0 262146 3 dx 0 262145 0) * ((3 : Nat) : Int)) + ((3 : Nat) : Int)
        = ((262146 * 3 * 2 : Nat) : Int) := by
  rw [tracedXaFloat_262146, tracedYaFloat_row0 v0 262146 3 dy 262145 (by norm_num),
    cTrunc_natCast, cTrunc_natCast]
  norm_num

/-- C15 fails in the code on the all-fluid grid of 262146 x 3 cells with `dx = dy = 1`,
`dt = 0` and the x-velocity 1 at the cell `(262144, 0)`, 0 elsewhere. At the fluid cell
`(262145, 0)` the code caches the cell index `xi = 262145 = Nx - 1` and writes the
x-velocity 0, the value of the source at that same cell; the sample at the position
clamped to `Nx - 1.01` is `1/100`. -/
theorem C15_float_clamp_sample (v : Buf) (ai : IBuf) (al : Buf) :
    (C_advect_velocity_float v (unitField (0 + 262144 * 3)) (fun _ => 0) ai al
        262146 3 1 1 0).advect_indexes (0 + 262145 * 3) = 262146 - 1
    ∧ (C_advect_velocity_float v (unitField (0 + 262144 * 3)) (fun _ => 0) ai al
        262146 3 1 1 0).v (0 + 262145 * 3) = 0
    ∧ advect_sample
        (ptrAdd (unitField (0 + 262144 * 3))
          (cTrunc (clampTrace 0 3) + cTrunc (clampTrace 262145 262146) * ((3 : Nat) : Int)))
        3 (clampTrace 262145 262146 - (cTrunc (clampTrace 262145 262146) : ℚ))
        (clampTrace 0 3 - (cTrunc (clampTrace 0 3) : ℚ)) = 1 / 100 := by
  refine ⟨?_, ?_, ?_⟩
  · rw [C_advect_velocity_float_ai_x _ _ _ _ _ _ _ _ _ _ 262145 0 (by norm_num) (by norm_num),
      tracedXaFloat_262146, cTrunc_natCast]
    norm_num
  · rw [C_advect_velocity_float_v_x _ _ _ _ _ _ _ _ _ _ 262145 0 (by norm_num) (by norm_num),
      advectValueFloat_at_cell _ _ 262146 3 1 1 0 0 262145 0 262145 0 rfl
        (tracedXaFloat_262146 _ 1) (tracedYaFloat_row0 _ 262146 3 1 262145 (by norm_num))]
    simp [unitField]
  · have c1 : clampTrace (262145 : ℚ) 262146 = 262146 - 101 / 100 := by
      have := clampTrace_last 262145 262146 (by norm_num)
      push_cast at this
      exact this
    have c2 : clampTrace (0 : ℚ) 3 = 0 := by
      have := clampTrace_inner 0 3 (by norm_num)
      push_cast at this
      exact this
    have t1 : cTrunc ((262146 : ℚ) - 101 / 100) = ((262144 : Nat) : Int) := by
      have := cTrunc_last 262144 262146 (by norm_num)
      push_cast at this
      exact_mod_cast this
    have t2 : cTrunc (0 : ℚ) = ((0 : Nat) : Int) := by
      have := cTrunc_natCast 0
      push_cast at this
      exact_mod_cast this
    rw [c1, c2, t1, t2]
    have e5 : (((0 : Nat) : Int) + ((262144 : Nat) : Int) * ((3 : Nat) : Int))
        = ((0 + 262144 * 3 : Nat) : Int) := by norm_num
    rw [e5]
    simp only [advect_sample, ptrAdd_natCast, unitField]
    norm_num

/-! ## Zero time step in single precision -/

theorem clampFraction_65538 : clampFraction 65538 = 127 / 128 := by
  unfold clampFraction
  push_cast
  rw [toFloat_clamp_65538]
  have e : (65536 : ℚ) + 127 / 128 - (65538 - 2) = 127 / 128 := by norm_num
  rw [e, toFloat_127_128]

/-- C19 (amended): on a grid with `3 ≤ Nx, Ny ≤ 262145`, `C_advect_velocity` with `dt = 0`
returns the value of `v0`, in both components, at every cell with `x ≤ Nx - 2` and
`y ≤ Ny - 2` and at every solid cell; at a fluid cell of the last column (`x = Nx - 1`,
`y ≤ Ny - 2`) it returns `(1 - w) * v0(Nx-2, y) + w * v0(Nx-1, y)` per component, where
`w = clampFraction Nx` is the fraction the code computes from the `float` nearest to
`Nx - 1.01`, and at a fluid cell of the last row (`y = Ny - 1`, `x ≤ Nx - 2`) it returns
`(1 - w) * v0(x, Ny-2) + w * v0(x, Ny-1)` with `w = clampFraction Ny`; these weights are
within `0.01` of `0.99`. -/
theorem C19_zero_dt_advection_float (v v0 : Buf) (bound : Mask) (ai : IBuf) (al : Buf)
    (Nx Ny : Nat) (dx dy : ℚ) (x y : Nat) (hNx : 3 ≤ Nx) (hNy : 3 ≤ Ny) (hNx1 : Nx ≤ 262145)
    (hNy1 : Ny ≤ 262145) (hx : x < Nx) (hy : y < Ny) :
    ((bound (y + x * Ny) ≠ 0 ∨ (x + 2 ≤ Nx ∧ y + 2 ≤ Ny)) →
      (C_advect_velocity_float v v0 bound ai al Nx Ny dx dy 0).v (y + x * Ny) = v0 (y + x * Ny)
      ∧ (C_advect_velocity_float v v0 bound ai al Nx Ny dx dy 0).v (Nx * Ny + (y + x * Ny))
          = v0 (Nx * Ny + (y + x * Ny)))
    ∧ (bound (y + x * Ny) = 0 → x + 1 = Nx → y + 2 ≤ Ny →
      (C_advect_velocity_float v v0 bound ai al Nx Ny dx dy 0).v (y + x * Ny)
          = (1 - clampFraction Nx) * v0 (y + (x - 1) * Ny) + clampFraction Nx * v0 (y + x * Ny)
      ∧ (C_advect_velocity_float v v0 bound ai al Nx Ny dx dy 0).v (Nx * Ny + (y + x * Ny))
          = (1 - clampFraction Nx) * v0 (Nx * Ny + (y + (x - 1) * Ny))
            + clampFraction Nx * v0 (Nx * Ny + (y + x * Ny)))
    ∧ (bound (y + x * Ny) = 0 → y + 1 = Ny → x + 2 ≤ Nx →
      (C_advect_velocity_float v v0 bound ai al Nx Ny dx dy 0).v (y + x * Ny)
          = (1 - clampFraction Ny) * v0 ((y - 1) + x * Ny) + clampFraction Ny * v0 (y + x * Ny)
      ∧ (C_advect_velocity_float v v0 bound ai al Nx Ny dx dy 0).v (Nx * Ny + (y + x * Ny))
          = (1 - clampFraction Ny) * v0 (Nx * Ny + ((y - 1) + x * Ny))
            + clampFraction Ny * v0 (Nx * Ny + (y + x * Ny)))
    ∧ |clampFraction Nx - 99 / 100| < 1 / 100 ∧ |clampFraction Ny - 99 / 100| < 1 / 100 := by
  have hx24 : x < 2 ^ 24 := by norm_num; omega
  have hy24 : y < 2 ^ 24 := by norm_num; omega
  rw [C_advect_velocity_float_v_x _ _ _ _ _ _ _ _ _ _ x y hx hy,
    C_advect_velocity_float_v_y _ _ _ _ _ _ _ _ _ _ x y hx hy]
  refine ⟨fun h => ?_, fun hb hxl hyl => ?_, fun hb hyl hxl => ?_,
    clampFraction_near Nx hNx hNx1, clampFraction_near Ny hNy hNy1⟩
  · rw [advectValueFloat_dt0 _ _ _ _ _ _ 0 x y hx24 hy24 h,
      advectValueFloat_dt0 _ _ _ _ _ _ (Nx * Ny) x y hx24 hy24 h, Nat.zero_add]
    exact ⟨rfl, rfl⟩
  · obtain ⟨k, rfl⟩ : ∃ k, x = k + 1 := ⟨x - 1, by omega⟩
    rw [advectValueFloat_dt0_lastcol _ _ _ _ _ _ 0 k y hb (by omega) hyl hNx1 hNy1,
      advectValueFloat_dt0_lastcol _ _ _ _ _ _ (Nx * Ny) k y hb (by omega) hyl hNx1 hNy1,
      Nat.zero_add, Nat.zero_add, Nat.add_sub_cancel]
    exact ⟨rfl, rfl⟩
  · obtain ⟨k, rfl⟩ : ∃ k, y = k + 1 := ⟨y - 1, by omega⟩
    rw [advectValueFloat_dt0_lastrow _ _ _ _ _ _ 0 x k hb hxl (by omega) hNx1 hNy1,
      advectValueFloat_dt0_lastrow _ _ _ _ _ _ (Nx * Ny) x k hb hxl (by omega) hNx1 hNy1,
      Nat.zero_add, Nat.zero_add, Nat.add_sub_cancel]
    exact ⟨rfl, rfl⟩

/-- C19 on the all-fluid 3x3 grid: the cell `(1, 1)` keeps its value, the cell `(2, 1)` of
the last column and the cell `(1, 2)` of the last row are blended with their neighbour,
with a weight within `0.01` of `0.99`. -/
theorem C19_zero_dt_advection_float_witness :
    (C_advect_velocity_float (fun _ => 0) slipField (fun _ => 0) (fun _ => 0) (fun _ => 0)
        3 3 1 1 0).v (1 + 1 * 3) = slipField (1 + 1 * 3)
    ∧ (C_advect_velocity_float (fun _ => 0) slipField (fun _ => 0) (fun _ => 0) (fun _ => 0)
        3 3 1 1 0).v (1 + 2 * 3)
        = (1 - clampFraction 3) * slipField (1 + (2 - 1) * 3)
          + clampFraction 3 * slipField (1 + 2 * 3)
    ∧ (C_advect_velocity_float (fun _ => 0) slipField (fun _ => 0) (fun _ => 0) (fun _ => 0)
        3 3 1 1 0).v (2 + 1 * 3)
        = (1 - clampFraction 3) * slipField ((2 - 1) + 1 * 3)
          + clampFraction 3 * slipField (2 + 1 * 3)
    ∧ |clampFraction 3 - 99 / 100| < 1 / 100 :=
  ⟨((C19_zero_dt_advection_float (fun _ => 0) slipField (fun _ => 0) (fun _ => 0)
      (fun _ => 0) 3 3 1 1 1 1 (by decide) (by decide) (by decide) (by decide) (by decide)
      (by decide)).1 (Or.inr ⟨by decide, by decide⟩)).1,
   ((C19_zero_dt_advection_float (fun _ => 0) slipField (fun _ => 0) (fun _ => 0)
      (fun _ => 0) 3 3 1 1 2 1 (by decide) (by decide) (by decide) (by decide) (by decide)
      (by decide)).2.1 rfl rfl (by decide)).1,
   ((C19_zero_dt_advection_float (fun _ => 0) slipField (fun _ => 0) (fun _ => 0)
      (fun _ => 0) 3 3 1 1 1 2 (by decide) (by decide) (by decide) (by decide) (by decide)
      (by decide)).2.2.1 rfl rfl (by decide)).1,
   (C19_zero_dt_advection_float (fun _ => 0) slipField (fun _ => 0) (fun _ => 0)
      (fun _ => 0) 3 3 1 1 1 1 (by decide) (by decide) (by decide) (by decide) (by decide)
      (by decide)).2.2.2.1⟩

/-- C19 as stated fails: on the all-fluid grid of 65538 x 3 cells with `dx = dy = 1`,
`dt = 0` and the x-velocity 1 at the cell `(65536, 0)`, 0 elsewhere, the fluid cell
`(65537, 0)` of the last column gets `1/128`, the weights being `1/128` and `127/128`,
while `0.01 * v0(Nx-2, 0) + 0.99 * v0(Nx-1, 0)` is `1/100`. On the all-fluid grid of
262146 x 3 cells with the x-velocity 1 at the cell `(262145, 0)`, 0 elsewhere, the fluid
cell `(262145, 0)` gets 1, the value of the source at that cell, while
`0.01 * v0(Nx-2, 0) + 0.99 * v0(Nx-1, 0)` is `99/100`. -/
theorem C19_zero_dt_counterexample :
    (C_advect_velocity_float (fun _ => 0) (unitField (0 + 65536 * 3)) (fun _ => 0) (fun _ => 0)
        (fun _ => 0) 65538 3 1 1 0).v (0 + 65537 * 3) = 1 / 128
    ∧ 1 / 100 * unitField (0 + 65536 * 3) (0 + (65537 - 1) * 3)
        + 99 / 100 * unitField (0 + 65536 * 3) (0 + 65537 * 3) = 1 / 100
    ∧ clampFraction 65538 = 127 / 128
    ∧ (C_advect_velocity_float (fun _ => 0) (unitField (0 + 262145 * 3)) (fun _ => 0)
        (fun _ => 0) (fun _ => 0) 262146 3 1 1 0).v (0 + 262145 * 3) = 1
    ∧ 1 / 100 * unitField (0 + 262145 * 3) (0 + (262145 - 1) * 3)
        + 99 / 100 * unitField (0 + 262145 * 3) (0 + 262145 * 3) = 99 / 100 := by
  refine ⟨?_, ?_, clampFraction_65538, ?_, ?_⟩
  · rw [C_advect_velocity_float_v_x _ _ _ _ _ _ _ _ _ _ 65537 0 (by norm_num) (by norm_num),
      advectValueFloat_dt0_lastcol _ _ 65538 3 1 1 0 65536 0 rfl (by norm_num) (by norm_num)
        (by norm_num) (by norm_num), clampFraction_65538]
    simp [unitField]
    norm_num
  · simp [unitField]
  · rw [C_advect_velocity_float_v_x _ _ _ _ _ _ _ _ _ _ 262145 0 (by norm_num) (by norm_num),
      advectValueFloat_at_cell _ _ 262146 3 1 1 0 0 262145 0 262145 0 rfl
        (tracedXaFloat_262146 _ 1) (tracedYaFloat_row0 _ 262146 3 1 262145 (by norm_num))]
    simp [unitField]
  · simp [unitField]

/-! ## The maximum principle on a grid of 33554436 columns -/

theorem foldr_max_le (l : List ℚ) (a M : ℚ) (ha : a ≤ M) (hl : ∀ x ∈ l, x ≤ M) :
    l.foldr max a ≤ M := by
  induction l with
  | nil => exact ha
  | cons b l ih =>
    rw [List.foldr_cons]
    exact max_le (hl b (List.mem_cons_self b l))
      (ih (fun x hx => hl x (List.mem_cons_of_mem b hx)))

theorem planeMax_le (v : Buf) (plane n : Nat) (M : ℚ) (h0 : v plane ≤ M)
    (h : ∀ i, i < n → v (plane + i) ≤ M) : planeMax v plane n ≤ M := by
  unfold planeMax
  refine foldr_max_le _ _ _ h0 ?_
  intro x hx
  obtain ⟨i, hi, rfl⟩ := List.mem_map.mp hx
  exact h i (List.mem_range.mp hi)

theorem tracedXaFloat_33554436 (v0 : Buf) (dx : ℚ) :
    tracedXaFloat v0 33554436 3 dx 0 33554435 0 = ((33554436 : Nat) : ℚ) := by
  rw [tracedXaFloat_dt0]
  unfold clampTraceFloat
  push_cast
  rw [toFloat_33554435, if_neg (by norm_num), if_pos (by norm_num), toFloat_clamp_33554436]

/-- C20 fails in the code on the all-fluid grid of 33554436 x 3 cells with `dx = dy = 1`,
`dt = 0`, the x-velocity 0 and the y-velocity 1 everywhere. The `float` nearest to
`Nx - 1.01` is `Nx`; the fluid cell `(33554435, 0)` caches the cell index `xi = Nx`
and gets the x-velocity 1, read at the index `Nx * Ny` in the y-component of `v0`,
above the maximum 0 of the x-component of `v0`. -/
theorem C20_float_clamp_breaks_maximum :
    (C_advect_velocity_float (fun _ => 0) (planeStep (33554436 * 3)) (fun _ => 0) (fun _ => 0)
        (fun _ => 0) 33554436 3 1 1 0).advect_indexes (0 + 33554435 * 3) = 33554436
    ∧ (C_advect_velocity_float (fun _ => 0) (planeStep (33554436 * 3)) (fun _ => 0)
        (fun _ => 0) (fun _ => 0) 33554436 3 1 1 0).v (0 + 33554435 * 3) = 1
    ∧ planeMax (planeStep (33554436 * 3)) 0 (33554436 * 3) ≤ 0
    ∧ planeMax (planeStep (33554436 * 3)) 0 (33554436 * 3)
        < (C_advect_velocity_float (fun _ => 0) (planeStep (33554436 * 3)) (fun _ => 0)
            (fun _ => 0) (fun _ => 0) 33554436 3 1 1 0).v (0 + 33554435 * 3) := by
  have h1 : (C_advect_velocity_float (fun _ => 0) (planeStep (33554436 * 3)) (fun _ => 0)
      (fun _ => 0) (fun _ => 0) 33554436 3 1 1 0).v (0 + 33554435 * 3) = 1 := by
    rw [C_advect_velocity_float_v_x _ _ _ _ _ _ _ _ _ _ 33554435 0 (by norm_num) (by norm_num),
      advectValueFloat_at_cell _ _ 33554436 3 1 1 0 0 33554435 0 33554436 0 rfl
        (tracedXaFloat_33554436 _ 1) (tracedYaFloat_row0 _ 33554436 3 1 33554435 (by norm_num))]
    simp [planeStep]
  have h2 : planeMax (planeStep (33554436 * 3)) 0 (33554436 * 3) ≤ 0 := by
    refine planeMax_le _ _ _ 0 ?_ ?_
    · simp [planeStep]
    · intro i hi
      have hlt : 0 + i < 33554436 * 3 := by omega
      unfold planeStep
      rw [if_pos hlt]
  refine ⟨?_, h1, h2, ?_⟩
  · rw [C_advect_velocity_float_ai_x _ _ _ _ _ _ _ _ _ _ 33554435 0 (by norm_num) (by norm_num),
      tracedXaFloat_33554436, cTrunc_natCast]
    norm_num
  · rw [h1]
    exact lt_of_le_of_lt h2 (by norm_num)

end AltSim
